import Mathlib

/-!
The drivers `src/main/stats.cxx` and `src/test/testmpi.cxx` of microhh2.

Both programs are a `main` that sequences calls on collaborator objects whose
code is not part of the two files.  The embedding keeps `main` and treats every
collaborator as an oracle: an answer is an arbitrary function of the calls the
collaborators have received so far (with the answers they gave).  `main`
becomes a function from an oracle to the sequence of events it produces and
its exit status.

Scalars of type `double` are an arbitrary carrier `R` with a zero and a
subtraction (`cputime = 0`, `cputime = end - start`); no other arithmetic is
performed on them by `main`.  The implicit destruction of the objects when
`main` is left is not part of the model.

An execution is the list of its events, in program order: a tested call with
the status it returned, a call whose result is not tested, a call of one of
the predicates `docheck`, `dostats`, `dosave`, `insubstep` with its answer, a
call that returns a scalar with its answer, a read of the data member
`timeloop.loop`, an operation on the summary file.  The data members
`timeloop.iteration`, `timeloop.time`, `timeloop.dt`, `timeloop.loop`,
`mpi.mpiid`, `mpi.npx`, `mpi.npy` are read from the oracle at the moment of
use.  `while(true)` is unrolled for at most `fuel` passes; an execution that
has not returned by then has exit status `none`.

`main` does not test the result of `std::fopen` (line 128).  The model has the
answer of `std::fopen` in the oracle; when it is `NULL` the call of
`std::setvbuf` on the null stream (line 129) is the last event, the execution
is marked `killed` and has no exit status.
-/

namespace Stats

variable {R : Type}

/-- The objects constructed at `stats.cxx:24-46`, in order of construction. -/
inductive Obj
  | mpi | input | grid | fields | boundary | timeloop | advec | diff | pres
  | force | buoyancy | buffer | stats | cross
  deriving DecidableEq

/-- The calls whose `int` result `main` tests (`if(x.f()) return 1;`). -/
inductive Step
  | input_readinifile (simname : String)
  | mpi_readinifile | grid_readinifile | fields_readinifile | boundary_readinifile
  | advec_readinifile | diff_readinifile | force_readinifile | buoyancy_readinifile
  | buffer_readinifile | pres_readinifile | timeloop_readinifile | stats_readinifile
  | cross_readinifile
  | mpi_init | grid_init | fields_init | buffer_init | pres_init | stats_init
  | grid_load
  | timeloop_load (iteration : Int)
  | fields_load (iteration : Int)
  | buffer_load
  | stats_create (simname : String) (iteration : Int)
  | boundary_setvalues | diff_setvalues | pres_setvalues
  deriving DecidableEq

/-- The calls whose result `main` does not use.  The last four occur in the
source only inside the comment block `stats.cxx:199-215`. -/
inductive Action (R : Type)
  | construct (x : Obj)
  | mpi_startup
  | input_clear
  | boundary_exec
  | settimestep (cfl dn : R)
  | advec_exec
  | diff_exec
  | force_exec (subdt : R)
  | buoyancy_exec
  | buffer_exec
  | pres_exec (subdt : R)
  | p_save (iteration : Int)
  | stats_exec (iteration : Int) (time : R)
  | cross_exec (iteration : Int)
  | postprocstep
  | timeloop_exec
  | timeloop_timestep
  | timeloop_save (iteration : Int)
  | fields_save (iteration : Int)
  deriving DecidableEq

/-- The `bool` member functions of `timeloop` that `main` calls. -/
inductive Pred
  | docheck | dostats | dosave | insubstep
  deriving DecidableEq

/-- The calls that return a `double`. -/
inductive Query (R : Type)
  | getcfl (dt : R)
  | getdn (dt : R)
  | getsubdt
  | pres_check
  | checkmom
  | checktke
  | checkmass
  | gettime
  deriving DecidableEq

/-- One argument of a `std::fprintf` call. -/
inductive Arg (R : Type)
  | str (s : String)
  | int (i : Int)
  | dbl (r : R)
  deriving DecidableEq

/-- The operations on the summary file `dnsout`.  `fopen` carries its answer:
whether the stream returned is not `NULL`. -/
inductive FileOp (R : Type)
  | fopen (name mode : String) (opened : Bool)
  | setvbuf
  | fprintf (format : String) (args : List (Arg R))
  | fclose
  deriving DecidableEq

/-- What `main` does, one event per call, with the answer it received.
`loop b` is a test of the data member `timeloop.loop` that read `b`. -/
inductive Ev (R : Type)
  | step (s : Step) (rc : Int)
  | act (a : Action R)
  | pred (p : Pred) (b : Bool)
  | query (q : Query R) (v : R)
  | loop (b : Bool)
  | file (f : FileOp R)
  deriving DecidableEq

/-- The events that are calls on a collaborator. -/
def Ev.isCall : Ev R → Bool
  | .step _ _ => true
  | .act _ => true
  | .pred _ _ => true
  | .query _ _ => true
  | .loop _ => false
  | .file _ => false

/-- The calls the collaborators have received, in order: what their state and
their answers can depend on. -/
def collab (t : List (Ev R)) : List (Ev R) :=
  t.filter Ev.isCall

/-- The collaborators.  Every answer and every data member that `main` reads
is a function of the calls made so far.  `fopen` is the answer of the C
library to `std::fopen(name, mode)`: whether it returns a stream. -/
structure Oracle (R : Type) where
  status : List (Ev R) → Step → Int
  flag : List (Ev R) → Pred → Bool
  value : List (Ev R) → Query R → R
  iteration : List (Ev R) → Int
  time : List (Ev R) → R
  dt : List (Ev R) → R
  loop : List (Ev R) → Bool
  mpiid : List (Ev R) → Int
  fopen : List (Ev R) → String → String → Bool

/-- An entry of a straight-line sequence of calls: a tested call, whose
arguments are read when it is made, or a call whose result is not used. -/
inductive Item (R : Type)
  | check (mk : Oracle R → List (Ev R) → Step)
  | perform (a : Action R)

/-- A tested call without arguments read from the collaborators. -/
def Item.const (s : Step) : Item R :=
  .check fun _ _ => s

/-- Runs a sequence of items after the trace `t`: the events produced and
whether every tested call returned zero.  A tested call that returns non-zero
ends the sequence (`return 1`). -/
def runSteps (o : Oracle R) : List (Item R) → List (Ev R) → List (Ev R) × Bool
  | [], _ => ([], true)
  | .perform a :: is, t =>
      let r := runSteps o is (t ++ [.act a])
      (.act a :: r.1, r.2)
  | .check mk :: is, t =>
      let s := mk o (collab t)
      let rc := o.status (collab t) s
      if rc ≠ 0 then ([.step s rc], false)
      else
        let r := runSteps o is (t ++ [.step s rc])
        (.step s rc :: r.1, r.2)

/-- The simulation name, `stats.cxx:19-21`. -/
def simnameOf (argv : List String) : String :=
  if argv.length > 1 then argv.getD 1 "microhh" else "microhh"

/-- Lines 24-46: the objects are created. -/
def constructItems : List (Item R) :=
  [ .perform (.construct .mpi), .perform .mpi_startup,
    .perform (.construct .input), .perform (.construct .grid),
    .perform (.construct .fields), .perform (.construct .boundary),
    .perform (.construct .timeloop), .perform (.construct .advec),
    .perform (.construct .diff), .perform (.construct .pres),
    .perform (.construct .force), .perform (.construct .buoyancy),
    .perform (.construct .buffer), .perform (.construct .stats),
    .perform (.construct .cross) ]

/-- Lines 48-76: read the input data. -/
def readItems (simname : String) : List (Item R) :=
  [ .const (.input_readinifile simname), .const .mpi_readinifile,
    .const .grid_readinifile, .const .fields_readinifile,
    .const .boundary_readinifile, .const .advec_readinifile,
    .const .diff_readinifile, .const .force_readinifile,
    .const .buoyancy_readinifile, .const .buffer_readinifile,
    .const .pres_readinifile, .const .timeloop_readinifile,
    .const .stats_readinifile, .const .cross_readinifile ]

/-- Lines 78-93: init, then free the memory of the input. -/
def initItems : List (Item R) :=
  [ .const .mpi_init, .const .grid_init, .const .fields_init,
    .const .buffer_init, .const .pres_init, .const .stats_init,
    .perform .input_clear ]

/-- Lines 95-105: fill the fields with data. -/
def loadItems (simname : String) : List (Item R) :=
  [ .const .grid_load,
    .check (fun o h => .timeloop_load (o.iteration h)),
    .check (fun o h => .fields_load (o.iteration h)),
    .const .buffer_load,
    .check (fun o h => .stats_create simname (o.iteration h)) ]

/-- Lines 107-113. -/
def setvaluesItems : List (Item R) :=
  [ .const .boundary_setvalues, .const .diff_setvalues, .const .pres_setvalues ]

/-- Lines 24-113 of `main`. -/
def startupItems (simname : String) : List (Item R) :=
  constructItems ++ readItems simname ++ initItems ++ loadItems simname ++ setvaluesItems

/-- The format of the header line, `stats.cxx:130`. -/
def headerFormat : String := "%8s %11s %10s %11s %8s %8s %11s %16s %16s %16s\n"

/-- The format of a record, `stats.cxx:155` and `stats.cxx:251`. -/
def recordFormat : String :=
  "%8d %11.3E %10.4f %11.3E %8.4f %8.4f %11.3E %16.8E %16.8E %16.8E\n"

/-- The column names of the header line, `stats.cxx:131`. -/
def columns : List String :=
  ["ITER", "TIME", "CPUDT", "DT", "CFL", "DNUM", "DIV", "MOM", "TKE", "MASS"]

/-- The header `fprintf`, `stats.cxx:130-131`. -/
def headerLine : Ev R :=
  .file (.fprintf headerFormat (columns.map Arg.str))

/-- The record `fprintf`, `stats.cxx:155-156` and `stats.cxx:251-252`. -/
def recordLine (iter : Int) (time cputime dt cfl dn div mom tke mass : R) : Ev R :=
  .file (.fprintf recordFormat
    [.int iter, .dbl time, .dbl cputime, .dbl dt, .dbl cfl, .dbl dn,
     .dbl div, .dbl mom, .dbl tke, .dbl mass])

/-- Lines 123-132: the summary file is opened and the header written on the
process with `mpiid == 0`.  The result of `std::fopen` is not tested: when it
is `NULL`, `std::setvbuf` is called on a null stream and the process is
killed there.  Returns the events and whether the process is still running. -/
def openSummary (o : Oracle R) (simname : String) (t : List (Ev R)) :
    List (Ev R) × Bool :=
  if o.mpiid (collab t) = 0 then
    let opened := o.fopen (collab t) (simname ++ ".out") "a"
    if opened then
      ([.file (.fopen (simname ++ ".out") "a" opened), .file .setvbuf, headerLine], true)
    else ([.file (.fopen (simname ++ ".out") "a" opened), .file .setvbuf], false)
  else ([], true)

/-- Lines 134-139: boundary conditions, initial `cfl` and `dn`.  Returns the
events and the two values. -/
def initialNumbers (o : Oracle R) (t : List (Ev R)) : List (Ev R) × R × R :=
  let t1 := t ++ [.act .boundary_exec]
  let dt := o.dt (collab t1)
  let cfl := o.value (collab t1) (.getcfl dt)
  let t2 := t1 ++ [.query (.getcfl dt) cfl]
  let dt2 := o.dt (collab t2)
  let dn := o.value (collab t2) (.getdn dt2)
  ([.act .boundary_exec, .query (.getcfl dt) cfl, .query (.getdn dt2) dn], cfl, dn)

/-- The condition `timeloop.p() && !timeloop.insubstep()` evaluated after the
trace `t`: the calls it makes (the second only when the first returned true)
and its value. -/
def gate (o : Oracle R) (p : Pred) (t : List (Ev R)) : List (Ev R) × Bool :=
  let b := o.flag (collab t) p
  if b then
    let s := o.flag (collab (t ++ [.pred p b])) .insubstep
    ([.pred p b, .pred .insubstep s], !s)
  else ([.pred p b], false)

/-- The four global reductions `pres.check()`, `fields.checkmom()`,
`fields.checktke()`, `fields.checkmass()` made after the trace `t`: the events
and the four values. -/
def reductions (o : Oracle R) (t : List (Ev R)) : List (Ev R) × R × R × R × R :=
  let div := o.value (collab t) .pres_check
  let t1 := t ++ [.query .pres_check div]
  let mom := o.value (collab t1) .checkmom
  let t2 := t1 ++ [.query .checkmom mom]
  let tke := o.value (collab t2) .checktke
  let t3 := t2 ++ [.query .checktke tke]
  let mass := o.value (collab t3) .checkmass
  ([.query .pres_check div, .query .checkmom mom, .query .checktke tke,
    .query .checkmass mass], div, mom, tke, mass)

/-- Lines 141-157: print the initial information. -/
def initialCheck [Zero R] (o : Oracle R) (cfl dn : R) (t : List (Ev R)) :
    List (Ev R) :=
  let g := gate o .docheck t
  if g.2 then
    let t1 := t ++ g.1
    let iter := o.iteration (collab t1)
    let time := o.time (collab t1)
    let cputime : R := 0
    let dt := o.dt (collab t1)
    let c := reductions o t1
    let t2 := t1 ++ c.1
    g.1 ++ c.1 ++
      (if o.mpiid (collab t2) = 0 then
        [recordLine iter time cputime dt cfl dn c.2.1 c.2.2.1 c.2.2.2.1 c.2.2.2.2]
      else [])
  else g.1

/-- Line 160: catch the start time for the first iteration. -/
def catchStart (o : Oracle R) (t : List (Ev R)) : List (Ev R) × R :=
  let start := o.value (collab t) .gettime
  ([.query .gettime start], start)

/-- Lines 165-171: determine the time step.  Returns the events and the
values of `cfl` and `dn` afterwards. -/
def stepSize (o : Oracle R) (cfl dn : R) (t : List (Ev R)) : List (Ev R) × R × R :=
  let s := o.flag (collab t) .insubstep
  if !s then
    let t1 := t ++ [.pred .insubstep s]
    let dt := o.dt (collab t1)
    let cfl1 := o.value (collab t1) (.getcfl dt)
    let t2 := t1 ++ [.query (.getcfl dt) cfl1]
    let dt2 := o.dt (collab t2)
    let dn1 := o.value (collab t2) (.getdn dt2)
    ([.pred .insubstep s, .query (.getcfl dt) cfl1, .query (.getdn dt2) dn1,
      .act (.settimestep cfl1 dn1)], cfl1, dn1)
  else ([.pred .insubstep s], cfl, dn)

/-- Lines 173-185: advection, diffusion, large scale forcings, buoyancy,
buffer and pressure. -/
def operators (o : Oracle R) (t : List (Ev R)) : List (Ev R) :=
  let t1 := t ++ [.act .advec_exec, .act .diff_exec]
  let sub1 := o.value (collab t1) .getsubdt
  let t2 := t1 ++ [.query .getsubdt sub1, .act (.force_exec sub1), .act .buoyancy_exec,
    .act .buffer_exec]
  let sub2 := o.value (collab t2) .getsubdt
  [.act .advec_exec, .act .diff_exec, .query .getsubdt sub1, .act (.force_exec sub1),
   .act .buoyancy_exec, .act .buffer_exec, .query .getsubdt sub2, .act (.pres_exec sub2)]

/-- Lines 186-187: save the pressure field. -/
def savePressure (o : Oracle R) (t : List (Ev R)) : List (Ev R) :=
  let g := gate o .dosave t
  if g.2 then g.1 ++ [.act (.p_save (o.iteration (collab (t ++ g.1))))]
  else g.1

/-- Lines 189-193: statistics and cross sections. -/
def statistics (o : Oracle R) (t : List (Ev R)) : List (Ev R) :=
  let g := gate o .dostats t
  if g.2 then
    let t1 := t ++ g.1
    let e1 : Ev R := .act (.stats_exec (o.iteration (collab t1)) (o.time (collab t1)))
    let t2 := t1 ++ [e1]
    g.1 ++ [e1, .act (.cross_exec (o.iteration (collab t2)))]
  else g.1

/-- Lines 235-253: the summary check of a loop pass.  Returns the events and
the value of `start` afterwards. -/
def loopCheck [Sub R] (o : Oracle R) (cfl dn start : R) (t : List (Ev R)) :
    List (Ev R) × R :=
  let g := gate o .docheck t
  if g.2 then
    let t1 := t ++ g.1
    let iter := o.iteration (collab t1)
    let time := o.time (collab t1)
    let dt := o.dt (collab t1)
    let c := reductions o t1
    let t2 := t1 ++ c.1
    let end_ := o.value (collab t2) .gettime
    let cputime := end_ - start
    let t3 := t2 ++ [.query .gettime end_]
    (g.1 ++ c.1 ++ [.query .gettime end_] ++
      (if o.mpiid (collab t3) = 0 then
        [recordLine iter time cputime dt cfl dn c.2.1 c.2.2.1 c.2.2.2.1 c.2.2.2.2]
      else []), end_)
  else (g.1, start)

/-- How a pass of `while(true)` ends: the next pass is entered, the loop is
left by `break`, or `main` is left by `return 1`. -/
inductive Outcome
  | again | done | failed
  deriving DecidableEq

/-- The result of one pass: its events, the local variables `cfl`, `dn` and
`start` afterwards, and how it ended. -/
structure PassResult (R : Type) where
  events : List (Ev R)
  cfl : R
  dn : R
  start : R
  outcome : Outcome

/-- Lines 195-253: what follows the statistics in a pass, after the trace `t`. -/
def passTail [Sub R] (o : Oracle R) (cfl dn start : R) (t : List (Ev R)) :
    PassResult R :=
  let l1 := o.loop (collab t)
  if !l1 then ⟨[.loop l1], cfl, dn, start, .done⟩
  else
    let t1 := t ++ [.loop l1, .act .postprocstep]
    let l2 := o.loop (collab t1)
    if !l2 then ⟨[.loop l1, .act .postprocstep, .loop l2], cfl, dn, start, .done⟩
    else
      let t2 := t1 ++ [.loop l2]
      let i1 := o.iteration (collab t2)
      let rc1 := o.status (collab t2) (.timeloop_load i1)
      let e1 : Ev R := .step (.timeloop_load i1) rc1
      if rc1 ≠ 0 then
        ⟨[.loop l1, .act .postprocstep, .loop l2, e1], cfl, dn, start, .failed⟩
      else
        let t3 := t2 ++ [e1]
        let i2 := o.iteration (collab t3)
        let rc2 := o.status (collab t3) (.fields_load i2)
        let e2 : Ev R := .step (.fields_load i2) rc2
        if rc2 ≠ 0 then
          ⟨[.loop l1, .act .postprocstep, .loop l2, e1, e2], cfl, dn, start, .failed⟩
        else
          let t4 := t3 ++ [e2, .act .boundary_exec]
          let c := loopCheck o cfl dn start t4
          ⟨[.loop l1, .act .postprocstep, .loop l2, e1, e2, .act .boundary_exec] ++ c.1,
            cfl, dn, c.2, .again⟩

/-- One pass of the time loop, lines 163-254, after the trace `t`. -/
def pass [Sub R] (o : Oracle R) (cfl dn start : R) (t : List (Ev R)) :
    PassResult R :=
  let s := stepSize o cfl dn t
  let t1 := t ++ s.1
  let ops := operators o t1
  let t2 := t1 ++ ops
  let sv := savePressure o t2
  let t3 := t2 ++ sv
  let st := statistics o t3
  let t4 := t3 ++ st
  let r := passTail o s.2.1 s.2.2 start t4
  { r with events := s.1 ++ ops ++ sv ++ st ++ r.events }

/-- The time loop run for at most `fuel` passes after the trace `t`: the
events of each pass and the exit status, `none` when the loop is still
running after `fuel` passes. -/
def timeLoop [Sub R] (o : Oracle R) :
    Nat → R → R → R → List (Ev R) → List (List (Ev R)) × Option Int
  | 0, _, _, _, _ => ([], none)
  | fuel + 1, cfl, dn, start, t =>
      let p := pass o cfl dn start t
      match p.outcome with
      | .again =>
          let r := timeLoop o fuel p.cfl p.dn p.start (t ++ p.events)
          (p.events :: r.1, r.2)
      | .done => ([p.events], some 0)
      | .failed => ([p.events], some 1)

/-- Lines 256-258: close the output file. -/
def closeSummary (o : Oracle R) (t : List (Ev R)) : List (Ev R) :=
  if o.mpiid (collab t) = 0 then [.file .fclose] else []

/-- An execution of `main`, cut where the source is: lines 24-113, 123-139,
141-160, the passes of the loop, lines 256-258.  `exit` is the value `main`
returns, `none` when it has not returned: the passes allowed are used up, or
the process was killed at line 129 (`killed`). -/
structure Run (R : Type) where
  startup : List (Ev R)
  prologue : List (Ev R)
  initial : List (Ev R)
  passes : List (List (Ev R))
  closing : List (Ev R)
  exit : Option Int
  killed : Bool

/-- The whole sequence of events of an execution. -/
def Run.trace (r : Run R) : List (Ev R) :=
  r.startup ++ r.prologue ++ r.initial ++ r.passes.flatten ++ r.closing

/-- The function `main` of `src/main/stats.cxx`, with at most `fuel` passes of
the time loop. -/
def main [Zero R] [Sub R] (o : Oracle R) (argv : List String) (fuel : Nat) : Run R :=
  let simname := simnameOf argv
  let s := runSteps o (startupItems simname) []
  if !s.2 then ⟨s.1, [], [], [], [], some 1, false⟩
  else
    let t0 := s.1
    let hd := openSummary o simname t0
    if !hd.2 then ⟨s.1, hd.1, [], [], [], none, true⟩
    else
      let n := initialNumbers o (t0 ++ hd.1)
      let t1 := t0 ++ hd.1 ++ n.1
      let ic := initialCheck o n.2.1 n.2.2 t1
      let cs := catchStart o (t1 ++ ic)
      let t2 := t1 ++ ic ++ cs.1
      let lp := timeLoop o fuel n.2.1 n.2.2 cs.2 t2
      let cl := if lp.2 = some 0 then closeSummary o (t2 ++ lp.1.flatten) else []
      ⟨s.1, hd.1 ++ n.1, ic ++ cs.1, lp.1, cl, lp.2, false⟩

/-- A tested call that returned non-zero. -/
def Ev.failed : Ev R → Bool
  | .step _ rc => rc != 0
  | _ => false

/-- A tested call. -/
def Ev.isStep : Ev R → Bool
  | .step _ _ => true
  | _ => false

/-- No tested call in the list returned non-zero. -/
def NoFail (l : List (Ev R)) : Prop := ∀ e ∈ l, e.failed = false

/-- The list ends with a tested call that returned non-zero, the only one. -/
def FailsAtEnd (l : List (Ev R)) : Prop :=
  ∃ pre s rc, l = pre ++ [Ev.step s rc] ∧ rc ≠ 0 ∧ NoFail pre

/-- How a pass can end, in terms of its events. -/
def PassShape (events : List (Ev R)) : Outcome → Prop
  | .again => NoFail events
  | .done => NoFail events ∧ events.getLast? = some (Ev.loop false)
  | .failed => FailsAtEnd events

/-- How the time loop can stand after some passes. -/
def LoopShape (passes : List (List (Ev R))) : Option Int → Prop
  | none => NoFail passes.flatten
  | some c =>
      (c = 0 ∧ NoFail passes.flatten ∧
        ∃ ps last, passes = ps ++ [last] ∧ last.getLast? = some (Ev.loop false)) ∨
      (c = 1 ∧ FailsAtEnd passes.flatten)

/-- How an execution of `main` can stand. -/
def RunShape (r : Run R) : Prop :=
  (r.exit = none ∧ NoFail r.trace) ∨
  (r.exit = some 0 ∧ NoFail r.trace ∧
    ∃ ps last, r.passes = ps ++ [last] ∧ last.getLast? = some (Ev.loop false)) ∨
  (r.exit = some 1 ∧ FailsAtEnd r.trace)

/-- A replay in which snapshots exist up to iteration 80 at stride 10: the
first pass steps to iteration 90 and `timeloop.load(90)` fails. -/
def replayOracle : Oracle Int where
  status := fun _ s =>
    match s with
    | .timeloop_load i => if i > 80 then 1 else 0
    | .fields_load i => if i > 80 then 1 else 0
    | _ => 0
  flag := fun _ p => p != .insubstep
  value := fun _ _ => 0
  iteration := fun h => 80 + 10 * (h.count (.act .postprocstep))
  time := fun _ => 0
  dt := fun _ => 0
  loop := fun _ => true
  mpiid := fun _ => 0
  fopen := fun _ _ _ => true

/-- The condition `timeloop.p() && !timeloop.insubstep()` was evaluated to
true in the segment: `p()` returned true and the call of `insubstep()` that
followed returned false. -/
def Fired (p : Pred) (seg : List (Ev R)) : Prop :=
  [Ev.pred p true, Ev.pred .insubstep false] <:+: seg

instance [DecidableEq R] (p : Pred) (seg : List (Ev R)) : Decidable (Fired p seg) := by
  unfold Fired; infer_instance

/-- The events of lines 165-171. -/
def StepSizeForm (s : List (Ev R)) : Prop :=
  s = [Ev.pred .insubstep true] ∨
  ∃ dt c dt2 d, s = [Ev.pred .insubstep false, Ev.query (.getcfl dt) c,
    Ev.query (.getdn dt2) d, Ev.act (.settimestep c d)]

/-- The events of lines 173-185. -/
def OperatorsForm (s : List (Ev R)) : Prop :=
  ∃ a b, s = [Ev.act .advec_exec, Ev.act .diff_exec, Ev.query .getsubdt a,
    Ev.act (.force_exec a), Ev.act .buoyancy_exec, Ev.act .buffer_exec,
    Ev.query .getsubdt b, Ev.act (.pres_exec b)]

/-- The events of lines 186-187. -/
def SaveForm (s : List (Ev R)) : Prop :=
  s = [Ev.pred .dosave false] ∨
  s = [Ev.pred .dosave true, Ev.pred .insubstep true] ∨
  ∃ i, s = [Ev.pred .dosave true, Ev.pred .insubstep false, Ev.act (.p_save i)]

/-- The events of lines 189-193. -/
def StatsForm (s : List (Ev R)) : Prop :=
  s = [Ev.pred .dostats false] ∨
  s = [Ev.pred .dostats true, Ev.pred .insubstep true] ∨
  ∃ i tm j, s = [Ev.pred .dostats true, Ev.pred .insubstep false,
    Ev.act (.stats_exec i tm), Ev.act (.cross_exec j)]

/-- The events of lines 141-157. -/
def InitialCheckForm (o : Oracle R) (s : List (Ev R)) : Prop :=
  s = [Ev.pred .docheck false] ∨
  s = [Ev.pred .docheck true, Ev.pred .insubstep true] ∨
  ∃ h i tm cpu dt cfl dn a b c d,
    (o.mpiid h ≠ 0 ∧
      s = [Ev.pred .docheck true, Ev.pred .insubstep false, Ev.query .pres_check a,
        Ev.query .checkmom b, Ev.query .checktke c, Ev.query .checkmass d]) ∨
    (o.mpiid h = 0 ∧
      s = [Ev.pred .docheck true, Ev.pred .insubstep false, Ev.query .pres_check a,
        Ev.query .checkmom b, Ev.query .checktke c, Ev.query .checkmass d,
        recordLine i tm cpu dt cfl dn a b c d])

/-- The events of lines 235-253. -/
def LoopCheckForm (o : Oracle R) (s : List (Ev R)) : Prop :=
  s = [Ev.pred .docheck false] ∨
  s = [Ev.pred .docheck true, Ev.pred .insubstep true] ∨
  ∃ h i tm cpu dt cfl dn a b c d e,
    (o.mpiid h ≠ 0 ∧
      s = [Ev.pred .docheck true, Ev.pred .insubstep false, Ev.query .pres_check a,
        Ev.query .checkmom b, Ev.query .checktke c, Ev.query .checkmass d,
        Ev.query .gettime e]) ∨
    (o.mpiid h = 0 ∧
      s = [Ev.pred .docheck true, Ev.pred .insubstep false, Ev.query .pres_check a,
        Ev.query .checkmom b, Ev.query .checktke c, Ev.query .checkmass d,
        Ev.query .gettime e, recordLine i tm cpu dt cfl dn a b c d])

/-- The events of lines 195-253 and how the pass ends. -/
def TailForm (o : Oracle R) (s : List (Ev R)) (oc : Outcome) : Prop :=
  (s = [Ev.loop false] ∧ oc = .done) ∨
  (s = [Ev.loop true, Ev.act .postprocstep, Ev.loop false] ∧ oc = .done) ∨
  (∃ i rc, rc ≠ 0 ∧ oc = .failed ∧
    s = [Ev.loop true, Ev.act .postprocstep, Ev.loop true, Ev.step (.timeloop_load i) rc]) ∨
  (∃ i j rc, rc ≠ 0 ∧ oc = .failed ∧
    s = [Ev.loop true, Ev.act .postprocstep, Ev.loop true, Ev.step (.timeloop_load i) 0,
      Ev.step (.fields_load j) rc]) ∨
  (∃ i j lc, LoopCheckForm o lc ∧ oc = .again ∧
    s = [Ev.loop true, Ev.act .postprocstep, Ev.loop true, Ev.step (.timeloop_load i) 0,
      Ev.step (.fields_load j) 0, Ev.act .boundary_exec] ++ lc)

/-- The events of a pass of the loop and how it ends. -/
def PassForm (o : Oracle R) (seg : List (Ev R)) (oc : Outcome) : Prop :=
  ∃ s ops sv st tl, StepSizeForm s ∧ OperatorsForm ops ∧ SaveForm sv ∧ StatsForm st ∧
    TailForm o tl oc ∧ seg = s ++ ops ++ sv ++ st ++ tl

/-- A tested call without its arguments. -/
@[simp]
def Step.erase : Step → Step
  | .input_readinifile _ => .input_readinifile ""
  | .timeloop_load _ => .timeloop_load 0
  | .fields_load _ => .fields_load 0
  | .stats_create _ _ => .stats_create "" 0
  | s => s

/-- A call without its arguments. -/
@[simp]
def Action.erase : Action R → Action Unit
  | .construct x => .construct x
  | .mpi_startup => .mpi_startup
  | .input_clear => .input_clear
  | .boundary_exec => .boundary_exec
  | .settimestep _ _ => .settimestep () ()
  | .advec_exec => .advec_exec
  | .diff_exec => .diff_exec
  | .force_exec _ => .force_exec ()
  | .buoyancy_exec => .buoyancy_exec
  | .buffer_exec => .buffer_exec
  | .pres_exec _ => .pres_exec ()
  | .p_save _ => .p_save 0
  | .stats_exec _ _ => .stats_exec 0 ()
  | .cross_exec _ => .cross_exec 0
  | .postprocstep => .postprocstep
  | .timeloop_exec => .timeloop_exec
  | .timeloop_timestep => .timeloop_timestep
  | .timeloop_save _ => .timeloop_save 0
  | .fields_save _ => .fields_save 0

/-- A query without its argument. -/
@[simp]
def Query.erase : Query R → Query Unit
  | .getcfl _ => .getcfl ()
  | .getdn _ => .getdn ()
  | .getsubdt => .getsubdt
  | .pres_check => .pres_check
  | .checkmom => .checkmom
  | .checktke => .checktke
  | .checkmass => .checkmass
  | .gettime => .gettime

/-- A file operation without its arguments. -/
@[simp]
def FileOp.erase : FileOp R → FileOp Unit
  | .fopen _ _ _ => .fopen "" "" true
  | .setvbuf => .setvbuf
  | .fprintf _ _ => .fprintf "" []
  | .fclose => .fclose

/-- The kind of an event: the event without arguments and answers, except the
answer of a `bool` call and the value read from `timeloop.loop`. -/
@[simp]
def Ev.tag : Ev R → Ev Unit
  | .step s _ => .step s.erase 0
  | .act a => .act a.erase
  | .pred p b => .pred p b
  | .query q _ => .query q.erase ()
  | .loop b => .loop b
  | .file f => .file f.erase

/-- The kinds of events of lines 165-171. -/
@[simp]
def stepSizeTags : List (Ev Unit) :=
  [.pred .insubstep true, .pred .insubstep false, .query (.getcfl ()) (),
   .query (.getdn ()) (), .act (.settimestep () ())]

/-- The kinds of events of lines 173-185. -/
@[simp]
def operatorsTags : List (Ev Unit) :=
  [.act .advec_exec, .act .diff_exec, .query .getsubdt (), .act (.force_exec ()),
   .act .buoyancy_exec, .act .buffer_exec, .act (.pres_exec ())]

/-- The kinds of events of lines 186-187. -/
@[simp]
def saveTags : List (Ev Unit) :=
  [.pred .dosave true, .pred .dosave false, .pred .insubstep true, .pred .insubstep false,
   .act (.p_save 0)]

/-- The kinds of events of lines 189-193. -/
@[simp]
def statsTags : List (Ev Unit) :=
  [.pred .dostats true, .pred .dostats false, .pred .insubstep true, .pred .insubstep false,
   .act (.stats_exec 0 ()), .act (.cross_exec 0)]

/-- The kinds of events of the summary check, lines 141-157 and 235-253. -/
@[simp]
def checkTags : List (Ev Unit) :=
  [.pred .docheck true, .pred .docheck false, .pred .insubstep true, .pred .insubstep false,
   .query .pres_check (), .query .checkmom (), .query .checktke (), .query .checkmass (),
   .query .gettime (), .file (.fprintf "" [])]

/-- The kinds of events of lines 195-253. -/
@[simp]
def tailTags : List (Ev Unit) :=
  [.loop true, .loop false, .act .postprocstep, .step (.timeloop_load 0) 0,
   .step (.fields_load 0) 0, .act .boundary_exec] ++ checkTags

/-- What the cadence gates of a pass do. -/
def PassGates (o : Oracle R) (seg : List (Ev R)) : Prop :=
  ((∃ i, Ev.act (.p_save i) ∈ seg) ↔ Fired .dosave seg) ∧
  ((∃ i tm, Ev.act (.stats_exec i tm) ∈ seg) ↔ Fired .dostats seg) ∧
  ((∃ i, Ev.act (.cross_exec i) ∈ seg) ↔ Fired .dostats seg) ∧
  ((∃ v, Ev.query .pres_check v ∈ seg) ↔ Fired .docheck seg) ∧
  ((∃ v, Ev.query .checkmom v ∈ seg) ↔ Fired .docheck seg) ∧
  ((∃ v, Ev.query .checktke v ∈ seg) ↔ Fired .docheck seg) ∧
  ((∃ v, Ev.query .checkmass v ∈ seg) ↔ Fired .docheck seg) ∧
  ((∃ f a, Ev.file (.fprintf f a) ∈ seg) → Fired .docheck seg) ∧
  ((∀ h, o.mpiid h = 0) → Fired .docheck seg → ∃ a, Ev.file (.fprintf recordFormat a) ∈ seg) ∧
  ((∀ h, o.mpiid h ≠ 0) → ¬ ∃ f a, Ev.file (.fprintf f a) ∈ seg)

/-- What the summary check does, in terms of its events. -/
def CheckGates (o : Oracle R) (seg : List (Ev R)) : Prop :=
  ((∃ v, Ev.query .pres_check v ∈ seg) ↔ Fired .docheck seg) ∧
  ((∃ v, Ev.query .checkmom v ∈ seg) ↔ Fired .docheck seg) ∧
  ((∃ v, Ev.query .checktke v ∈ seg) ↔ Fired .docheck seg) ∧
  ((∃ v, Ev.query .checkmass v ∈ seg) ↔ Fired .docheck seg) ∧
  ((∃ f a, Ev.file (.fprintf f a) ∈ seg) → Fired .docheck seg) ∧
  ((∀ h, o.mpiid h = 0) → Fired .docheck seg → ∃ a, Ev.file (.fprintf recordFormat a) ∈ seg) ∧
  ((∀ h, o.mpiid h ≠ 0) → ¬ ∃ f a, Ev.file (.fprintf f a) ∈ seg)

/-- What lines 165-171 do, in terms of the events of the pass. -/
def StepGates (seg : List (Ev R)) : Prop :=
  ∃ b, seg.head? = some (Ev.pred .insubstep b) ∧
    ((∃ c d, Ev.act (.settimestep c d) ∈ seg) ↔ b = false) ∧
    ((∃ dt v, Ev.query (.getcfl dt) v ∈ seg) ↔ b = false) ∧
    ((∃ dt v, Ev.query (.getdn dt) v ∈ seg) ↔ b = false)

/-- The passes of the loop and the exit status: every pass but the last is
followed by another, the last one decides the exit status. -/
def LoopForm (o : Oracle R) : List (List (Ev R)) → Option Int → Prop
  | [], ex => ex = none
  | [p], ex =>
      (ex = none ∧ PassForm o p .again) ∨ (ex = some 0 ∧ PassForm o p .done) ∨
      (ex = some 1 ∧ PassForm o p .failed)
  | p :: q :: ps, ex => PassForm o p .again ∧ LoopForm o (q :: ps) ex

/-- The parts of an execution of `main`. -/
def MainForm [Zero R] [Sub R] (o : Oracle R) (argv : List String) (r : Run R) : Prop :=
  ((runSteps o (startupItems (simnameOf argv)) []).2 = false ∧
    r.startup = (runSteps o (startupItems (simnameOf argv)) []).1 ∧
    r.prologue = [] ∧ r.initial = [] ∧ r.passes = [] ∧ r.closing = [] ∧ r.exit = some 1 ∧
    r.killed = false) ∨
  ((runSteps o (startupItems (simnameOf argv)) []).2 = true ∧
    r.startup = (runSteps o (startupItems (simnameOf argv)) []).1 ∧
    r.prologue = (openSummary o (simnameOf argv) r.startup).1 ∧
    r.initial = [] ∧ r.passes = [] ∧ r.closing = [] ∧ r.exit = none ∧
    (openSummary o (simnameOf argv) r.startup).2 = false ∧ r.killed = true) ∨
  ((runSteps o (startupItems (simnameOf argv)) []).2 = true ∧
    r.startup = (runSteps o (startupItems (simnameOf argv)) []).1 ∧
    r.prologue = (openSummary o (simnameOf argv) r.startup).1 ++
      (initialNumbers o (r.startup ++ (openSummary o (simnameOf argv) r.startup).1)).1 ∧
    (∃ ic g, InitialCheckForm o ic ∧ r.initial = ic ++ [Ev.query .gettime g]) ∧
    LoopForm o r.passes r.exit ∧
    r.closing = (if r.exit = some 0 then
      closeSummary o (r.startup ++ r.prologue ++ r.initial ++ r.passes.flatten) else []) ∧
    (openSummary o (simnameOf argv) r.startup).2 = true ∧ r.killed = false)

/-- A call of `std::fprintf` on the summary file. -/
def Ev.isFprintf : Ev R → Bool
  | .file (.fprintf _ _) => true
  | _ => false

/-- A process with `mpiid == 1` whose first check fires and whose loop flag is
false in the first pass. -/
def rankOneOracle : Oracle Int where
  status := fun _ _ => 0
  flag := fun _ p => p != .insubstep
  value := fun _ _ => 0
  iteration := fun _ => 0
  time := fun _ => 0
  dt := fun _ => 0
  loop := fun _ => false
  mpiid := fun _ => 1
  fopen := fun _ _ _ => true

/-- One of the calls of lines 173-185: `advec.exec`, `diff.exec`, `force.exec`,
`buoyancy.exec`, `buffer.exec`, `pres.exec`. -/
def Ev.isOperator : Ev R → Bool
  | .act .advec_exec => true
  | .act .diff_exec => true
  | .act (.force_exec _) => true
  | .act .buoyancy_exec => true
  | .act .buffer_exec => true
  | .act (.pres_exec _) => true
  | _ => false

/-- A call of `pres.exec`. -/
def Ev.isPresExec : Ev R → Bool
  | .act (.pres_exec _) => true
  | _ => false

/-- A test of `timeloop.loop`. -/
def Ev.isLoopTest : Ev R → Bool
  | .loop _ => true
  | _ => false

/-- A call of `timeloop.load` that returned zero. -/
def Ev.isTimeloopLoaded : Ev R → Bool
  | .step (.timeloop_load _) rc => rc == 0
  | _ => false

/-- A call of `fields.load` that returned zero. -/
def Ev.isFieldsLoaded : Ev R → Bool
  | .step (.fields_load _) rc => rc == 0
  | _ => false

/-- Both `timeloop.load` and `fields.load` succeeded in the segment. -/
def loaded (seg : List (Ev R)) : Bool :=
  seg.any Ev.isTimeloopLoaded && seg.any Ev.isFieldsLoaded

/-- The calls of lines 173-185 with the two answers of `getsubdt()`. -/
def operatorCalls (a b : R) : List (Ev R) :=
  [.act .advec_exec, .act .diff_exec, .query .getsubdt a, .act (.force_exec a),
   .act .buoyancy_exec, .act .buffer_exec, .query .getsubdt b, .act (.pres_exec b)]

/-- The kinds of events of lines 24-113. -/
@[simp]
def startupTags : List (Ev Unit) :=
  [.act (.construct .mpi), .act .mpi_startup, .act (.construct .input),
   .act (.construct .grid), .act (.construct .fields), .act (.construct .boundary),
   .act (.construct .timeloop), .act (.construct .advec), .act (.construct .diff),
   .act (.construct .pres), .act (.construct .force), .act (.construct .buoyancy),
   .act (.construct .buffer), .act (.construct .stats), .act (.construct .cross),
   .step (.input_readinifile "") 0, .step .mpi_readinifile 0, .step .grid_readinifile 0,
   .step .fields_readinifile 0, .step .boundary_readinifile 0, .step .advec_readinifile 0,
   .step .diff_readinifile 0, .step .force_readinifile 0, .step .buoyancy_readinifile 0,
   .step .buffer_readinifile 0, .step .pres_readinifile 0, .step .timeloop_readinifile 0,
   .step .stats_readinifile 0, .step .cross_readinifile 0,
   .step .mpi_init 0, .step .grid_init 0, .step .fields_init 0, .step .buffer_init 0,
   .step .pres_init 0, .step .stats_init 0, .act .input_clear,
   .step .grid_load 0, .step (.timeloop_load 0) 0, .step (.fields_load 0) 0,
   .step .buffer_load 0, .step (.stats_create "" 0) 0,
   .step .boundary_setvalues 0, .step .diff_setvalues 0, .step .pres_setvalues 0]

/-- The kinds of events of lines 123-139. -/
@[simp]
def prologueTags : List (Ev Unit) :=
  [.file (.fopen "" "" true), .file .setvbuf, .file (.fprintf "" []), .act .boundary_exec,
   .query (.getcfl ()) (), .query (.getdn ()) ()]

/-- The kinds of events of a pass of the loop. -/
@[simp]
def passTags : List (Ev Unit) :=
  stepSizeTags ++ operatorsTags ++ saveTags ++ statsTags ++ tailTags

/-- The kinds of events of an item of a straight-line sequence are among `tags`. -/
def Item.tagsIn (tags : List (Ev Unit)) : Item R → Prop
  | .perform a => (Ev.act a : Ev R).tag ∈ tags
  | .check mk => ∀ o h, (Ev.step (mk o h) 0 : Ev R).tag ∈ tags

/-- One of the calls of the commented-out block `stats.cxx:199-215`. -/
def Ev.isPrognostic : Ev R → Bool
  | .act .timeloop_exec => true
  | .act .timeloop_timestep => true
  | .act (.timeloop_save _) => true
  | .act (.fields_save _) => true
  | _ => false

/-- The kinds of events of an execution. -/
@[simp]
def allTags : List (Ev Unit) :=
  startupTags ++ prologueTags ++ checkTags ++ passTags ++ [Ev.file .fclose]

/-- A call of `fields.load`. -/
def Ev.isFieldsLoad : Ev R → Bool
  | .step (.fields_load _) _ => true
  | _ => false

/-- A replay over snapshots 80, 90, 100 at stride 10: three passes, the loop
flag is false after the third. -/
def cleanOracle : Oracle Int where
  status := fun _ _ => 0
  flag := fun _ p => p != .insubstep
  value := fun h _ => h.length
  iteration := fun h => 80 + 10 * (h.count (.act .postprocstep))
  time := fun h => h.count (.act .postprocstep)
  dt := fun _ => 1
  loop := fun h => h.count (.act .postprocstep) < 3
  mpiid := fun _ => 0
  fopen := fun _ _ _ => true

/-- An operation on the summary file. -/
def Ev.isFile : Ev R → Bool
  | .file _ => true
  | _ => false

/-- The events other than the operations on the summary file. -/
def nonFile (t : List (Ev R)) : List (Ev R) :=
  t.filter fun e => !e.isFile

/-- The same collaborators on a process with another `mpiid`. -/
def Oracle.withMpiid (o : Oracle R) (g : List (Ev R) → Int) : Oracle R :=
  { o with mpiid := g }

/-- Two passes agree up to the operations on the summary file. -/
def PassResult.agree (p q : PassResult R) : Prop :=
  nonFile p.events = nonFile q.events ∧ p.cfl = q.cfl ∧ p.dn = q.dn ∧ p.start = q.start ∧
    p.outcome = q.outcome

/-- The arguments of an item do not depend on `mpiid`. -/
def Item.rankFree (o : Oracle R) (g : List (Ev R) → Int) : Item R → Prop
  | .perform _ => True
  | .check mk => ∀ h, mk (o.withMpiid g) h = mk o h

/-- The events of lines 195-253 after the trace `t`, with the values read from
`timeloop.loop` and the arguments of the two loads. -/
def TailExact (o : Oracle R) (t s : List (Ev R)) (oc : Outcome) : Prop :=
  let l1 := o.loop (collab t)
  let l2 := o.loop (collab (t ++ [Ev.act .postprocstep]))
  let i := o.iteration (collab (t ++ [Ev.act .postprocstep]))
  let rc := o.status (collab (t ++ [Ev.act .postprocstep])) (.timeloop_load i)
  let t1 := t ++ [Ev.act .postprocstep, Ev.step (.timeloop_load i) rc]
  let j := o.iteration (collab t1)
  let rc2 := o.status (collab t1) (.fields_load j)
  (l1 = false ∧ s = [Ev.loop false] ∧ oc = .done) ∨
  (l1 = true ∧ l2 = false ∧
    s = [Ev.loop true, Ev.act .postprocstep, Ev.loop false] ∧ oc = .done) ∨
  (l1 = true ∧ l2 = true ∧ rc ≠ 0 ∧ oc = .failed ∧
    s = [Ev.loop true, Ev.act .postprocstep, Ev.loop true, Ev.step (.timeloop_load i) rc]) ∨
  (l1 = true ∧ l2 = true ∧ rc = 0 ∧ rc2 ≠ 0 ∧ oc = .failed ∧
    s = [Ev.loop true, Ev.act .postprocstep, Ev.loop true, Ev.step (.timeloop_load i) rc,
      Ev.step (.fields_load j) rc2]) ∨
  (l1 = true ∧ l2 = true ∧ rc = 0 ∧ rc2 = 0 ∧ oc = .again ∧ ∃ lc, LoopCheckForm o lc ∧
    s = [Ev.loop true, Ev.act .postprocstep, Ev.loop true, Ev.step (.timeloop_load i) rc,
      Ev.step (.fields_load j) rc2, Ev.act .boundary_exec] ++ lc)

/-- The events of lines 165-193. -/
def BodyForm (body : List (Ev R)) : Prop :=
  ∃ s ops sv st, StepSizeForm s ∧ OperatorsForm ops ∧ SaveForm sv ∧ StatsForm st ∧
    body = s ++ ops ++ sv ++ st

/-- How the outcome of a pass shows in what follows it. -/
def Follows (oc : Outcome) (post : List (List (Ev R))) (ex : Option Int) : Prop :=
  (oc = .again ∧ (post = [] → ex = none)) ∨ (oc = .done ∧ post = [] ∧ ex = some 0) ∨
  (oc = .failed ∧ post = [] ∧ ex = some 1)

/-- The events of a pass before its first test of `timeloop.loop`. -/
def passBody (seg : List (Ev R)) : List (Ev R) :=
  seg.takeWhile fun e => !e.isLoopTest

/-- The events of a pass from its first test of `timeloop.loop` on. -/
def passRest (seg : List (Ev R)) : List (Ev R) :=
  seg.dropWhile fun e => !e.isLoopTest

/-- A call of `stats.create`. -/
def Ev.isStatsCreate : Ev R → Bool
  | .step (.stats_create _ _) _ => true
  | _ => false

/-- A call of `stats.exec` or `cross.exec`. -/
def Ev.isStatsExec : Ev R → Bool
  | .act (.stats_exec _ _) => true
  | .act (.cross_exec _) => true
  | _ => false

/-- Lines 24-93 of `main`. -/
def beforeLoadItems (simname : String) : List (Item R) :=
  constructItems ++ readItems simname ++ initItems

/-- The kinds of events of lines 24-93. -/
@[simp]
def beforeLoadTags : List (Ev Unit) :=
  [.act (.construct .mpi), .act .mpi_startup, .act (.construct .input),
   .act (.construct .grid), .act (.construct .fields), .act (.construct .boundary),
   .act (.construct .timeloop), .act (.construct .advec), .act (.construct .diff),
   .act (.construct .pres), .act (.construct .force), .act (.construct .buoyancy),
   .act (.construct .buffer), .act (.construct .stats), .act (.construct .cross),
   .step (.input_readinifile "") 0, .step .mpi_readinifile 0, .step .grid_readinifile 0,
   .step .fields_readinifile 0, .step .boundary_readinifile 0, .step .advec_readinifile 0,
   .step .diff_readinifile 0, .step .force_readinifile 0, .step .buoyancy_readinifile 0,
   .step .buffer_readinifile 0, .step .pres_readinifile 0, .step .timeloop_readinifile 0,
   .step .stats_readinifile 0, .step .cross_readinifile 0,
   .step .mpi_init 0, .step .grid_init 0, .step .fields_init 0, .step .buffer_init 0,
   .step .pres_init 0, .step .stats_init 0, .act .input_clear]

/-- The kinds of events of lines 107-113. -/
@[simp]
def setvaluesTags : List (Ev Unit) :=
  [.step .boundary_setvalues 0, .step .diff_setvalues 0, .step .pres_setvalues 0]

/-- The events of lines 95-105 when `stats.create` is reached, after the trace `a`. -/
def loadEvents (o : Oracle R) (n : String) (a : List (Ev R)) (rc : Int) : List (Ev R) :=
  let i := o.iteration (collab (a ++ [Ev.step .grid_load 0]))
  let j := o.iteration (collab (a ++ [Ev.step .grid_load 0, Ev.step (.timeloop_load i) 0]))
  let k := o.iteration (collab (a ++ [Ev.step .grid_load 0, Ev.step (.timeloop_load i) 0,
    Ev.step (.fields_load j) 0, Ev.step .buffer_load 0]))
  [.step .grid_load 0, .step (.timeloop_load i) 0, .step (.fields_load j) 0,
   .step .buffer_load 0, .step (.stats_create n k) rc]

/-- The events of lines 24-113 around the call of `stats.create`. -/
def StartupForm (o : Oracle R) (n : String) (s : List (Ev R)) (ok : Bool) : Prop :=
  (ok = false ∧ ∀ e ∈ s, e.isStatsCreate = false) ∨
  ∃ a rc rest, (∀ e ∈ a, e.tag ∈ beforeLoadTags) ∧ (∀ e ∈ rest, e.tag ∈ setvaluesTags) ∧
    (ok = true → rc = 0) ∧ s = a ++ loadEvents o n a rc ++ rest

/-- The kinds of events after line 113. -/
@[simp]
def laterTags : List (Ev Unit) :=
  prologueTags ++ checkTags ++ passTags ++ [Ev.file .fclose]

/-- The events of an execution after line 113. -/
def Run.later (r : Run R) : List (Ev R) :=
  r.prologue ++ r.initial ++ r.passes.flatten ++ r.closing

/-- The operations on the summary file, in order. -/
def fileEvents (t : List (Ev R)) : List (Ev R) :=
  t.filter Ev.isFile

/-- A call of `advec.getcfl`. -/
def Query.isGetcfl : Query R → Bool
  | .getcfl _ => true
  | _ => false

/-- A call of `diff.getdn`. -/
def Query.isGetdn : Query R → Bool
  | .getdn _ => true
  | _ => false

/-- A call of `mpi.gettime`. -/
def Query.isGettime : Query R → Bool
  | .gettime => true
  | _ => false

/-- The answer of the event when it is a query selected by `p`. -/
def Ev.answer (p : Query R → Bool) : Ev R → Option R
  | .query q v => if p q then some v else none
  | _ => none

/-- The answer of the last query selected by `p` in the trace. -/
def lastAnswer (p : Query R → Bool) : List (Ev R) → Option R
  | [] => none
  | e :: t => (lastAnswer p t).or (e.answer p)

/-- The event is no query of one of the three kinds kept in a local variable. -/
def Ev.keepsLocals (e : Ev R) : Prop :=
  e.answer Query.isGetcfl = none ∧ e.answer Query.isGetdn = none ∧
    e.answer Query.isGettime = none

/-- A query of one of the three kinds kept in a local variable. -/
def Ev.isLocalQuery : Ev R → Bool
  | .query (.getcfl _) _ => true
  | .query (.getdn _) _ => true
  | .query .gettime _ => true
  | _ => false

/-- The local variables `cfl`, `dn` and `start` hold the last answers of
`getcfl`, `getdn` and `gettime`. -/
def Locals (t : List (Ev R)) (cfl dn start : R) : Prop :=
  lastAnswer Query.isGetcfl t = some cfl ∧ lastAnswer Query.isGetdn t = some dn ∧
    lastAnswer Query.isGettime t = some start

/-- The two calls of a condition that fired. -/
def firedGate (p : Pred) : List (Ev R) :=
  [.pred p true, .pred .insubstep false]

/-- The four reductions with their answers. -/
def reductionCalls (div mom tke mass : R) : List (Ev R) :=
  [.query .pres_check div, .query .checkmom mom, .query .checktke tke, .query .checkmass mass]

/-- The events of the summary check of a pass after the trace `t`, with the
values written, and the value of `start` afterwards. -/
def LoopCheckExact [Sub R] (o : Oracle R) (cfl dn start : R) (t s : List (Ev R))
    (start' : R) : Prop :=
  (s = [Ev.pred .docheck false] ∧ start' = start) ∨
  (s = [Ev.pred .docheck true, Ev.pred .insubstep true] ∧ start' = start) ∨
  ∃ div mom tke mass e, start' = e ∧
    ((o.mpiid (collab (t ++ firedGate .docheck ++ reductionCalls div mom tke mass ++
        [Ev.query .gettime e])) ≠ 0 ∧
      s = firedGate .docheck ++ reductionCalls div mom tke mass ++ [Ev.query .gettime e]) ∨
     (o.mpiid (collab (t ++ firedGate .docheck ++ reductionCalls div mom tke mass ++
        [Ev.query .gettime e])) = 0 ∧
      s = firedGate .docheck ++ reductionCalls div mom tke mass ++ [Ev.query .gettime e] ++
        [recordLine (o.iteration (collab (t ++ firedGate .docheck)))
          (o.time (collab (t ++ firedGate .docheck))) (e - start)
          (o.dt (collab (t ++ firedGate .docheck))) cfl dn div mom tke mass]))

/-- The events of the initial check after the trace `t`, with the values written. -/
def InitialCheckExact [Zero R] (o : Oracle R) (cfl dn : R) (t s : List (Ev R)) : Prop :=
  s = [Ev.pred .docheck false] ∨
  s = [Ev.pred .docheck true, Ev.pred .insubstep true] ∨
  ∃ div mom tke mass,
    ((o.mpiid (collab (t ++ firedGate .docheck ++ reductionCalls div mom tke mass)) ≠ 0 ∧
      s = firedGate .docheck ++ reductionCalls div mom tke mass) ∨
     (o.mpiid (collab (t ++ firedGate .docheck ++ reductionCalls div mom tke mass)) = 0 ∧
      s = firedGate .docheck ++ reductionCalls div mom tke mass ++
        [recordLine (o.iteration (collab (t ++ firedGate .docheck)))
          (o.time (collab (t ++ firedGate .docheck))) 0
          (o.dt (collab (t ++ firedGate .docheck))) cfl dn div mom tke mass]))

/-- The kinds of events of lines 195-233. -/
@[simp]
def tailFrontTags : List (Ev Unit) :=
  [.loop true, .loop false, .act .postprocstep, .step (.timeloop_load 0) 0,
   .step (.fields_load 0) 0, .act .boundary_exec]

/-- The kinds of events of lines 165-233. -/
@[simp]
def frontTags : List (Ev Unit) :=
  stepSizeTags ++ operatorsTags ++ saveTags ++ statsTags ++ tailFrontTags

/-- A process with `mpiid == 0` whose first startup call fails. -/
def failedStartOracle : Oracle Int where
  status := fun _ s =>
    match s with
    | .input_readinifile _ => 1
    | _ => 0
  flag := fun _ p => p != .insubstep
  value := fun _ _ => 0
  iteration := fun _ => 0
  time := fun _ => 0
  dt := fun _ => 0
  loop := fun _ => false
  mpiid := fun _ => 0
  fopen := fun _ _ _ => true

/-- The segment `seg`, which follows the trace `t`, holds a check that fired
and its record: after the events `front`, the fired condition, the four
reductions, the events `mid`, one record with the time used `cputime`, and the
events `after`.  The record holds, in this order, the iteration, time and step
read after the condition, `cputime`, the last answers of `getcfl` and `getdn`,
and the answers of the four reductions. -/
def CheckRecord (o : Oracle R) (t seg mid : List (Ev R)) (cputime : R)
    (after : List (Ev R)) : Prop :=
  ∃ front div mom tke mass cfl dn,
    seg = front ++ firedGate .docheck ++ reductionCalls div mom tke mass ++ mid ++
      [Ev.file (.fprintf recordFormat
        [.int (o.iteration (collab (t ++ front ++ firedGate .docheck))),
         .dbl (o.time (collab (t ++ front ++ firedGate .docheck))),
         .dbl cputime,
         .dbl (o.dt (collab (t ++ front ++ firedGate .docheck))),
         .dbl cfl, .dbl dn, .dbl div, .dbl mom, .dbl tke, .dbl mass])] ++ after ∧
    fileEvents front = [] ∧
    lastAnswer Query.isGetcfl (t ++ front) = some cfl ∧
    lastAnswer Query.isGetdn (t ++ front) = some dn

/-- Whether every tested call of lines 48-113 returned zero. -/
def startupOk (o : Oracle R) (argv : List String) : Bool :=
  (runSteps o (startupItems (simnameOf argv)) []).2

/-- The replay of `cleanOracle` on a machine where the summary file cannot be
opened: `std::fopen` returns `NULL`. -/
def unopenedOracle : Oracle Int :=
  { cleanOracle with fopen := fun _ _ _ => false }

end Stats

namespace TestMpi

/-- The objects constructed at `testmpi.cxx:9-12`, in order of construction. -/
inductive Obj
  | grid | input | mpi | mpicheck
  deriving DecidableEq

/-- The setup calls whose `int` result `main` tests. -/
inductive Step
  | input_readinifile
  | grid_readinifile
  | mpi_readinifile
  | grid_init (npx npy : Int)
  | mpi_init
  | grid_create
  deriving DecidableEq

/-- The calls whose result `main` does not use. -/
inductive Action
  | construct (x : Obj)
  | checkLayout
  | create
  | checkBoundary
  | checkTranspose
  deriving DecidableEq

/-- What `main` does, one event per call, with the status a setup call returned. -/
inductive Ev
  | step (s : Step) (rc : Int)
  | act (a : Action)
  deriving DecidableEq

/-- The collaborators: the status of a setup call and the data members
`mpi.npx`, `mpi.npy` are functions of the calls made so far. -/
structure Oracle where
  status : List Ev → Step → Int
  npx : List Ev → Int
  npy : List Ev → Int

/-- The function `main` of `src/test/testmpi.cxx`: the events and the value returned. -/
def main (o : Oracle) : List Ev × Int :=
  -- create the instances of the objects
  let t0 : List Ev :=
    [.act (.construct .grid), .act (.construct .input), .act (.construct .mpi),
     .act (.construct .mpicheck)]
  -- read the input data
  let rc1 := o.status t0 .input_readinifile
  let t1 := t0 ++ [.step .input_readinifile rc1]
  if rc1 ≠ 0 then (t1, 1) else
  let rc2 := o.status t1 .grid_readinifile
  let t2 := t1 ++ [.step .grid_readinifile rc2]
  if rc2 ≠ 0 then (t2, 1) else
  let rc3 := o.status t2 .mpi_readinifile
  let t3 := t2 ++ [.step .mpi_readinifile rc3]
  if rc3 ≠ 0 then (t3, 1) else
  -- initialize the objects, allocate the required memory
  let s4 := Step.grid_init (o.npx t3) (o.npy t3)
  let rc4 := o.status t3 s4
  let t4 := t3 ++ [.step s4 rc4]
  if rc4 ≠ 0 then (t4, 1) else
  let rc5 := o.status t4 .mpi_init
  let t5 := t4 ++ [.step .mpi_init rc5]
  if rc5 ≠ 0 then (t5, 1) else
  -- check the layout
  let t6 := t5 ++ [.act .checkLayout]
  -- fill the fields with data
  let rc7 := o.status t6 .grid_create
  let t7 := t6 ++ [.step .grid_create rc7]
  if rc7 ≠ 0 then (t7, 1) else
  -- fill the fields with the test data, trigger the boundary conditions
  (t7 ++ [.act .create, .act .checkBoundary, .act .checkTranspose], 0)

/-- A setup call that returned non-zero. -/
def Ev.failed : Ev → Bool
  | .step _ rc => rc != 0
  | _ => false

/-- One of the four checks of `mpicheck`. -/
def Ev.isCheck : Ev → Bool
  | .act .checkLayout => true
  | .act .create => true
  | .act .checkBoundary => true
  | .act .checkTranspose => true
  | _ => false

/-- The events of an execution in which every setup call returned zero. -/
def cleanTrace (npx npy : Int) : List Ev :=
  [.act (.construct .grid), .act (.construct .input), .act (.construct .mpi),
   .act (.construct .mpicheck), .step .input_readinifile 0, .step .grid_readinifile 0,
   .step .mpi_readinifile 0, .step (.grid_init npx npy) 0, .step .mpi_init 0,
   .act .checkLayout, .step .grid_create 0, .act .create, .act .checkBoundary,
   .act .checkTranspose]

/-- A run on a 1 x 3 process grid in which `grid.create` fails. -/
def createFails : Oracle where
  status := fun _ s => if s = .grid_create then 1 else 0
  npx := fun _ => 1
  npy := fun _ => 3

/-- A run on a 1 x 3 process grid in which every setup call succeeds. -/
def allSucceed : Oracle where
  status := fun _ _ => 0
  npx := fun _ => 1
  npy := fun _ => 3

end TestMpi

namespace Stats

variable {R : Type}

theorem failed_of_not_isStep {e : Ev R} (h : e.isStep = false) : e.failed = false := by
  cases e <;> simp_all [Ev.isStep, Ev.failed]

theorem runSteps_append (o : Oracle R) (a b : List (Item R)) (t : List (Ev R)) :
    runSteps o (a ++ b) t =
      if (runSteps o a t).2 then
        ((runSteps o a t).1 ++ (runSteps o b (t ++ (runSteps o a t).1)).1,
          (runSteps o b (t ++ (runSteps o a t).1)).2)
      else runSteps o a t := by
  induction a generalizing t with
  | nil => simp [runSteps]
  | cons i is ih =>
    cases i with
    | perform x =>
      simp only [List.cons_append, runSteps, List.append_eq]
      rw [ih]
      by_cases h : (runSteps o is (t ++ [Ev.act x])).2 = true <;> simp [h]
    | check mk =>
      simp only [List.cons_append, runSteps]
      by_cases hrc : o.status (collab t) (mk o (collab t)) = 0
      · simp only [hrc, ne_eq, not_true_eq_false, if_false, List.append_eq]
        rw [ih]
        by_cases h : (runSteps o is (t ++ [Ev.step (mk o (collab t)) 0])).2 = true <;> simp [h]
      · simp [hrc]

theorem runSteps_ok (o : Oracle R) (is : List (Item R)) (t : List (Ev R))
    (h : (runSteps o is t).2 = true) : ∀ e ∈ (runSteps o is t).1, e.failed = false := by
  induction is generalizing t with
  | nil => simp [runSteps]
  | cons i is ih =>
    cases i with
    | perform x =>
      simp only [runSteps] at h ⊢
      intro e he
      rcases List.mem_cons.1 he with rfl | he
      · rfl
      · exact ih _ h e he
    | check mk =>
      simp only [runSteps] at h ⊢
      split at h
      · simp at h
      · rename_i hrc
        rw [if_neg hrc]
        intro e he
        rcases List.mem_cons.1 he with rfl | he
        · simpa [Ev.failed] using hrc
        · exact ih _ h e he

theorem runSteps_fail (o : Oracle R) (is : List (Item R)) (t : List (Ev R))
    (h : (runSteps o is t).2 = false) :
    ∃ pre s rc, (runSteps o is t).1 = pre ++ [Ev.step s rc] ∧ rc ≠ 0 ∧
      ∀ e ∈ pre, e.failed = false := by
  induction is generalizing t with
  | nil => simp [runSteps] at h
  | cons i is ih =>
    cases i with
    | perform x =>
      simp only [runSteps] at h ⊢
      obtain ⟨pre, s, rc, h1, h2, h3⟩ := ih _ h
      refine ⟨Ev.act x :: pre, s, rc, by simp [h1], h2, ?_⟩
      intro e he
      rcases List.mem_cons.1 he with rfl | he
      · rfl
      · exact h3 e he
    | check mk =>
      simp only [runSteps] at h ⊢
      split at h
      · rename_i hrc
        rw [if_pos hrc]
        exact ⟨[], _, _, rfl, hrc, by simp⟩
      · rename_i hrc
        rw [if_neg hrc]
        obtain ⟨pre, s, rc, h1, h2, h3⟩ := ih _ h
        refine ⟨Ev.step (mk o (collab t)) (o.status (collab t) (mk o (collab t))) :: pre, s, rc,
          by simp [h1], h2, ?_⟩
        intro e he
        rcases List.mem_cons.1 he with rfl | he
        · simpa [Ev.failed] using hrc
        · exact h3 e he

theorem gate_not_isStep (o : Oracle R) (p : Pred) (t : List (Ev R)) :
    ∀ e ∈ (gate o p t).1, e.isStep = false := by
  simp only [gate]
  split <;> simp [Ev.isStep]

theorem stepSize_not_isStep (o : Oracle R) (cfl dn : R) (t : List (Ev R)) :
    ∀ e ∈ (stepSize o cfl dn t).1, e.isStep = false := by
  simp only [stepSize]
  split <;> simp [Ev.isStep]

theorem operators_not_isStep (o : Oracle R) (t : List (Ev R)) :
    ∀ e ∈ operators o t, e.isStep = false := by
  simp [operators, Ev.isStep]

theorem savePressure_not_isStep (o : Oracle R) (t : List (Ev R)) :
    ∀ e ∈ savePressure o t, e.isStep = false := by
  intro e he
  simp only [savePressure] at he
  split at he
  · rcases List.mem_append.1 he with h | h
    · exact gate_not_isStep o _ _ e h
    · simp at h; subst h; rfl
  · exact gate_not_isStep o _ _ e he

theorem statistics_not_isStep (o : Oracle R) (t : List (Ev R)) :
    ∀ e ∈ statistics o t, e.isStep = false := by
  intro e he
  simp only [statistics] at he
  split at he
  · rcases List.mem_append.1 he with h | h
    · exact gate_not_isStep o _ _ e h
    · simp at h; rcases h with rfl | rfl <;> rfl
  · exact gate_not_isStep o _ _ e he

theorem reductions_not_isStep (o : Oracle R) (t : List (Ev R)) :
    ∀ e ∈ (reductions o t).1, e.isStep = false := by
  simp [reductions, Ev.isStep]

theorem loopCheck_not_isStep [Sub R] (o : Oracle R) (cfl dn start : R) (t : List (Ev R)) :
    ∀ e ∈ (loopCheck o cfl dn start t).1, e.isStep = false := by
  intro e he
  simp only [loopCheck] at he
  split at he
  · simp only [List.mem_append] at he
    rcases he with ((h | h) | h) | h
    · exact gate_not_isStep o _ _ e h
    · exact reductions_not_isStep o _ e h
    · simp at h; subst h; rfl
    · split at h
      · simp [recordLine] at h; subst h; rfl
      · simp at h
  · exact gate_not_isStep o _ _ e he

theorem initialCheck_not_isStep [Zero R] (o : Oracle R) (cfl dn : R) (t : List (Ev R)) :
    ∀ e ∈ initialCheck o cfl dn t, e.isStep = false := by
  intro e he
  simp only [initialCheck] at he
  split at he
  · simp only [List.mem_append] at he
    rcases he with (h | h) | h
    · exact gate_not_isStep o _ _ e h
    · exact reductions_not_isStep o _ e h
    · split at h
      · simp [recordLine] at h; subst h; rfl
      · simp at h
  · exact gate_not_isStep o _ _ e he

theorem noFail_nil : NoFail ([] : List (Ev R)) := by simp [NoFail]

theorem noFail_append {a b : List (Ev R)} : NoFail (a ++ b) ↔ NoFail a ∧ NoFail b := by
  simp only [NoFail, List.mem_append]
  constructor
  · intro h; exact ⟨fun e he => h e (Or.inl he), fun e he => h e (Or.inr he)⟩
  · rintro ⟨h1, h2⟩ e (he | he)
    · exact h1 e he
    · exact h2 e he

theorem noFail_of_not_isStep {l : List (Ev R)} (h : ∀ e ∈ l, e.isStep = false) : NoFail l :=
  fun e he => failed_of_not_isStep (h e he)

theorem failsAtEnd_append {a b : List (Ev R)} (ha : NoFail a) (hb : FailsAtEnd b) :
    FailsAtEnd (a ++ b) := by
  obtain ⟨pre, s, rc, h1, h2, h3⟩ := hb
  exact ⟨a ++ pre, s, rc, by simp [h1], h2, noFail_append.2 ⟨ha, h3⟩⟩

theorem not_noFail_of_failsAtEnd {l : List (Ev R)} (h : FailsAtEnd l) : ¬ NoFail l := by
  obtain ⟨pre, s, rc, h1, h2, _⟩ := h
  intro hn
  have := hn (Ev.step s rc) (by simp [h1])
  simp [Ev.failed, h2] at this

theorem mem_of_append_cons_eq_concat {α : Type} {a post b : List α} {e x : α}
    (h : a ++ e :: post = b ++ [x]) (hp : post ≠ []) : e ∈ b := by
  obtain ⟨post', y, rfl⟩ := (List.eq_nil_or_concat post).resolve_left hp
  have h' : (a ++ e :: post') ++ [y] = b ++ [x] := by simpa using h
  have := List.append_inj_left' h' rfl
  rw [← this]; simp

theorem failsAtEnd_last {l : List (Ev R)} (h : FailsAtEnd l) {pre post : List (Ev R)}
    {e : Ev R} (hl : l = pre ++ e :: post) (he : e.failed = true) : post = [] := by
  obtain ⟨pre', s, rc, h1, _, h3⟩ := h
  by_contra hp
  have hmem : e ∈ pre' := mem_of_append_cons_eq_concat (hl.symm.trans h1) hp
  have := h3 e hmem
  rw [he] at this
  exact absurd this (by decide)

theorem noFail_cons {e : Ev R} {l : List (Ev R)} :
    NoFail (e :: l) ↔ e.failed = false ∧ NoFail l := by
  simp [NoFail]

theorem passTail_shape [Sub R] (o : Oracle R) (cfl dn start : R) (t : List (Ev R)) :
    PassShape (passTail o cfl dn start t).events (passTail o cfl dn start t).outcome := by
  unfold passTail
  cases h1 : o.loop (collab t)
  · exact ⟨noFail_cons.2 ⟨rfl, noFail_nil⟩, rfl⟩
  · simp only [Bool.not_true, Bool.false_eq_true, if_false]
    cases h2 : o.loop (collab (t ++ [Ev.loop true, Ev.act Action.postprocstep]))
    · exact ⟨noFail_cons.2 ⟨rfl, noFail_cons.2 ⟨rfl, noFail_cons.2 ⟨rfl, noFail_nil⟩⟩⟩, rfl⟩
    · simp only [Bool.not_true, Bool.false_eq_true, if_false]
      split
      · rename_i h3
        exact ⟨[_, _, _], _, _, rfl, h3,
          noFail_cons.2 ⟨rfl, noFail_cons.2 ⟨rfl, noFail_cons.2 ⟨rfl, noFail_nil⟩⟩⟩⟩
      · rename_i h3
        split
        · rename_i h4
          refine ⟨[_, _, _, _], _, _, rfl, h4,
            noFail_cons.2 ⟨rfl, noFail_cons.2 ⟨rfl, noFail_cons.2 ⟨rfl,
              noFail_cons.2 ⟨?_, noFail_nil⟩⟩⟩⟩⟩
          simpa [Ev.failed] using h3
        · rename_i h4
          refine noFail_append.2 ⟨?_, noFail_of_not_isStep (loopCheck_not_isStep o _ _ _ _)⟩
          refine noFail_cons.2 ⟨rfl, noFail_cons.2 ⟨rfl, noFail_cons.2 ⟨rfl,
              noFail_cons.2 ⟨?_, noFail_cons.2 ⟨?_, noFail_cons.2 ⟨rfl, noFail_nil⟩⟩⟩⟩⟩⟩
          · simpa [Ev.failed] using h3
          · simpa [Ev.failed] using h4

theorem passShape_append {a b : List (Ev R)} {oc : Outcome} (ha : NoFail a)
    (hb : PassShape b oc) (hne : b ≠ []) : PassShape (a ++ b) oc := by
  cases oc with
  | again => exact noFail_append.2 ⟨ha, hb⟩
  | done =>
    refine ⟨noFail_append.2 ⟨ha, hb.1⟩, ?_⟩
    rw [List.getLast?_append_of_ne_nil _ hne]
    exact hb.2
  | failed => exact failsAtEnd_append ha hb

theorem passTail_ne_nil [Sub R] (o : Oracle R) (cfl dn start : R) (t : List (Ev R)) :
    (passTail o cfl dn start t).events ≠ [] := by
  simp only [passTail]
  split
  · simp
  · split
    · simp
    · split
      · simp
      · split <;> simp

theorem pass_shape [Sub R] (o : Oracle R) (cfl dn start : R) (t : List (Ev R)) :
    PassShape (pass o cfl dn start t).events (pass o cfl dn start t).outcome := by
  simp only [pass]
  refine passShape_append ?_ (passTail_shape o _ _ _ _) (passTail_ne_nil o _ _ _ _)
  refine noFail_append.2 ⟨noFail_append.2 ⟨noFail_append.2 ⟨?_, ?_⟩, ?_⟩, ?_⟩
  · exact noFail_of_not_isStep (stepSize_not_isStep o _ _ _)
  · exact noFail_of_not_isStep (operators_not_isStep o _)
  · exact noFail_of_not_isStep (savePressure_not_isStep o _)
  · exact noFail_of_not_isStep (statistics_not_isStep o _)

theorem timeLoop_shape [Sub R] (o : Oracle R) (fuel : Nat) (cfl dn start : R) (t : List (Ev R)) :
    LoopShape (timeLoop o fuel cfl dn start t).1 (timeLoop o fuel cfl dn start t).2 := by
  induction fuel generalizing cfl dn start t with
  | zero => simp [timeLoop, LoopShape, NoFail]
  | succ n ih =>
    have hp := pass_shape o cfl dn start t
    simp only [timeLoop]
    split
    · rename_i hoc
      rw [hoc] at hp
      have hrec := ih (pass o cfl dn start t).cfl (pass o cfl dn start t).dn
        (pass o cfl dn start t).start (t ++ (pass o cfl dn start t).events)
      revert hrec
      generalize timeLoop o n _ _ _ _ = r
      obtain ⟨ps, ex⟩ := r
      intro hrec
      cases ex with
      | none =>
        simp only [LoopShape, List.flatten_cons] at hrec ⊢
        exact noFail_append.2 ⟨hp, hrec⟩
      | some c =>
        simp only [LoopShape, List.flatten_cons] at hrec ⊢
        rcases hrec with ⟨h0, h1, ps', last, h2, h3⟩ | ⟨h0, h1⟩
        · left
          exact ⟨h0, noFail_append.2 ⟨hp, h1⟩, (pass o cfl dn start t).events :: ps', last,
            by simp [h2], h3⟩
        · right
          exact ⟨h0, failsAtEnd_append hp h1⟩
    · rename_i hoc
      rw [hoc] at hp
      left
      refine ⟨rfl, by simpa using hp.1, [], _, rfl, hp.2⟩
    · rename_i hoc
      rw [hoc] at hp
      right
      exact ⟨rfl, by simpa using hp⟩

theorem openSummary_not_isStep (o : Oracle R) (n : String) (t : List (Ev R)) :
    ∀ e ∈ (openSummary o n t).1, e.isStep = false := by
  simp only [openSummary]
  split
  · split <;> simp [Ev.isStep, headerLine]
  · simp

theorem closeSummary_not_isStep (o : Oracle R) (t : List (Ev R)) :
    ∀ e ∈ closeSummary o t, e.isStep = false := by
  simp only [closeSummary]
  split <;> simp [Ev.isStep]

theorem initialNumbers_not_isStep (o : Oracle R) (t : List (Ev R)) :
    ∀ e ∈ (initialNumbers o t).1, e.isStep = false := by
  simp [initialNumbers, Ev.isStep]

theorem catchStart_not_isStep (o : Oracle R) (t : List (Ev R)) :
    ∀ e ∈ (catchStart o t).1, e.isStep = false := by
  simp [catchStart, Ev.isStep]

theorem main_startup [Zero R] [Sub R] (o : Oracle R) (argv : List String) (fuel : Nat) :
    (main o argv fuel).startup = (runSteps o (startupItems (simnameOf argv)) []).1 := by
  simp only [main]
  split
  · rfl
  · split <;> rfl

theorem main_shape [Zero R] [Sub R] (o : Oracle R) (argv : List String) (fuel : Nat) :
    RunShape (main o argv fuel) := by
  by_cases h : (runSteps o (startupItems (simnameOf argv)) []).2 = true
  case neg =>
    simp only [Bool.not_eq_true] at h
    simp only [main, h, Bool.not_false, if_true]
    right; right
    refine ⟨rfl, ?_⟩
    simpa [Run.trace] using runSteps_fail o _ _ h
  case pos =>
    have h1 : NoFail (runSteps o (startupItems (simnameOf argv)) []).1 := runSteps_ok o _ _ h
    have h2 : NoFail (openSummary o (simnameOf argv)
        (runSteps o (startupItems (simnameOf argv)) []).1).1 :=
      noFail_of_not_isStep (openSummary_not_isStep o _ _)
    cases hk : (openSummary o (simnameOf argv)
        (runSteps o (startupItems (simnameOf argv)) []).1).2
    · simp only [main, h, hk, Bool.not_true, Bool.not_false, Bool.false_eq_true, if_false,
        if_true]
      left
      refine ⟨rfl, ?_⟩
      simp only [Run.trace, List.flatten_nil, List.append_nil]
      exact noFail_append.2 ⟨h1, h2⟩
    simp only [main, h, hk, Bool.not_true, Bool.false_eq_true, if_false]
    have hl := timeLoop_shape (R := R) o fuel
    revert hl
    simp only [Run.trace, RunShape]
    generalize (runSteps o (startupItems (simnameOf argv)) []).1 = t0 at h1 h2 ⊢
    generalize (openSummary o (simnameOf argv) t0).1 = hd at h2 ⊢
    have h3 : NoFail (initialNumbers o (t0 ++ hd)).1 :=
      noFail_of_not_isStep (initialNumbers_not_isStep o _)
    generalize initialNumbers o (t0 ++ hd) = nn at h3 ⊢
    have h4 : NoFail (initialCheck o nn.2.1 nn.2.2 (t0 ++ hd ++ nn.1)) :=
      noFail_of_not_isStep (initialCheck_not_isStep o _ _ _)
    generalize initialCheck o nn.2.1 nn.2.2 (t0 ++ hd ++ nn.1) = ic at h4 ⊢
    have h5 : NoFail (catchStart o (t0 ++ hd ++ nn.1 ++ ic)).1 :=
      noFail_of_not_isStep (catchStart_not_isStep o _)
    generalize catchStart o (t0 ++ hd ++ nn.1 ++ ic) = cs at h5 ⊢
    intro hl
    have hl' := hl nn.2.1 nn.2.2 cs.2 (t0 ++ hd ++ nn.1 ++ ic ++ cs.1)
    revert hl'
    generalize timeLoop o fuel nn.2.1 nn.2.2 cs.2 (t0 ++ hd ++ nn.1 ++ ic ++ cs.1) = lp
    obtain ⟨ps, ex⟩ := lp
    intro hl'
    have hpre : NoFail (t0 ++ (hd ++ nn.1) ++ (ic ++ cs.1)) :=
      noFail_append.2 ⟨noFail_append.2 ⟨h1, noFail_append.2 ⟨h2, h3⟩⟩, noFail_append.2 ⟨h4, h5⟩⟩
    cases ex with
    | none =>
      left
      simp only [LoopShape] at hl'
      refine ⟨rfl, ?_⟩
      simp only [reduceCtorEq, if_false, List.append_nil]
      exact noFail_append.2 ⟨hpre, hl'⟩
    | some c =>
      simp only [LoopShape] at hl'
      rcases hl' with ⟨h0, h6, h7⟩ | ⟨h0, h6⟩
      · subst h0
        right; left
        refine ⟨rfl, ?_, h7⟩
        simp only [if_true]
        exact noFail_append.2 ⟨noFail_append.2 ⟨hpre, h6⟩,
          noFail_of_not_isStep (closeSummary_not_isStep o _)⟩
      · subst h0
        right; right
        refine ⟨rfl, ?_⟩
        have : (some (1 : Int) = some 0) = False := by simp
        simp only [this, if_false, List.append_nil]
        exact failsAtEnd_append hpre h6

theorem timeLoop_fuel_mono [Sub R] (o : Oracle R) (n k : Nat) (cfl dn start : R)
    (t : List (Ev R)) (c : Int) (h : (timeLoop o n cfl dn start t).2 = some c) :
    timeLoop o (n + k) cfl dn start t = timeLoop o n cfl dn start t := by
  induction n generalizing cfl dn start t with
  | zero => simp [timeLoop] at h
  | succ n ih =>
    rw [Nat.add_right_comm]
    simp only [timeLoop] at h ⊢
    split
    · rename_i hoc
      simp only [hoc] at h
      rw [ih _ _ _ _ h]
    · rfl
    · rfl

theorem main_fuel_mono [Zero R] [Sub R] (o : Oracle R) (argv : List String) (n k : Nat)
    (c : Int) (h : (main o argv n).exit = some c) : main o argv (n + k) = main o argv n := by
  by_cases hs : (runSteps o (startupItems (simnameOf argv)) []).2 = true
  · cases hk : (openSummary o (simnameOf argv)
        (runSteps o (startupItems (simnameOf argv)) []).1).2
    · simp only [main, hs, hk, Bool.not_true, Bool.not_false, Bool.false_eq_true, if_false,
        if_true]
    · simp only [main, hs, hk, Bool.not_true, Bool.false_eq_true, if_false] at h ⊢
      rw [timeLoop_fuel_mono o n k _ _ _ _ c h]
  · simp only [Bool.not_eq_true] at hs
    simp only [main, hs, Bool.not_false, if_true]

/-- Claim C1.  With every collaborator an oracle, in every execution of `main`
(`stats.cxx`) that returns: the value returned is 1 exactly when some tested
call (a readinifile, init, load, create or setvalues step of the startup, or
`timeloop.load` / `fields.load` in the loop) returned non-zero; when none did,
the value is 0 and the last pass ended at a test of `timeloop.loop` that read
false. -/
theorem main_exit_status [Zero R] [Sub R] (o : Oracle R) (argv : List String) (fuel : Nat)
    (c : Int) (h : (main o argv fuel).exit = some c) :
    (c = 1 ↔ ∃ s rc, Ev.step s rc ∈ (main o argv fuel).trace ∧ rc ≠ 0) ∧
    ((¬ ∃ s rc, Ev.step s rc ∈ (main o argv fuel).trace ∧ rc ≠ 0) →
      c = 0 ∧ ∃ ps last, (main o argv fuel).passes = ps ++ [last] ∧
        last.getLast? = some (Ev.loop false)) := by
  have key : (c = 1 ∧ ∃ s rc, Ev.step s rc ∈ (main o argv fuel).trace ∧ rc ≠ 0) ∨
      (c = 0 ∧ (¬ ∃ s rc, Ev.step s rc ∈ (main o argv fuel).trace ∧ rc ≠ 0) ∧
        ∃ ps last, (main o argv fuel).passes = ps ++ [last] ∧
          last.getLast? = some (Ev.loop false)) := by
    rcases main_shape o argv fuel with ⟨h0, _⟩ | ⟨h0, h1, h2⟩ | ⟨h0, pre, s, rc, h1, h2, _⟩
    · rw [h0] at h; cases h
    · rw [h0] at h
      right
      refine ⟨(Option.some.inj h).symm, ?_, h2⟩
      rintro ⟨s, rc, hm, hrc⟩
      have := h1 _ hm
      simp [Ev.failed, hrc] at this
    · rw [h0] at h
      left
      exact ⟨(Option.some.inj h).symm, s, rc, by simp [h1], h2⟩
  rcases key with ⟨hc, hex⟩ | ⟨hc, hno, hl⟩
  · exact ⟨⟨fun _ => hex, fun _ => hc⟩, fun hn => absurd hex hn⟩
  · refine ⟨⟨fun h1 => ?_, fun hex => absurd hex hno⟩, fun _ => ⟨hc, hl⟩⟩
    rw [hc] at h1; cases h1

set_option maxRecDepth 100000 in
theorem main_exit_status_witness :
    (main replayOracle ["stats"] 3).exit = some 1 ∧
    ((1 : Int) = 1 ↔
      ∃ s rc, Ev.step s rc ∈ (main replayOracle ["stats"] 3).trace ∧ rc ≠ 0) :=
  ⟨by decide, (main_exit_status replayOracle ["stats"] 3 1 (by decide)).1⟩

/-- Claim C2.  Fail-fast: in every execution of `main` (`stats.cxx`), a tested
call that returned non-zero is the last event of the execution and `main`
returns 1; when it is a startup call, nothing of lines 123-258 is executed
(no summary-file output, no pass of the loop). -/
theorem main_fail_fast [Zero R] [Sub R] (o : Oracle R) (argv : List String) (fuel : Nat)
    (pre post : List (Ev R)) (s : Step) (rc : Int)
    (h : (main o argv fuel).trace = pre ++ Ev.step s rc :: post) (hrc : rc ≠ 0) :
    post = [] ∧ (main o argv fuel).exit = some 1 ∧
    (Ev.step s rc ∈ (main o argv fuel).startup →
      (main o argv fuel).prologue = [] ∧ (main o argv fuel).initial = [] ∧
      (main o argv fuel).passes = [] ∧ (main o argv fuel).closing = []) := by
  have hfail : (Ev.step s rc : Ev R).failed = true := by simp [Ev.failed, hrc]
  have hmem : Ev.step s rc ∈ (main o argv fuel).trace := by simp [h]
  have hE : (main o argv fuel).exit = some 1 ∧ FailsAtEnd (main o argv fuel).trace := by
    rcases main_shape o argv fuel with ⟨_, h1⟩ | ⟨_, h1, _⟩ | h1
    · have := h1 _ hmem; rw [hfail] at this; cases this
    · have := h1 _ hmem; rw [hfail] at this; cases this
    · exact h1
  refine ⟨failsAtEnd_last hE.2 h hfail, hE.1, ?_⟩
  intro hst
  by_cases hs : (runSteps o (startupItems (simnameOf argv)) []).2 = true
  · have h1 : NoFail (main o argv fuel).startup := by
      rw [main_startup]
      exact runSteps_ok o _ _ hs
    have := h1 _ hst
    rw [hfail] at this; cases this
  · simp only [Bool.not_eq_true] at hs
    simp only [main, hs, Bool.not_false, if_true, and_self]

set_option maxRecDepth 100000 in
theorem main_fail_fast_witness :
    (main replayOracle ["stats"] 3).trace =
      (main replayOracle ["stats"] 3).trace.dropLast ++ [Ev.step (.timeloop_load 90) 1] ∧
    (main replayOracle ["stats"] 3).exit = some 1 :=
  ⟨by decide,
   (main_fail_fast replayOracle ["stats"] 3 (main replayOracle ["stats"] 3).trace.dropLast []
      (.timeloop_load 90) 1 (by decide) (by decide)).2.1⟩

theorem stepSize_form (o : Oracle R) (cfl dn : R) (t : List (Ev R)) :
    StepSizeForm (stepSize o cfl dn t).1 := by
  unfold stepSize
  cases h : o.flag (collab t) .insubstep
  · right; exact ⟨_, _, _, _, rfl⟩
  · left; rfl

theorem operators_form (o : Oracle R) (t : List (Ev R)) : OperatorsForm (operators o t) :=
  ⟨_, _, rfl⟩

theorem gate_cases (o : Oracle R) (p : Pred) (t : List (Ev R)) :
    gate o p t = ([Ev.pred p false], false) ∨
    gate o p t = ([Ev.pred p true, Ev.pred .insubstep true], false) ∨
    gate o p t = ([Ev.pred p true, Ev.pred .insubstep false], true) := by
  unfold gate
  cases h : o.flag (collab t) p
  · left; rfl
  · cases h2 : o.flag (collab (t ++ [Ev.pred p true])) .insubstep
    · right; right; simp [h2]
    · right; left; simp [h2]

theorem savePressure_form (o : Oracle R) (t : List (Ev R)) : SaveForm (savePressure o t) := by
  unfold savePressure
  rcases gate_cases o .dosave t with h | h | h <;> rw [h]
  · left; rfl
  · right; left; rfl
  · right; right; exact ⟨_, rfl⟩

theorem statistics_form (o : Oracle R) (t : List (Ev R)) : StatsForm (statistics o t) := by
  unfold statistics
  rcases gate_cases o .dostats t with h | h | h <;> rw [h]
  · left; rfl
  · right; left; rfl
  · right; right; exact ⟨_, _, _, rfl⟩

theorem reductions_events (o : Oracle R) (t : List (Ev R)) :
    (reductions o t).1 = [Ev.query .pres_check (reductions o t).2.1,
      Ev.query .checkmom (reductions o t).2.2.1, Ev.query .checktke (reductions o t).2.2.2.1,
      Ev.query .checkmass (reductions o t).2.2.2.2] := rfl

theorem initialCheck_form [Zero R] (o : Oracle R) (cfl dn : R) (t : List (Ev R)) :
    InitialCheckForm o (initialCheck o cfl dn t) := by
  unfold initialCheck
  rcases gate_cases o .docheck t with h | h | h <;> rw [h]
  · left; rfl
  · right; left; rfl
  · right; right
    simp only [if_true, reductions_events]
    split
    · rename_i hm
      exact ⟨_, _, _, _, _, _, _, _, _, _, _, Or.inr ⟨hm, rfl⟩⟩
    · rename_i hm
      exact ⟨_, 0, cfl, cfl, cfl, cfl, cfl, _, _, _, _, Or.inl ⟨hm, rfl⟩⟩

theorem loopCheck_form [Sub R] (o : Oracle R) (cfl dn start : R) (t : List (Ev R)) :
    LoopCheckForm o (loopCheck o cfl dn start t).1 := by
  unfold loopCheck
  rcases gate_cases o .docheck t with h | h | h <;> rw [h]
  · left; rfl
  · right; left; rfl
  · right; right
    simp only [if_true, reductions_events]
    split
    · rename_i hm
      exact ⟨_, _, _, _, _, _, _, _, _, _, _, _, Or.inr ⟨hm, rfl⟩⟩
    · rename_i hm
      exact ⟨_, 0, cfl, cfl, cfl, cfl, cfl, _, _, _, _, _, Or.inl ⟨hm, rfl⟩⟩

theorem passTail_form [Sub R] (o : Oracle R) (cfl dn start : R) (t : List (Ev R)) :
    TailForm o (passTail o cfl dn start t).events (passTail o cfl dn start t).outcome := by
  unfold passTail
  cases h1 : o.loop (collab t)
  · left; exact ⟨rfl, rfl⟩
  · simp only [Bool.not_true, Bool.false_eq_true, if_false]
    cases h2 : o.loop (collab (t ++ [Ev.loop true, Ev.act Action.postprocstep]))
    · right; left; exact ⟨rfl, rfl⟩
    · simp only [Bool.not_true, Bool.false_eq_true, if_false]
      split
      · rename_i h3
        right; right; left
        exact ⟨_, _, h3, rfl, rfl⟩
      · rename_i h3
        simp only [ne_eq, Decidable.not_not] at h3
        simp only [h3]
        split
        · rename_i h4
          right; right; right; left
          exact ⟨_, _, _, h4, rfl, rfl⟩
        · rename_i h4
          simp only [ne_eq, Decidable.not_not] at h4
          simp only [h4]
          right; right; right; right
          exact ⟨_, _, _, loopCheck_form o _ _ _ _, rfl, rfl⟩

theorem pass_form [Sub R] (o : Oracle R) (cfl dn start : R) (t : List (Ev R)) :
    PassForm o (pass o cfl dn start t).events (pass o cfl dn start t).outcome :=
  ⟨_, _, _, _, _, stepSize_form o cfl dn t, operators_form o _, savePressure_form o _,
    statistics_form o _, passTail_form o _ _ _ _, rfl⟩

theorem not_mem_of_tags {l : List (Ev R)} {tags : List (Ev Unit)}
    (h : ∀ e ∈ l, e.tag ∈ tags) {e : Ev R} (he : e.tag ∉ tags) : e ∉ l :=
  fun hm => he (h e hm)

theorem stepSize_tags {s : List (Ev R)} (h : StepSizeForm s) : ∀ e ∈ s, e.tag ∈ stepSizeTags := by
  rcases h with rfl | ⟨dt, c, dt2, d, rfl⟩ <;>
    simp [stepSizeTags, Ev.tag, Action.erase, Query.erase]

theorem operators_tags {s : List (Ev R)} (h : OperatorsForm s) :
    ∀ e ∈ s, e.tag ∈ operatorsTags := by
  obtain ⟨a, b, rfl⟩ := h
  simp [operatorsTags, Ev.tag, Action.erase, Query.erase]

theorem save_tags {s : List (Ev R)} (h : SaveForm s) : ∀ e ∈ s, e.tag ∈ saveTags := by
  rcases h with rfl | rfl | ⟨i, rfl⟩ <;> simp [saveTags, Ev.tag, Action.erase]

theorem stats_tags {s : List (Ev R)} (h : StatsForm s) : ∀ e ∈ s, e.tag ∈ statsTags := by
  rcases h with rfl | rfl | ⟨i, tm, j, rfl⟩ <;> simp [statsTags, Ev.tag, Action.erase]

theorem initialCheck_tags {o : Oracle R} {s : List (Ev R)} (h : InitialCheckForm o s) :
    ∀ e ∈ s, e.tag ∈ checkTags := by
  rcases h with rfl | rfl | ⟨h, i, tm, cpu, dt, cfl, dn, a, b, c, d, ⟨_, rfl⟩ | ⟨_, rfl⟩⟩ <;>
    simp [checkTags, Ev.tag, Query.erase, FileOp.erase, recordLine]

theorem loopCheck_tags {o : Oracle R} {s : List (Ev R)} (h : LoopCheckForm o s) :
    ∀ e ∈ s, e.tag ∈ checkTags := by
  rcases h with rfl | rfl | ⟨h, i, tm, cpu, dt, cfl, dn, a, b, c, d, e, ⟨_, rfl⟩ | ⟨_, rfl⟩⟩ <;>
    simp [checkTags, Ev.tag, Query.erase, FileOp.erase, recordLine]

theorem tail_tags {o : Oracle R} {s : List (Ev R)} {oc : Outcome} (h : TailForm o s oc) :
    ∀ e ∈ s, e.tag ∈ tailTags := by
  rcases h with ⟨rfl, _⟩ | ⟨rfl, _⟩ | ⟨i, rc, _, _, rfl⟩ | ⟨i, j, rc, _, _, rfl⟩ |
    ⟨i, j, lc, hlc, _, rfl⟩
  · simp [tailTags, Ev.tag]
  · simp [tailTags, Ev.tag, Action.erase]
  · simp [tailTags, Ev.tag, Action.erase, Step.erase]
  · simp [tailTags, Ev.tag, Action.erase, Step.erase]
  · intro e he
    rcases List.mem_append.1 he with h1 | h1
    · simp only [List.mem_cons, List.mem_singleton, List.not_mem_nil, or_false] at h1
      rcases h1 with rfl | rfl | rfl | rfl | rfl | rfl <;>
        simp [tailTags, Ev.tag, Action.erase, Step.erase]
    · exact List.mem_append_right _ (loopCheck_tags hlc e h1)

theorem infix_pair_append_left {α : Type} {x y : α} {a l : List α} (hx : x ∉ a) :
    [x, y] <:+: a ++ l ↔ [x, y] <:+: l := by
  induction a with
  | nil => simp
  | cons z a ih =>
    have hz : x ≠ z := fun h => hx (by simp [h])
    have ha : x ∉ a := fun h => hx (by simp [h])
    rw [List.cons_append, List.infix_cons_iff, ih ha]
    constructor
    · rintro (h | h)
      · exact absurd (List.cons_prefix_cons.1 h).1 hz
      · exact h
    · exact Or.inr

theorem infix_pair_append_right {α : Type} {x y : α} {l b : List α} (hx : x ∉ b)
    (hl : l.getLast? ≠ some x) : [x, y] <:+: l ++ b ↔ [x, y] <:+: l := by
  induction l with
  | nil =>
    simp only [List.nil_append, List.infix_nil, List.cons_ne_nil, iff_false]
    intro h
    exact hx (h.subset (by simp))
  | cons z l ih =>
    rw [List.cons_append, List.infix_cons_iff, List.infix_cons_iff]
    cases l with
    | nil =>
      have hz : x ≠ z := fun h => hl (by simp [h])
      simp only [List.nil_append, List.infix_nil, List.cons_ne_nil, or_false]
      constructor
      · rintro (h | h)
        · exact absurd (List.cons_prefix_cons.1 h).1 hz
        · exact absurd (h.subset (by simp)) hx
      · intro h
        exact absurd (List.cons_prefix_cons.1 h).1 hz
    | cons w l =>
      have hl' : (w :: l).getLast? ≠ some x := by
        rwa [List.getLast?_cons_cons] at hl
      rw [ih hl']
      simp only [List.cons_append, List.cons_prefix_cons, List.nil_prefix, and_true]

theorem fired_save_pass {o : Oracle R} {oc : Outcome} {s ops sv st tl : List (Ev R)}
    (hs : StepSizeForm s) (hops : OperatorsForm ops) (hsv : SaveForm sv) (hst : StatsForm st)
    (htl : TailForm o tl oc) :
    Fired .dosave (s ++ ops ++ sv ++ st ++ tl) ↔ Fired .dosave sv := by
  unfold Fired
  simp only [List.append_assoc]
  rw [infix_pair_append_left (not_mem_of_tags (stepSize_tags hs) (by simp)),
    infix_pair_append_left (not_mem_of_tags (operators_tags hops) (by simp)),
    infix_pair_append_right]
  · simp only [List.mem_append, not_or]
    exact ⟨not_mem_of_tags (stats_tags hst) (by simp),
      not_mem_of_tags (tail_tags htl) (by simp)⟩
  · rcases hsv with rfl | rfl | ⟨i, rfl⟩ <;> simp

theorem fired_stats_pass {o : Oracle R} {oc : Outcome} {s ops sv st tl : List (Ev R)}
    (hs : StepSizeForm s) (hops : OperatorsForm ops) (hsv : SaveForm sv) (hst : StatsForm st)
    (htl : TailForm o tl oc) :
    Fired .dostats (s ++ ops ++ sv ++ st ++ tl) ↔ Fired .dostats st := by
  unfold Fired
  simp only [List.append_assoc]
  rw [infix_pair_append_left (not_mem_of_tags (stepSize_tags hs) (by simp)),
    infix_pair_append_left (not_mem_of_tags (operators_tags hops) (by simp)),
    infix_pair_append_left (not_mem_of_tags (save_tags hsv) (by simp)),
    infix_pair_append_right (not_mem_of_tags (tail_tags htl) (by simp))]
  rcases hst with rfl | rfl | ⟨i, tm, j, rfl⟩ <;> simp

theorem fired_check_pass {s ops sv st tl : List (Ev R)}
    (hs : StepSizeForm s) (hops : OperatorsForm ops) (hsv : SaveForm sv) (hst : StatsForm st) :
    Fired .docheck (s ++ ops ++ sv ++ st ++ tl) ↔ Fired .docheck tl := by
  unfold Fired
  simp only [List.append_assoc]
  rw [infix_pair_append_left (not_mem_of_tags (stepSize_tags hs) (by simp)),
    infix_pair_append_left (not_mem_of_tags (operators_tags hops) (by simp)),
    infix_pair_append_left (not_mem_of_tags (save_tags hsv) (by simp)),
    infix_pair_append_left (not_mem_of_tags (stats_tags hst) (by simp))]

theorem loopCheck_gates {o : Oracle R} {lc : List (Ev R)} (h : LoopCheckForm o lc) :
    CheckGates o lc := by
  rcases h with rfl | rfl | ⟨h, i, tm, cpu, dt, cfl, dn, a, b, c, d, e, ⟨hm, rfl⟩ | ⟨hm, rfl⟩⟩
  · simp [CheckGates, Fired, List.infix_cons_iff, List.cons_prefix_cons]
  · simp [CheckGates, Fired, List.infix_cons_iff, List.cons_prefix_cons]
  · simp [CheckGates, Fired, List.infix_cons_iff, List.cons_prefix_cons]
    exact ⟨h, hm⟩
  · simp [CheckGates, Fired, List.infix_cons_iff, List.cons_prefix_cons, recordLine]
    exact ⟨h, hm⟩

theorem initialCheck_gates {o : Oracle R} {lc : List (Ev R)} (h : InitialCheckForm o lc) :
    CheckGates o lc := by
  rcases h with rfl | rfl | ⟨h, i, tm, cpu, dt, cfl, dn, a, b, c, d, ⟨hm, rfl⟩ | ⟨hm, rfl⟩⟩
  · simp [CheckGates, Fired, List.infix_cons_iff, List.cons_prefix_cons]
  · simp [CheckGates, Fired, List.infix_cons_iff, List.cons_prefix_cons]
  · simp [CheckGates, Fired, List.infix_cons_iff, List.cons_prefix_cons]
    exact ⟨h, hm⟩
  · simp [CheckGates, Fired, List.infix_cons_iff, List.cons_prefix_cons, recordLine]
    exact ⟨h, hm⟩

theorem checkGates_append_left {o : Oracle R} {a l : List (Ev R)} {T : List (Ev Unit)}
    (ha : ∀ e ∈ a, e.tag ∈ T)
    (h1 : Ev.pred .docheck true ∉ T) (h2 : Ev.query .pres_check () ∉ T)
    (h3 : Ev.query .checkmom () ∉ T) (h4 : Ev.query .checktke () ∉ T)
    (h5 : Ev.query .checkmass () ∉ T) (h6 : Ev.file (.fprintf "" []) ∉ T)
    (h : CheckGates o l) : CheckGates o (a ++ l) := by
  have n1 : Ev.pred .docheck true ∉ a := not_mem_of_tags ha (by simpa using h1)
  have n2 : ∀ v, Ev.query .pres_check v ∉ a := fun v => not_mem_of_tags ha (by simpa using h2)
  have n3 : ∀ v, Ev.query .checkmom v ∉ a := fun v => not_mem_of_tags ha (by simpa using h3)
  have n4 : ∀ v, Ev.query .checktke v ∉ a := fun v => not_mem_of_tags ha (by simpa using h4)
  have n5 : ∀ v, Ev.query .checkmass v ∉ a := fun v => not_mem_of_tags ha (by simpa using h5)
  have n6 : ∀ f x, Ev.file (.fprintf f x) ∉ a :=
    fun f x => not_mem_of_tags ha (by simpa using h6)
  unfold CheckGates Fired at h ⊢
  simp only [List.mem_append, n2, n3, n4, n5, n6, false_or, infix_pair_append_left n1]
  exact h

theorem tail_gates {o : Oracle R} {tl : List (Ev R)} {oc : Outcome} (h : TailForm o tl oc) :
    CheckGates o tl := by
  rcases h with ⟨rfl, _⟩ | ⟨rfl, _⟩ | ⟨i, rc, _, _, rfl⟩ | ⟨i, j, rc, _, _, rfl⟩ |
    ⟨i, j, lc, hlc, _, rfl⟩
  · simp [CheckGates, Fired, List.infix_cons_iff, List.cons_prefix_cons]
  · simp [CheckGates, Fired, List.infix_cons_iff, List.cons_prefix_cons]
  · simp [CheckGates, Fired, List.infix_cons_iff, List.cons_prefix_cons]
  · simp [CheckGates, Fired, List.infix_cons_iff, List.cons_prefix_cons]
  · refine checkGates_append_left (T := [.loop true, .act .postprocstep,
      .step (.timeloop_load 0) 0, .step (.fields_load 0) 0, .act .boundary_exec]) ?_
      (by decide) (by decide) (by decide) (by decide) (by decide) (by decide)
      (loopCheck_gates hlc)
    simp

theorem passForm_gates {o : Oracle R} {seg : List (Ev R)} {oc : Outcome}
    (h : PassForm o seg oc) :
    ((∃ i, Ev.act (.p_save i) ∈ seg) ↔ Fired .dosave seg) ∧
    ((∃ i tm, Ev.act (.stats_exec i tm) ∈ seg) ↔ Fired .dostats seg) ∧
    ((∃ i, Ev.act (.cross_exec i) ∈ seg) ↔ Fired .dostats seg) ∧
    CheckGates o seg ∧ StepGates seg := by
  obtain ⟨s, ops, sv, st, tl, hs, hops, hsv, hst, htl, rfl⟩ := h
  have ts := stepSize_tags hs
  have tp := operators_tags hops
  have tv := save_tags hsv
  have tt := stats_tags hst
  have tl' := tail_tags htl
  refine ⟨?_, ?_, ?_, ?_, ?_⟩
  · rw [fired_save_pass hs hops hsv hst htl]
    have n1 : ∀ i, Ev.act (.p_save i) ∉ s := fun i => not_mem_of_tags ts (by simp)
    have n2 : ∀ i, Ev.act (.p_save i) ∉ ops := fun i => not_mem_of_tags tp (by simp)
    have n3 : ∀ i, Ev.act (.p_save i) ∉ st := fun i => not_mem_of_tags tt (by simp)
    have n4 : ∀ i, Ev.act (.p_save i) ∉ tl := fun i => not_mem_of_tags tl' (by simp)
    simp only [List.mem_append, n1, n2, n3, n4, false_or, or_false]
    rcases hsv with rfl | rfl | ⟨i, rfl⟩ <;>
      simp [Fired, List.infix_cons_iff, List.cons_prefix_cons]
  · rw [fired_stats_pass hs hops hsv hst htl]
    have n1 : ∀ i tm, Ev.act (.stats_exec i tm) ∉ s := fun i tm => not_mem_of_tags ts (by simp)
    have n2 : ∀ i tm, Ev.act (.stats_exec i tm) ∉ ops :=
      fun i tm => not_mem_of_tags tp (by simp)
    have n3 : ∀ i tm, Ev.act (.stats_exec i tm) ∉ sv := fun i tm => not_mem_of_tags tv (by simp)
    have n4 : ∀ i tm, Ev.act (.stats_exec i tm) ∉ tl :=
      fun i tm => not_mem_of_tags tl' (by simp)
    simp only [List.mem_append, n1, n2, n3, n4, false_or, or_false]
    rcases hst with rfl | rfl | ⟨i, tm, j, rfl⟩ <;>
      simp [Fired, List.infix_cons_iff, List.cons_prefix_cons]
  · rw [fired_stats_pass hs hops hsv hst htl]
    have n1 : ∀ i, Ev.act (.cross_exec i) ∉ s := fun i => not_mem_of_tags ts (by simp)
    have n2 : ∀ i, Ev.act (.cross_exec i) ∉ ops := fun i => not_mem_of_tags tp (by simp)
    have n3 : ∀ i, Ev.act (.cross_exec i) ∉ sv := fun i => not_mem_of_tags tv (by simp)
    have n4 : ∀ i, Ev.act (.cross_exec i) ∉ tl := fun i => not_mem_of_tags tl' (by simp)
    simp only [List.mem_append, n1, n2, n3, n4, false_or, or_false]
    rcases hst with rfl | rfl | ⟨i, tm, j, rfl⟩ <;>
      simp [Fired, List.infix_cons_iff, List.cons_prefix_cons]
  · have hall : ∀ e ∈ s ++ ops ++ sv ++ st,
        e.tag ∈ stepSizeTags ++ operatorsTags ++ saveTags ++ statsTags := by
      intro e he
      simp only [List.mem_append] at he ⊢
      rcases he with ((he | he) | he) | he
      · exact Or.inl (Or.inl (Or.inl (ts e he)))
      · exact Or.inl (Or.inl (Or.inr (tp e he)))
      · exact Or.inl (Or.inr (tv e he))
      · exact Or.inr (tt e he)
    exact checkGates_append_left hall (by decide) (by decide) (by decide) (by decide)
      (by decide) (by decide) (tail_gates htl)
  · have n1 : ∀ c d, Ev.act (.settimestep c d) ∉ ops := fun c d => not_mem_of_tags tp (by simp)
    have n2 : ∀ c d, Ev.act (.settimestep c d) ∉ sv := fun c d => not_mem_of_tags tv (by simp)
    have n3 : ∀ c d, Ev.act (.settimestep c d) ∉ st := fun c d => not_mem_of_tags tt (by simp)
    have n4 : ∀ c d, Ev.act (.settimestep c d) ∉ tl := fun c d => not_mem_of_tags tl' (by simp)
    have m1 : ∀ c d, Ev.query (.getcfl c) d ∉ ops := fun c d => not_mem_of_tags tp (by simp)
    have m2 : ∀ c d, Ev.query (.getcfl c) d ∉ sv := fun c d => not_mem_of_tags tv (by simp)
    have m3 : ∀ c d, Ev.query (.getcfl c) d ∉ st := fun c d => not_mem_of_tags tt (by simp)
    have m4 : ∀ c d, Ev.query (.getcfl c) d ∉ tl := fun c d => not_mem_of_tags tl' (by simp)
    have k1 : ∀ c d, Ev.query (.getdn c) d ∉ ops := fun c d => not_mem_of_tags tp (by simp)
    have k2 : ∀ c d, Ev.query (.getdn c) d ∉ sv := fun c d => not_mem_of_tags tv (by simp)
    have k3 : ∀ c d, Ev.query (.getdn c) d ∉ st := fun c d => not_mem_of_tags tt (by simp)
    have k4 : ∀ c d, Ev.query (.getdn c) d ∉ tl := fun c d => not_mem_of_tags tl' (by simp)
    unfold StepGates
    simp only [List.mem_append, n1, n2, n3, n4, m1, m2, m3, m4, k1, k2, k3, k4, or_false]
    rcases hs with rfl | ⟨dt, c, dt2, d, rfl⟩
    · exact ⟨true, by simp⟩
    · exact ⟨false, by simp⟩

theorem loopForm_cons {o : Oracle R} {p : List (Ev R)} {ps : List (List (Ev R))}
    {ex : Option Int} (hp : PassForm o p .again) (h : LoopForm o ps ex) :
    LoopForm o (p :: ps) ex := by
  cases ps with
  | nil =>
    simp only [LoopForm] at h ⊢
    exact Or.inl ⟨h, hp⟩
  | cons q ps => exact ⟨hp, h⟩

theorem timeLoop_form [Sub R] (o : Oracle R) (fuel : Nat) (cfl dn start : R) (t : List (Ev R)) :
    LoopForm o (timeLoop o fuel cfl dn start t).1 (timeLoop o fuel cfl dn start t).2 := by
  induction fuel generalizing cfl dn start t with
  | zero => simp [timeLoop, LoopForm]
  | succ n ih =>
    have hp := pass_form o cfl dn start t
    simp only [timeLoop]
    split
    · rename_i hoc
      rw [hoc] at hp
      exact loopForm_cons hp (ih _ _ _ _)
    · rename_i hoc
      rw [hoc] at hp
      exact Or.inr (Or.inl ⟨rfl, hp⟩)
    · rename_i hoc
      rw [hoc] at hp
      exact Or.inr (Or.inr ⟨rfl, hp⟩)

theorem loopForm_mem {o : Oracle R} {ps : List (List (Ev R))} {ex : Option Int}
    (h : LoopForm o ps ex) : ∀ seg ∈ ps, ∃ oc, PassForm o seg oc := by
  induction ps with
  | nil => simp
  | cons p ps ih =>
    cases ps with
    | nil =>
      simp only [LoopForm] at h
      intro seg hseg
      simp only [List.mem_singleton] at hseg
      subst hseg
      rcases h with ⟨_, h⟩ | ⟨_, h⟩ | ⟨_, h⟩ <;> exact ⟨_, h⟩
    | cons q ps =>
      intro seg hseg
      rcases List.mem_cons.1 hseg with rfl | hseg
      · exact ⟨_, h.1⟩
      · exact ih h.2 seg hseg

theorem main_form [Zero R] [Sub R] (o : Oracle R) (argv : List String) (fuel : Nat) :
    MainForm o argv (main o argv fuel) := by
  by_cases h : (runSteps o (startupItems (simnameOf argv)) []).2 = true
  case neg =>
    simp only [Bool.not_eq_true] at h
    left
    simp only [main, h, Bool.not_false, if_true, and_self]
  case pos =>
    right
    cases hk : (openSummary o (simnameOf argv)
        (runSteps o (startupItems (simnameOf argv)) []).1).2
    · left
      simp only [main, h, hk, Bool.not_true, Bool.not_false, Bool.false_eq_true, if_false,
        if_true, and_self]
    · right
      simp only [main, h, hk, Bool.not_true, Bool.false_eq_true, if_false, true_and, and_true]
      refine ⟨⟨_, _, initialCheck_form o _ _ _, rfl⟩, timeLoop_form o _ _ _ _ _, ?_⟩
      simp only [List.append_assoc]

theorem exists_isFprintf_iff (seg : List (Ev R)) :
    (∃ e ∈ seg, e.isFprintf = true) ↔ ∃ f a, Ev.file (.fprintf f a) ∈ seg := by
  constructor
  · rintro ⟨e, he, h⟩
    cases e with
    | file f =>
      cases f with
      | fprintf f a => exact ⟨f, a, he⟩
      | _ => simp [Ev.isFprintf] at h
    | _ => simp [Ev.isFprintf] at h
  · rintro ⟨f, a, h⟩
    exact ⟨_, h, rfl⟩

theorem initial_gates {o : Oracle R} {ic : List (Ev R)} (g : R) (h : InitialCheckForm o ic) :
    CheckGates o (ic ++ [Ev.query .gettime g]) ∧
    (¬ ∃ i, Ev.act (.p_save i) ∈ ic ++ [Ev.query .gettime g]) ∧
    (¬ Fired .dosave (ic ++ [Ev.query .gettime g])) ∧
    (¬ ∃ i tm, Ev.act (.stats_exec i tm) ∈ ic ++ [Ev.query .gettime g]) ∧
    (¬ ∃ i, Ev.act (.cross_exec i) ∈ ic ++ [Ev.query .gettime g]) ∧
    (¬ Fired .dostats (ic ++ [Ev.query .gettime g])) ∧
    (¬ ∃ c d, Ev.act (.settimestep c d) ∈ ic ++ [Ev.query .gettime g]) ∧
    (¬ ∃ dt v, Ev.query (.getcfl dt) v ∈ ic ++ [Ev.query .gettime g]) ∧
    (¬ ∃ dt v, Ev.query (.getdn dt) v ∈ ic ++ [Ev.query .gettime g]) := by
  rcases h with rfl | rfl | ⟨h, i, tm, cpu, dt, cfl, dn, a, b, c, d, ⟨hm, rfl⟩ | ⟨hm, rfl⟩⟩
  · simp [CheckGates, Fired, List.infix_cons_iff, List.cons_prefix_cons]
  · simp [CheckGates, Fired, List.infix_cons_iff, List.cons_prefix_cons]
  · simp [CheckGates, Fired, List.infix_cons_iff, List.cons_prefix_cons]
    exact ⟨h, hm⟩
  · simp [CheckGates, Fired, List.infix_cons_iff, List.cons_prefix_cons, recordLine]
    exact ⟨h, hm⟩

/-- What the gates do in the initial check and in every pass. -/
theorem segment_gates [Zero R] [Sub R] (o : Oracle R) (argv : List String) (fuel : Nat)
    (seg : List (Ev R))
    (hseg : seg = (main o argv fuel).initial ∨ seg ∈ (main o argv fuel).passes) :
    (((∃ i, Ev.act (.p_save i) ∈ seg) ↔ Fired .dosave seg) ∧
      ((∃ i tm, Ev.act (.stats_exec i tm) ∈ seg) ↔ Fired .dostats seg) ∧
      ((∃ i, Ev.act (.cross_exec i) ∈ seg) ↔ Fired .dostats seg) ∧
      CheckGates o seg) ∧
      (seg ∈ (main o argv fuel).passes → StepGates seg) ∧
      (seg = (main o argv fuel).initial →
        (¬ ∃ c d, Ev.act (.settimestep c d) ∈ seg) ∧
        (¬ ∃ dt v, Ev.query (.getcfl dt) v ∈ seg) ∧
        (¬ ∃ dt v, Ev.query (.getdn dt) v ∈ seg)) := by
  have hpass : seg ∈ (main o argv fuel).passes →
      (((∃ i, Ev.act (.p_save i) ∈ seg) ↔ Fired .dosave seg) ∧
      ((∃ i tm, Ev.act (.stats_exec i tm) ∈ seg) ↔ Fired .dostats seg) ∧
      ((∃ i, Ev.act (.cross_exec i) ∈ seg) ↔ Fired .dostats seg) ∧
      CheckGates o seg) ∧ StepGates seg := by
    intro hp
    rcases main_form o argv fuel with hf | hf | hf
    · rw [hf.2.2.2.2.1] at hp; cases hp
    · rw [hf.2.2.2.2.1] at hp; cases hp
    · obtain ⟨oc, hform⟩ := loopForm_mem hf.2.2.2.2.1 seg hp
      have := passForm_gates hform
      exact ⟨⟨this.1, this.2.1, this.2.2.1, this.2.2.2.1⟩, this.2.2.2.2⟩
  have hinit : seg = (main o argv fuel).initial →
      (((∃ i, Ev.act (.p_save i) ∈ seg) ↔ Fired .dosave seg) ∧
      ((∃ i tm, Ev.act (.stats_exec i tm) ∈ seg) ↔ Fired .dostats seg) ∧
      ((∃ i, Ev.act (.cross_exec i) ∈ seg) ↔ Fired .dostats seg) ∧
      CheckGates o seg) ∧
      (¬ ∃ c d, Ev.act (.settimestep c d) ∈ seg) ∧
      (¬ ∃ dt v, Ev.query (.getcfl dt) v ∈ seg) ∧
      (¬ ∃ dt v, Ev.query (.getdn dt) v ∈ seg) := by
    intro hi
    rcases main_form o argv fuel with hf | hf | hf
    · rw [hf.2.2.2.1] at hi
      subst hi
      simp [CheckGates, Fired]
    · rw [hf.2.2.2.1] at hi
      subst hi
      simp [CheckGates, Fired]
    · obtain ⟨ic, g, hic, hini⟩ := hf.2.2.2.1
      rw [hini] at hi
      subst hi
      have := initial_gates g hic
      refine ⟨⟨?_, ?_, ?_, this.1⟩, this.2.2.2.2.2.2.1, this.2.2.2.2.2.2.2⟩
      · exact ⟨fun h => absurd h this.2.1, fun h => absurd h this.2.2.1⟩
      · exact ⟨fun h => absurd h this.2.2.2.1, fun h => absurd h this.2.2.2.2.2.1⟩
      · exact ⟨fun h => absurd h this.2.2.2.2.1, fun h => absurd h this.2.2.2.2.2.1⟩
  refine ⟨?_, fun hp => (hpass hp).2, fun hi => (hinit hi).2⟩
  rcases hseg with hi | hp
  · exact (hinit hi).1
  · exact (hpass hp).1

/-- Claim C3, amended.  In the initial check (lines 141-160) and in every pass
of the loop of `main` (`stats.cxx`): the pressure save is made exactly when
`dosave()` returned true and the `insubstep()` that followed returned false;
`stats.exec` and `cross.exec` exactly when `dostats()` did so; each of
`pres.check`, `checkmom`, `checktke`, `checkmass` exactly when `docheck()` did
so.  An output line is written only when the check fired; on a process whose
`mpiid` is 0 it is written exactly then, on a process whose `mpiid` is not 0
never.  In a pass `getcfl`, `getdn` and `settimestep` are called exactly when
the `insubstep()` that opens the pass returned false; the initial check calls
none of them. -/
theorem cadence_gates [Zero R] [Sub R] (o : Oracle R) (argv : List String) (fuel : Nat)
    (seg : List (Ev R))
    (hseg : seg = (main o argv fuel).initial ∨ seg ∈ (main o argv fuel).passes) :
    ((∃ i, Ev.act (.p_save i) ∈ seg) ↔ Fired .dosave seg) ∧
    ((∃ i tm, Ev.act (.stats_exec i tm) ∈ seg) ↔ Fired .dostats seg) ∧
    ((∃ i, Ev.act (.cross_exec i) ∈ seg) ↔ Fired .dostats seg) ∧
    ((∃ v, Ev.query .pres_check v ∈ seg) ↔ Fired .docheck seg) ∧
    ((∃ v, Ev.query .checkmom v ∈ seg) ↔ Fired .docheck seg) ∧
    ((∃ v, Ev.query .checktke v ∈ seg) ↔ Fired .docheck seg) ∧
    ((∃ v, Ev.query .checkmass v ∈ seg) ↔ Fired .docheck seg) ∧
    ((∃ e ∈ seg, e.isFprintf = true) → Fired .docheck seg) ∧
    ((∀ h, o.mpiid h = 0) →
      ((∃ a, Ev.file (.fprintf recordFormat a) ∈ seg) ↔ Fired .docheck seg)) ∧
    ((∀ h, o.mpiid h ≠ 0) → ¬ ∃ e ∈ seg, e.isFprintf = true) ∧
    (seg ∈ (main o argv fuel).passes →
      ∃ b, seg.head? = some (Ev.pred .insubstep b) ∧
        ((∃ c d, Ev.act (.settimestep c d) ∈ seg) ↔ b = false) ∧
        ((∃ dt v, Ev.query (.getcfl dt) v ∈ seg) ↔ b = false) ∧
        ((∃ dt v, Ev.query (.getdn dt) v ∈ seg) ↔ b = false)) ∧
    (seg = (main o argv fuel).initial →
      (¬ ∃ c d, Ev.act (.settimestep c d) ∈ seg) ∧
      (¬ ∃ dt v, Ev.query (.getcfl dt) v ∈ seg) ∧
      (¬ ∃ dt v, Ev.query (.getdn dt) v ∈ seg)) := by
  obtain ⟨⟨k1, k2, k3, c1, c2, c3, c4, c5, c6, c7⟩, ks, ki⟩ := segment_gates o argv fuel seg hseg
  refine ⟨k1, k2, k3, c1, c2, c3, c4, ?_, ?_, ?_, ks, ki⟩
  · intro h
    exact c5 ((exists_isFprintf_iff seg).1 h)
  · intro h0
    refine ⟨fun ⟨a, ha⟩ => c5 ⟨_, a, ha⟩, c6 h0⟩
  · intro h0 h
    exact c7 h0 ((exists_isFprintf_iff seg).1 h)

set_option maxRecDepth 100000 in
theorem cadence_gates_witness :
    ((∃ v, Ev.query .pres_check v ∈ (main replayOracle ["stats"] 3).initial) ↔
      Fired .docheck (main replayOracle ["stats"] 3).initial) ∧
    Fired .docheck (main replayOracle ["stats"] 3).initial :=
  ⟨(cadence_gates replayOracle ["stats"] 3 _ (Or.inl rfl)).2.2.2.1, by decide⟩

set_option maxRecDepth 100000 in
/-- Claim C3 does not hold as stated: on a process with `mpiid == 1` the
condition of the initial check is true (`docheck()` true, `insubstep()` false)
and no output line is written. -/
theorem cadence_gates_output_line_counterexample :
    Fired .docheck (main rankOneOracle [] 1).initial ∧
    ¬ ∃ e ∈ (main rankOneOracle [] 1).initial, e.isFprintf = true := by
  decide

theorem isOperator_tag (e : Ev R) : e.tag.isOperator = e.isOperator := by
  cases e with
  | act a => cases a <;> rfl
  | _ => rfl

theorem isPresExec_tag (e : Ev R) : e.tag.isPresExec = e.isPresExec := by
  cases e with
  | act a => cases a <;> rfl
  | _ => rfl

theorem isLoopTest_tag (e : Ev R) : e.tag.isLoopTest = e.isLoopTest := by
  cases e <;> rfl

theorem classify_of_tags (c : Ev Unit → Bool) {l : List (Ev R)} {tags : List (Ev Unit)}
    (h : ∀ e ∈ l, e.tag ∈ tags) (hc : ∀ τ ∈ tags, c τ = false) : ∀ e ∈ l, c e.tag = false :=
  fun e he => hc _ (h e he)

theorem passForm_operators {o : Oracle R} {seg : List (Ev R)} {oc : Outcome}
    (h : PassForm o seg oc) :
    ∃ pre post a b, seg = pre ++ operatorCalls a b ++ post ∧
      (∀ e ∈ pre, e.isOperator = false ∧ e.isLoopTest = false) ∧
      (∀ e ∈ post, e.isOperator = false) := by
  obtain ⟨s, ops, sv, st, tl, hs, ⟨a, b, rfl⟩, hsv, hst, htl, rfl⟩ := h
  refine ⟨s, sv ++ st ++ tl, a, b, by simp [operatorCalls], ?_, ?_⟩
  · intro e he
    constructor
    · rw [← isOperator_tag]
      exact classify_of_tags Ev.isOperator (stepSize_tags hs) (by decide) e he
    · rw [← isLoopTest_tag]
      exact classify_of_tags Ev.isLoopTest (stepSize_tags hs) (by decide) e he
  · intro e he
    rw [← isOperator_tag]
    simp only [List.mem_append] at he
    rcases he with (he | he) | he
    · exact classify_of_tags Ev.isOperator (save_tags hsv) (by decide) e he
    · exact classify_of_tags Ev.isOperator (stats_tags hst) (by decide) e he
    · exact classify_of_tags Ev.isOperator (tail_tags htl) (by decide) e he

theorem countP_eq_zero_of_tags (c : Ev Unit → Bool) (c' : Ev R → Bool)
    (hcc : ∀ e : Ev R, c e.tag = c' e) {l : List (Ev R)} {tags : List (Ev Unit)}
    (h : ∀ e ∈ l, e.tag ∈ tags) (hc : ∀ τ ∈ tags, c τ = false) : l.countP c' = 0 := by
  rw [List.countP_eq_zero]
  intro e he
  rw [← hcc, classify_of_tags c h hc e he]
  simp

theorem passForm_count {o : Oracle R} {seg : List (Ev R)} {oc : Outcome}
    (h : PassForm o seg oc) : seg.countP Ev.isPresExec = 1 := by
  obtain ⟨s, ops, sv, st, tl, hs, ⟨a, b, rfl⟩, hsv, hst, htl, rfl⟩ := h
  simp only [List.countP_append,
    countP_eq_zero_of_tags Ev.isPresExec Ev.isPresExec isPresExec_tag (stepSize_tags hs)
      (by decide),
    countP_eq_zero_of_tags Ev.isPresExec Ev.isPresExec isPresExec_tag (save_tags hsv)
      (by decide),
    countP_eq_zero_of_tags Ev.isPresExec Ev.isPresExec isPresExec_tag (stats_tags hst)
      (by decide),
    countP_eq_zero_of_tags Ev.isPresExec Ev.isPresExec isPresExec_tag (tail_tags htl)
      (by decide)]
  simp [List.countP_cons, Ev.isPresExec]

theorem runSteps_tags (o : Oracle R) (tags : List (Ev Unit)) (is : List (Item R))
    (t : List (Ev R)) (h : ∀ it ∈ is, it.tagsIn tags) :
    ∀ e ∈ (runSteps o is t).1, e.tag ∈ tags := by
  induction is generalizing t with
  | nil => simp [runSteps]
  | cons i is ih =>
    have hi := h i (by simp)
    have his : ∀ it ∈ is, it.tagsIn tags := fun it hit => h it (by simp [hit])
    cases i with
    | perform x =>
      simp only [runSteps]
      intro e he
      rcases List.mem_cons.1 he with rfl | he
      · exact hi
      · exact ih _ his e he
    | check mk =>
      simp only [runSteps]
      split
      · intro e he
        simp only [List.mem_singleton] at he
        subst he
        exact hi o _
      · intro e he
        rcases List.mem_cons.1 he with rfl | he
        · exact hi o _
        · exact ih _ his e he

theorem startupItems_tags (n : String) :
    ∀ it ∈ (startupItems n : List (Item R)), it.tagsIn startupTags := by
  intro it hit
  simp only [startupItems, constructItems, readItems, initItems, loadItems, setvaluesItems,
    List.mem_append, List.mem_cons, List.mem_singleton, List.not_mem_nil, or_false,
    Item.const] at hit
  rcases hit with (((h | h) | h) | h) | h
  all_goals
    repeat' rcases h with h | h
  all_goals
    simp [Item.tagsIn]

theorem isPrognostic_tag (e : Ev R) : e.tag.isPrognostic = e.isPrognostic := by
  cases e with
  | act a => cases a <;> rfl
  | _ => rfl

theorem pass_tags {o : Oracle R} {seg : List (Ev R)} {oc : Outcome} (h : PassForm o seg oc) :
    ∀ e ∈ seg, e.tag ∈ passTags := by
  obtain ⟨s, ops, sv, st, tl, hs, hops, hsv, hst, htl, rfl⟩ := h
  intro e he
  simp only [List.mem_append, passTags] at he ⊢
  rcases he with (((he | he) | he) | he) | he
  · exact Or.inl (Or.inl (Or.inl (Or.inl (stepSize_tags hs e he))))
  · exact Or.inl (Or.inl (Or.inl (Or.inr (operators_tags hops e he))))
  · exact Or.inl (Or.inl (Or.inr (save_tags hsv e he)))
  · exact Or.inl (Or.inr (stats_tags hst e he))
  · exact Or.inr (tail_tags htl e he)

theorem openSummary_tags (o : Oracle R) (n : String) (t : List (Ev R)) :
    ∀ e ∈ (openSummary o n t).1, e.tag ∈ prologueTags := by
  simp only [openSummary]
  split
  · split <;> simp [headerLine]
  · simp

theorem initialNumbers_tags (o : Oracle R) (t : List (Ev R)) :
    ∀ e ∈ (initialNumbers o t).1, e.tag ∈ prologueTags := by
  simp [initialNumbers]

theorem closeSummary_tags (o : Oracle R) (t : List (Ev R)) :
    ∀ e ∈ closeSummary o t, e.tag ∈ [Ev.file .fclose] := by
  simp only [closeSummary]
  split <;> simp

/-- The kinds of events of each part of an execution. -/
theorem main_tags [Zero R] [Sub R] (o : Oracle R) (argv : List String) (fuel : Nat) :
    (∀ e ∈ (main o argv fuel).startup, e.tag ∈ startupTags) ∧
    (∀ e ∈ (main o argv fuel).prologue, e.tag ∈ prologueTags) ∧
    (∀ e ∈ (main o argv fuel).initial, e.tag ∈ checkTags) ∧
    (∀ seg ∈ (main o argv fuel).passes, ∀ e ∈ seg, e.tag ∈ passTags) ∧
    (∀ e ∈ (main o argv fuel).closing, e.tag ∈ [Ev.file .fclose]) := by
  rcases main_form o argv fuel with hf | hf | hf
  · obtain ⟨_, h1, h2, h3, h4, h5, _⟩ := hf
    rw [h1, h2, h3, h4, h5]
    refine ⟨runSteps_tags o _ _ _ (startupItems_tags _), ?_, ?_, ?_, ?_⟩ <;> simp
  · obtain ⟨_, h1, h2, h3, h4, h5, _⟩ := hf
    rw [h2, h3, h4, h5]
    refine ⟨?_, openSummary_tags o _ _, ?_, ?_, ?_⟩
    · rw [h1]; exact runSteps_tags o _ _ _ (startupItems_tags _)
    all_goals simp
  · obtain ⟨_, h1, h2, ⟨ic, g, hic, h3⟩, h4, h5, _⟩ := hf
    refine ⟨?_, ?_, ?_, ?_, ?_⟩
    · rw [h1]; exact runSteps_tags o _ _ _ (startupItems_tags _)
    · rw [h2]
      intro e he
      rcases List.mem_append.1 he with he | he
      · exact openSummary_tags o _ _ e he
      · exact initialNumbers_tags o _ e he
    · rw [h3]
      intro e he
      rcases List.mem_append.1 he with he | he
      · exact initialCheck_tags hic e he
      · simp only [List.mem_singleton] at he
        subst he
        simp
    · intro seg hseg
      obtain ⟨oc, hp⟩ := loopForm_mem h4 seg hseg
      exact pass_tags hp
    · rw [h5]
      split
      · exact closeSummary_tags o _
      · simp

theorem trace_tags [Zero R] [Sub R] (o : Oracle R) (argv : List String) (fuel : Nat) :
    ∀ e ∈ (main o argv fuel).trace, e.tag ∈ allTags := by
  obtain ⟨h1, h2, h3, h4, h5⟩ := main_tags o argv fuel
  intro e he
  simp only [Run.trace, List.mem_append, List.mem_flatten] at he
  simp only [allTags, List.mem_append]
  rcases he with (((he | he) | he) | ⟨seg, hseg, he⟩) | he
  · exact Or.inl (Or.inl (Or.inl (Or.inl (h1 e he))))
  · exact Or.inl (Or.inl (Or.inl (Or.inr (h2 e he))))
  · exact Or.inl (Or.inl (Or.inr (h3 e he)))
  · exact Or.inl (Or.inr (h4 seg hseg e he))
  · exact Or.inr (h5 e he)

theorem any_eq_false_of_tags (c : Ev Unit → Bool) (c' : Ev R → Bool)
    (hcc : ∀ e : Ev R, c' e = true → c e.tag = true) {l : List (Ev R)} {tags : List (Ev Unit)}
    (h : ∀ e ∈ l, e.tag ∈ tags) (hc : ∀ τ ∈ tags, c τ = false) : l.any c' = false := by
  rw [List.any_eq_false]
  intro e he hce
  have := classify_of_tags c h hc e he
  rw [hcc e hce] at this
  cases this

theorem isFieldsLoad_of_loaded (e : Ev R) (h : e.isFieldsLoaded = true) :
    e.tag.isFieldsLoad = true := by
  cases e with
  | step s rc => cases s <;> simp_all [Ev.isFieldsLoaded, Ev.isFieldsLoad]
  | _ => simp [Ev.isFieldsLoaded] at h

theorem passForm_loaded {o : Oracle R} {seg : List (Ev R)} {oc : Outcome}
    (h : PassForm o seg oc) : loaded seg = true ↔ oc = .again := by
  obtain ⟨s, ops, sv, st, tl, hs, hops, hsv, hst, htl, rfl⟩ := h
  have e1 := any_eq_false_of_tags Ev.isFieldsLoad Ev.isFieldsLoaded isFieldsLoad_of_loaded
    (stepSize_tags hs) (by decide)
  have e2 := any_eq_false_of_tags Ev.isFieldsLoad Ev.isFieldsLoaded isFieldsLoad_of_loaded
    (operators_tags hops) (by decide)
  have e3 := any_eq_false_of_tags Ev.isFieldsLoad Ev.isFieldsLoaded isFieldsLoad_of_loaded
    (save_tags hsv) (by decide)
  have e4 := any_eq_false_of_tags Ev.isFieldsLoad Ev.isFieldsLoaded isFieldsLoad_of_loaded
    (stats_tags hst) (by decide)
  rcases htl with ⟨rfl, rfl⟩ | ⟨rfl, rfl⟩ | ⟨i, rc, hrc, rfl, rfl⟩ | ⟨i, j, rc, hrc, rfl, rfl⟩ |
    ⟨i, j, lc, hlc, rfl, rfl⟩
  · simp [loaded, e1, e2, e3, e4, Ev.isFieldsLoaded]
  · simp [loaded, e1, e2, e3, e4, Ev.isFieldsLoaded]
  · simp [loaded, e1, e2, e3, e4, Ev.isFieldsLoaded]
  · simp [loaded, e1, e2, e3, e4, Ev.isFieldsLoaded, hrc]
  · simp [loaded, Ev.isFieldsLoaded, Ev.isTimeloopLoaded]

theorem loopForm_counts {o : Oracle R} {ps : List (List (Ev R))} {ex : Option Int}
    (h : LoopForm o ps ex) :
    ps.flatten.countP Ev.isPresExec = ps.length ∧
    (ex ≠ none → (ps.filter loaded).length + 1 = ps.length) ∧
    (ex = none → (ps.filter loaded).length = ps.length) := by
  induction ps with
  | nil =>
    simp only [LoopForm] at h
    simp [h]
  | cons p ps ih =>
    cases ps with
    | nil =>
      simp only [LoopForm] at h
      rcases h with ⟨hex, hp⟩ | ⟨hex, hp⟩ | ⟨hex, hp⟩
      · have hl := (passForm_loaded hp).2 rfl
        simp [hex, passForm_count hp, hl]
      · have hl : loaded p = false := by
          rw [Bool.eq_false_iff]; intro hh; cases (passForm_loaded hp).1 hh
        simp [hex, passForm_count hp, hl]
      · have hl : loaded p = false := by
          rw [Bool.eq_false_iff]; intro hh; cases (passForm_loaded hp).1 hh
        simp [hex, passForm_count hp, hl]
    | cons q ps =>
      obtain ⟨hp, hrest⟩ := h
      obtain ⟨i1, i2, i3⟩ := ih hrest
      have hl := (passForm_loaded hp).2 rfl
      refine ⟨?_, ?_, ?_⟩
      · rw [List.flatten_cons, List.countP_append, i1, passForm_count hp]
        simp only [List.length_cons]; omega
      · intro hex
        have := i2 hex
        rw [List.filter_cons_of_pos hl]
        simp only [List.length_cons] at this ⊢
        omega
      · intro hex
        have := i3 hex
        rw [List.filter_cons_of_pos hl]
        simp only [List.length_cons] at this ⊢
        omega

/-- Claim C4.  Every pass of the loop of `main` (`stats.cxx`) consists of
events without operator call and without test of `timeloop.loop`, then
`advec.exec`, `diff.exec`, `getsubdt()`, `force.exec` with that answer,
`buoyancy.exec`, `buffer.exec`, `getsubdt()`, `pres.exec` with that answer,
then events without operator call.  In an execution that has returned and has
entered the loop, the number of `pres.exec` calls is 1 plus the number of
passes in which `timeloop.load` and `fields.load` both returned zero. -/
theorem pressure_every_pass [Zero R] [Sub R] (o : Oracle R) (argv : List String) (fuel : Nat) :
    (∀ seg ∈ (main o argv fuel).passes, ∃ pre post a b,
      seg = pre ++ operatorCalls a b ++ post ∧
      (∀ e ∈ pre, e.isOperator = false ∧ e.isLoopTest = false) ∧
      (∀ e ∈ post, e.isOperator = false)) ∧
    ((main o argv fuel).exit ≠ none → (main o argv fuel).passes ≠ [] →
      (main o argv fuel).trace.countP Ev.isPresExec =
        1 + ((main o argv fuel).passes.filter loaded).length) := by
  constructor
  · intro seg hseg
    rcases main_form o argv fuel with hf | hf | hf
    · rw [hf.2.2.2.2.1] at hseg; cases hseg
    · rw [hf.2.2.2.2.1] at hseg; cases hseg
    · obtain ⟨oc, hp⟩ := loopForm_mem hf.2.2.2.2.1 seg hseg
      exact passForm_operators hp
  · intro hex hne
    obtain ⟨t1, t2, t3, _, t5⟩ := main_tags o argv fuel
    rcases main_form o argv fuel with hf | hf | hf
    · exact absurd hf.2.2.2.2.1 hne
    · exact absurd hf.2.2.2.2.1 hne
    · obtain ⟨c1, c2, _⟩ := loopForm_counts hf.2.2.2.2.1
      have := c2 hex
      simp only [Run.trace, List.countP_append,
        countP_eq_zero_of_tags Ev.isPresExec Ev.isPresExec isPresExec_tag t1 (by decide),
        countP_eq_zero_of_tags Ev.isPresExec Ev.isPresExec isPresExec_tag t2 (by decide),
        countP_eq_zero_of_tags Ev.isPresExec Ev.isPresExec isPresExec_tag t3 (by decide),
        countP_eq_zero_of_tags Ev.isPresExec Ev.isPresExec isPresExec_tag t5 (by decide), c1]
      omega

set_option maxRecDepth 100000 in
theorem pressure_every_pass_witness :
    (main cleanOracle [] 5).exit ≠ none ∧ (main cleanOracle [] 5).passes.length = 3 ∧
    (main cleanOracle [] 5).trace.countP Ev.isPresExec =
      1 + ((main cleanOracle [] 5).passes.filter loaded).length :=
  ⟨by decide, by decide, (pressure_every_pass cleanOracle [] 5).2 (by decide) (by decide)⟩

theorem loopForm_split {o : Oracle R} {pre post : List (List (Ev R))} {seg next : List (Ev R)}
    {ex : Option Int} (h : LoopForm o (pre ++ seg :: next :: post) ex) : loaded seg = true := by
  induction pre with
  | nil => exact (passForm_loaded h.1).2 rfl
  | cons p pre ih =>
    cases pre with
    | nil => exact ih h.2
    | cons q pre => exact ih h.2

/-- Claim C7, amended.  `main` (`stats.cxx`) has the diagnostic replay only: no
execution calls `timeloop.exec`, `timeloop.timestep`, `timeloop.save` or
`fields.save` (they stand in the comment block of lines 199-215), and a pass
is followed by another pass only when `timeloop.load` and `fields.load` both
returned zero in it. -/
theorem replay_only [Zero R] [Sub R] (o : Oracle R) (argv : List String) (fuel : Nat) :
    (∀ e ∈ (main o argv fuel).trace, e.isPrognostic = false) ∧
    (∀ pre seg next post, (main o argv fuel).passes = pre ++ seg :: next :: post →
      loaded seg = true) := by
  constructor
  · intro e he
    rw [← isPrognostic_tag]
    exact classify_of_tags Ev.isPrognostic (trace_tags o argv fuel) (by decide) e he
  · intro pre seg next post hps
    rcases main_form o argv fuel with hf | hf | hf
    · rw [hf.2.2.2.2.1] at hps
      simp at hps
    · rw [hf.2.2.2.2.1] at hps
      simp at hps
    · have := hf.2.2.2.2.1
      rw [hps] at this
      exact loopForm_split this

/-- Claim C7 does not hold as stated: there is no behaviour of the
collaborators, no command line and no number of passes for which `main` calls
`timeloop.exec`, `timeloop.timestep`, `timeloop.save` or `fields.save`. -/
theorem prognostic_mode_counterexample :
    ¬ ∃ (o : Oracle Int) (argv : List String) (fuel : Nat),
      ∃ e ∈ (main o argv fuel).trace, e.isPrognostic = true := by
  rintro ⟨o, argv, fuel, e, he, hp⟩
  have := classify_of_tags Ev.isPrognostic (trace_tags o argv fuel) (by decide) e he
  rw [isPrognostic_tag, hp] at this
  cases this

theorem collab_append (a b : List (Ev R)) : collab (a ++ b) = collab a ++ collab b := by
  simp [collab]

theorem nonFile_append (a b : List (Ev R)) : nonFile (a ++ b) = nonFile a ++ nonFile b := by
  simp [nonFile]

theorem collab_nonFile (a : List (Ev R)) : collab (nonFile a) = collab a := by
  simp only [collab, nonFile, List.filter_filter]
  congr 1
  funext e
  cases e <;> rfl

theorem collab_eq_of_nonFile {a b : List (Ev R)} (h : nonFile a = nonFile b) :
    collab a = collab b := by
  rw [← collab_nonFile a, ← collab_nonFile b, h]

theorem collab_ext {t t' a b : List (Ev R)} (h : collab t' = collab t)
    (hab : nonFile a = nonFile b) : collab (t' ++ a) = collab (t ++ b) := by
  rw [collab_append, collab_append, h, collab_eq_of_nonFile hab]

theorem gate_congr (o : Oracle R) (g : List (Ev R) → Int) (p : Pred) {t t' : List (Ev R)}
    (h : collab t' = collab t) : gate (o.withMpiid g) p t' = gate o p t := by
  simp only [gate, Oracle.withMpiid, collab_append, h]

theorem stepSize_congr (o : Oracle R) (g : List (Ev R) → Int) (cfl dn : R)
    {t t' : List (Ev R)} (h : collab t' = collab t) :
    stepSize (o.withMpiid g) cfl dn t' = stepSize o cfl dn t := by
  simp only [stepSize, Oracle.withMpiid, collab_append, h]

theorem operators_congr (o : Oracle R) (g : List (Ev R) → Int) {t t' : List (Ev R)}
    (h : collab t' = collab t) : operators (o.withMpiid g) t' = operators o t := by
  simp only [operators, Oracle.withMpiid, collab_append, h]

theorem savePressure_congr (o : Oracle R) (g : List (Ev R) → Int) {t t' : List (Ev R)}
    (h : collab t' = collab t) : savePressure (o.withMpiid g) t' = savePressure o t := by
  simp only [savePressure, gate_congr o g _ h]
  simp only [Oracle.withMpiid, collab_append, h]

theorem statistics_congr (o : Oracle R) (g : List (Ev R) → Int) {t t' : List (Ev R)}
    (h : collab t' = collab t) : statistics (o.withMpiid g) t' = statistics o t := by
  simp only [statistics, gate_congr o g _ h]
  simp only [Oracle.withMpiid, collab_append, h]

theorem reductions_congr (o : Oracle R) (g : List (Ev R) → Int) {t t' : List (Ev R)}
    (h : collab t' = collab t) : reductions (o.withMpiid g) t' = reductions o t := by
  simp only [reductions, Oracle.withMpiid, collab_append, h]

theorem initialNumbers_congr (o : Oracle R) (g : List (Ev R) → Int) {t t' : List (Ev R)}
    (h : collab t' = collab t) : initialNumbers (o.withMpiid g) t' = initialNumbers o t := by
  simp only [initialNumbers, Oracle.withMpiid, collab_append, h]

theorem catchStart_congr (o : Oracle R) (g : List (Ev R) → Int) {t t' : List (Ev R)}
    (h : collab t' = collab t) : catchStart (o.withMpiid g) t' = catchStart o t := by
  simp only [catchStart, Oracle.withMpiid, collab_append, h]

theorem nonFile_eq_self {l : List (Ev R)} (h : ∀ e ∈ l, e.isFile = false) : nonFile l = l := by
  simp only [nonFile, List.filter_eq_self]
  intro e he
  simp [h e he]

theorem gate_nonFile (o : Oracle R) (p : Pred) (t : List (Ev R)) :
    nonFile (gate o p t).1 = (gate o p t).1 := by
  rcases gate_cases o p t with h | h | h <;> rw [h] <;> rfl

theorem reductions_nonFile (o : Oracle R) (t : List (Ev R)) :
    nonFile (reductions o t).1 = (reductions o t).1 := rfl

theorem initialCheck_congr [Zero R] (o : Oracle R) (g : List (Ev R) → Int) (cfl dn : R)
    {t t' : List (Ev R)} (h : collab t' = collab t) :
    nonFile (initialCheck (o.withMpiid g) cfl dn t') = nonFile (initialCheck o cfl dn t) := by
  simp only [initialCheck, gate_congr o g _ h]
  split
  · have h1 : collab (t' ++ (gate o .docheck t).1) = collab (t ++ (gate o .docheck t).1) := by
      rw [collab_append, collab_append, h]
    simp only [nonFile_append, reductions_congr o g h1]
    congr 1
    split <;> split <;> rfl
  · rfl

theorem loopCheck_congr [Sub R] (o : Oracle R) (g : List (Ev R) → Int) (cfl dn start : R)
    {t t' : List (Ev R)} (h : collab t' = collab t) :
    nonFile (loopCheck (o.withMpiid g) cfl dn start t').1 =
        nonFile (loopCheck o cfl dn start t).1 ∧
      (loopCheck (o.withMpiid g) cfl dn start t').2 = (loopCheck o cfl dn start t).2 := by
  simp only [loopCheck, gate_congr o g _ h]
  split
  · have h1 : collab (t' ++ (gate o .docheck t).1) = collab (t ++ (gate o .docheck t).1) := by
      rw [collab_append, collab_append, h]
    have h2 : collab (t' ++ (gate o .docheck t).1 ++ (reductions o (t ++ (gate o .docheck t).1)).1)
        = collab (t ++ (gate o .docheck t).1 ++ (reductions o (t ++ (gate o .docheck t).1)).1) := by
      rw [collab_append, collab_append _ (reductions o _).1, h1]
    simp only [nonFile_append, reductions_congr o g h1]
    have h3 : (o.withMpiid g).value = o.value := rfl
    simp only [h3, h2, true_and, and_true]
    congr 1
    split <;> split <;> rfl
  · exact ⟨rfl, rfl⟩

theorem passTail_congr [Sub R] (o : Oracle R) (g : List (Ev R) → Int) (cfl dn start : R)
    {t t' : List (Ev R)} (h : collab t' = collab t) :
    (passTail (o.withMpiid g) cfl dn start t').agree (passTail o cfl dn start t) := by
  have hl : (o.withMpiid g).loop = o.loop := rfl
  have hs : (o.withMpiid g).status = o.status := rfl
  have hi : (o.withMpiid g).iteration = o.iteration := rfl
  unfold passTail
  simp only [hl, hs, hi, collab_append, h]
  cases h1 : o.loop (collab t)
  · exact ⟨rfl, rfl, rfl, rfl, rfl⟩
  · simp only [Bool.not_true, Bool.false_eq_true, if_false]
    cases h2 : o.loop (collab t ++ collab [Ev.loop true, Ev.act Action.postprocstep])
    · exact ⟨rfl, rfl, rfl, rfl, rfl⟩
    · simp only [Bool.not_true, Bool.false_eq_true, if_false]
      split
      · exact ⟨rfl, rfl, rfl, rfl, rfl⟩
      · split
        · exact ⟨rfl, rfl, rfl, rfl, rfl⟩
        · refine ⟨?_, rfl, rfl, ?_, rfl⟩
          · simp only [nonFile_append]
            congr 1
            refine (loopCheck_congr o g cfl dn start ?_).1
            simp only [collab_append, h]
          · refine (loopCheck_congr o g cfl dn start ?_).2
            simp only [collab_append, h]

theorem pass_congr [Sub R] (o : Oracle R) (g : List (Ev R) → Int) (cfl dn start : R)
    {t t' : List (Ev R)} (h : collab t' = collab t) :
    (pass (o.withMpiid g) cfl dn start t').agree (pass o cfl dn start t) := by
  have h1 : collab (t' ++ (stepSize o cfl dn t).1) = collab (t ++ (stepSize o cfl dn t).1) := by
    rw [collab_append, collab_append, h]
  have h2 : collab (t' ++ (stepSize o cfl dn t).1 ++ operators o (t ++ (stepSize o cfl dn t).1))
      = collab (t ++ (stepSize o cfl dn t).1 ++ operators o (t ++ (stepSize o cfl dn t).1)) := by
    rw [collab_append, collab_append _ (operators o _), h1]
  have h3 : collab (t' ++ (stepSize o cfl dn t).1 ++ operators o (t ++ (stepSize o cfl dn t).1) ++
        savePressure o (t ++ (stepSize o cfl dn t).1 ++
          operators o (t ++ (stepSize o cfl dn t).1)))
      = collab (t ++ (stepSize o cfl dn t).1 ++ operators o (t ++ (stepSize o cfl dn t).1) ++
        savePressure o (t ++ (stepSize o cfl dn t).1 ++
          operators o (t ++ (stepSize o cfl dn t).1))) := by
    rw [collab_append, collab_append _ (savePressure o _), h2]
  have h4 : collab (t' ++ (stepSize o cfl dn t).1 ++ operators o (t ++ (stepSize o cfl dn t).1) ++
        savePressure o (t ++ (stepSize o cfl dn t).1 ++
          operators o (t ++ (stepSize o cfl dn t).1)) ++
        statistics o (t ++ (stepSize o cfl dn t).1 ++
          operators o (t ++ (stepSize o cfl dn t).1) ++
          savePressure o (t ++ (stepSize o cfl dn t).1 ++
            operators o (t ++ (stepSize o cfl dn t).1))))
      = collab (t ++ (stepSize o cfl dn t).1 ++ operators o (t ++ (stepSize o cfl dn t).1) ++
        savePressure o (t ++ (stepSize o cfl dn t).1 ++
          operators o (t ++ (stepSize o cfl dn t).1)) ++
        statistics o (t ++ (stepSize o cfl dn t).1 ++
          operators o (t ++ (stepSize o cfl dn t).1) ++
          savePressure o (t ++ (stepSize o cfl dn t).1 ++
            operators o (t ++ (stepSize o cfl dn t).1)))) := by
    rw [collab_append, collab_append _ (statistics o _), h3]
  have ht := passTail_congr o g (stepSize o cfl dn t).2.1 (stepSize o cfl dn t).2.2 start h4
  simp only [pass, stepSize_congr o g cfl dn h, operators_congr o g h1,
    savePressure_congr o g h2, statistics_congr o g h3]
  obtain ⟨a1, a2, a3, a4, a5⟩ := ht
  refine ⟨?_, a2, a3, a4, a5⟩
  simp only [nonFile_append, a1]

theorem pass_congr_collab [Sub R] (o : Oracle R) (g : List (Ev R) → Int) (cfl dn start : R)
    {t t' : List (Ev R)} (h : collab t' = collab t) :
    collab (t' ++ (pass (o.withMpiid g) cfl dn start t').events) =
      collab (t ++ (pass o cfl dn start t).events) :=
  collab_ext h (pass_congr o g cfl dn start h).1

theorem timeLoop_congr [Sub R] (o : Oracle R) (g : List (Ev R) → Int) (fuel : Nat)
    (cfl dn start : R) {t t' : List (Ev R)} (h : collab t' = collab t) :
    (timeLoop (o.withMpiid g) fuel cfl dn start t').1.map nonFile =
        (timeLoop o fuel cfl dn start t).1.map nonFile ∧
      (timeLoop (o.withMpiid g) fuel cfl dn start t').2 = (timeLoop o fuel cfl dn start t).2 := by
  induction fuel generalizing cfl dn start t t' with
  | zero => exact ⟨rfl, rfl⟩
  | succ n ih =>
    obtain ⟨a1, a2, a3, a4, a5⟩ := pass_congr o g cfl dn start h
    have hc := pass_congr_collab o g cfl dn start h
    simp only [timeLoop, a5]
    cases hoc : (pass o cfl dn start t).outcome
    · simp only [a2, a3, a4]
      obtain ⟨i1, i2⟩ := ih (pass o cfl dn start t).cfl (pass o cfl dn start t).dn
        (pass o cfl dn start t).start hc
      exact ⟨by simp only [List.map_cons, a1, i1], i2⟩
    · exact ⟨by simp only [List.map_cons, a1, List.map_nil], rfl⟩
    · exact ⟨by simp only [List.map_cons, a1, List.map_nil], rfl⟩

theorem runSteps_congr (o : Oracle R) (g : List (Ev R) → Int) (is : List (Item R))
    (his : ∀ it ∈ is, it.rankFree o g) {t u : List (Ev R)} (h : collab u = collab t) :
    runSteps (o.withMpiid g) is u = runSteps o is t := by
  induction is generalizing t u with
  | nil => rfl
  | cons i is ih =>
    have hi := his i (by simp)
    have his' : ∀ it ∈ is, it.rankFree o g := fun it hit => his it (by simp [hit])
    cases i with
    | perform x =>
      simp only [runSteps]
      rw [ih his' (t := t ++ [Ev.act x]) (u := u ++ [Ev.act x])
        (by rw [collab_append, collab_append, h])]
    | check mk =>
      have hs : (o.withMpiid g).status = o.status := rfl
      have hmk : mk (o.withMpiid g) (collab t) = mk o (collab t) := hi _
      simp only [runSteps, hs, h, hmk]
      split
      · rfl
      · rw [ih his' (t := t ++ [Ev.step (mk o (collab t)) (o.status (collab t) (mk o (collab t)))])
          (u := u ++ [Ev.step (mk o (collab t)) (o.status (collab t) (mk o (collab t)))])
          (by rw [collab_append, collab_append, h])]

theorem startupItems_rankFree (o : Oracle R) (g : List (Ev R) → Int) (n : String) :
    ∀ it ∈ (startupItems n : List (Item R)), it.rankFree o g := by
  intro it hit
  simp only [startupItems, constructItems, readItems, initItems, loadItems, setvaluesItems,
    List.mem_append, List.mem_cons, List.mem_singleton, List.not_mem_nil, or_false,
    Item.const] at hit
  rcases hit with (((h | h) | h) | h) | h
  all_goals
    repeat' rcases h with h | h
  all_goals
    simp [Item.rankFree, Oracle.withMpiid]

theorem openSummary_nonFile (o : Oracle R) (n : String) (t : List (Ev R)) :
    nonFile (openSummary o n t).1 = [] := by
  simp only [openSummary]
  split
  · split <;> rfl
  · rfl

/-- An execution that was not killed passed lines 123-132. -/
theorem openSummary_of_not_killed [Zero R] [Sub R] (o : Oracle R) (argv : List String)
    (fuel : Nat) (hk : (main o argv fuel).killed = false)
    (hs : (runSteps o (startupItems (simnameOf argv)) []).2 = true) :
    (openSummary o (simnameOf argv) (runSteps o (startupItems (simnameOf argv)) []).1).2 =
      true := by
  cases h : (openSummary o (simnameOf argv) (runSteps o (startupItems (simnameOf argv)) []).1).2
  · simp [main, hs, h] at hk
  · rfl

theorem closeSummary_nonFile (o : Oracle R) (t : List (Ev R)) :
    nonFile (closeSummary o t) = [] := by
  simp only [closeSummary]
  split <;> rfl

theorem nonFile_flatten (ps : List (List (Ev R))) :
    nonFile ps.flatten = (ps.map nonFile).flatten := by
  induction ps with
  | nil => rfl
  | cons p ps ih => simp only [List.flatten_cons, nonFile_append, ih, List.map_cons]

/-- The parts of two executions that differ in `mpiid` only agree up to the
operations on the summary file, when neither was killed at line 129. -/
theorem main_congr [Zero R] [Sub R] (o : Oracle R) (g : List (Ev R) → Int)
    (argv : List String) (fuel : Nat)
    (hk1 : (main (o.withMpiid g) argv fuel).killed = false)
    (hk2 : (main o argv fuel).killed = false) :
    (main (o.withMpiid g) argv fuel).startup = (main o argv fuel).startup ∧
    nonFile (main (o.withMpiid g) argv fuel).prologue = nonFile (main o argv fuel).prologue ∧
    nonFile (main (o.withMpiid g) argv fuel).initial = nonFile (main o argv fuel).initial ∧
    (main (o.withMpiid g) argv fuel).passes.map nonFile =
      (main o argv fuel).passes.map nonFile ∧
    nonFile (main (o.withMpiid g) argv fuel).closing = nonFile (main o argv fuel).closing ∧
    (main (o.withMpiid g) argv fuel).exit = (main o argv fuel).exit := by
  have hs := runSteps_congr o g (startupItems (simnameOf argv))
    (startupItems_rankFree o g _) (t := []) (u := []) rfl
  by_cases hok : (runSteps o (startupItems (simnameOf argv)) []).2 = true
  case neg =>
    simp only [Bool.not_eq_true] at hok
    simp only [main, hs, hok, Bool.not_false, if_true, and_self]
  case pos =>
    have k2 := openSummary_of_not_killed o argv fuel hk2 hok
    have k1 := openSummary_of_not_killed (o.withMpiid g) argv fuel hk1 (by rw [hs]; exact hok)
    rw [hs] at k1
    simp only [main, hs, hok, k1, k2, Bool.not_true, Bool.false_eq_true, if_false, true_and]
    generalize (runSteps o (startupItems (simnameOf argv)) []).1 = t0
    have c1 : collab (t0 ++ (openSummary (o.withMpiid g) (simnameOf argv) t0).1) =
        collab (t0 ++ (openSummary o (simnameOf argv) t0).1) :=
      collab_ext rfl (by rw [openSummary_nonFile, openSummary_nonFile])
    have e1 := initialNumbers_congr o g c1
    rw [e1]
    generalize initialNumbers o (t0 ++ (openSummary o (simnameOf argv) t0).1) = nn
    have c2 : collab (t0 ++ (openSummary (o.withMpiid g) (simnameOf argv) t0).1 ++ nn.1) =
        collab (t0 ++ (openSummary o (simnameOf argv) t0).1 ++ nn.1) := collab_ext c1 rfl
    have e2 := initialCheck_congr o g nn.2.1 nn.2.2 c2
    have c3 := collab_ext c2 e2
    have e3 := catchStart_congr o g c3
    rw [e3]
    have c4 : collab (t0 ++ (openSummary (o.withMpiid g) (simnameOf argv) t0).1 ++ nn.1 ++
          initialCheck (o.withMpiid g) nn.2.1 nn.2.2
            (t0 ++ (openSummary (o.withMpiid g) (simnameOf argv) t0).1 ++ nn.1) ++
          (catchStart o (t0 ++ (openSummary o (simnameOf argv) t0).1 ++ nn.1 ++
            initialCheck o nn.2.1 nn.2.2 (t0 ++ (openSummary o (simnameOf argv) t0).1 ++ nn.1))).1) =
        collab (t0 ++ (openSummary o (simnameOf argv) t0).1 ++ nn.1 ++
          initialCheck o nn.2.1 nn.2.2 (t0 ++ (openSummary o (simnameOf argv) t0).1 ++ nn.1) ++
          (catchStart o (t0 ++ (openSummary o (simnameOf argv) t0).1 ++ nn.1 ++
            initialCheck o nn.2.1 nn.2.2 (t0 ++ (openSummary o (simnameOf argv) t0).1 ++ nn.1))).1) :=
      collab_ext c3 rfl
    obtain ⟨l1, l2⟩ := timeLoop_congr o g fuel nn.2.1 nn.2.2
      (catchStart o (t0 ++ (openSummary o (simnameOf argv) t0).1 ++ nn.1 ++
        initialCheck o nn.2.1 nn.2.2 (t0 ++ (openSummary o (simnameOf argv) t0).1 ++ nn.1))).2 c4
    refine ⟨?_, ?_, l1, ?_, l2⟩
    · simp only [nonFile_append, openSummary_nonFile]
    · simp only [nonFile_append, e2]
    · rw [l2]
      split
      · rw [closeSummary_nonFile, closeSummary_nonFile]
      · rfl

/-- Two executions of `main` (`stats.cxx`) with the same collaborators that
differ only in `mpi.mpiid`, neither of them killed at line 129 (on the process
with `mpiid == 0` the summary file was opened), have the same events apart
from the operations on the summary file, in particular the same sequence of
collaborator calls, and the same exit status.  Whatever `mpiid` is, a check
that fires (initially or in a pass) calls `pres.check`, `checkmom`, `checktke`
and `checkmass`. -/
theorem rank_independent_of_opened [Zero R] [Sub R] (o : Oracle R) (g : List (Ev R) → Int)
    (argv : List String) (fuel : Nat)
    (hk1 : (main (o.withMpiid g) argv fuel).killed = false)
    (hk2 : (main o argv fuel).killed = false) :
    nonFile (main (o.withMpiid g) argv fuel).trace = nonFile (main o argv fuel).trace ∧
    collab (main (o.withMpiid g) argv fuel).trace = collab (main o argv fuel).trace ∧
    (main (o.withMpiid g) argv fuel).exit = (main o argv fuel).exit ∧
    (∀ seg, seg = (main o argv fuel).initial ∨ seg ∈ (main o argv fuel).passes →
      Fired .docheck seg →
        (∃ v, Ev.query .pres_check v ∈ seg) ∧ (∃ v, Ev.query .checkmom v ∈ seg) ∧
        (∃ v, Ev.query .checktke v ∈ seg) ∧ (∃ v, Ev.query .checkmass v ∈ seg)) := by
  obtain ⟨h1, h2, h3, h4, h5, h6⟩ := main_congr o g argv fuel hk1 hk2
  have hn : nonFile (main (o.withMpiid g) argv fuel).trace = nonFile (main o argv fuel).trace := by
    simp only [Run.trace, nonFile_append, nonFile_flatten, h1, h2, h3, h4, h5]
  refine ⟨hn, collab_eq_of_nonFile hn, h6, ?_⟩
  intro seg hseg hf
  obtain ⟨⟨_, _, _, c1, c2, c3, c4, _⟩, _⟩ := segment_gates o argv fuel seg hseg
  exact ⟨c1.2 hf, c2.2 hf, c3.2 hf, c4.2 hf⟩

set_option maxRecDepth 100000 in
theorem rank_independent_of_opened_clean :
    collab (main (cleanOracle.withMpiid fun _ => 1) [] 5).trace =
      collab (main cleanOracle [] 5).trace :=
  (rank_independent_of_opened cleanOracle (fun _ => 1) [] 5 (by decide) (by decide)).2.1

theorem isStep_tag (e : Ev R) : e.tag.isStep = e.isStep := by
  cases e <;> rfl

theorem collab_loop_pp0 (t : List (Ev R)) :
    collab (t ++ [Ev.loop true, Ev.act .postprocstep]) =
      collab (t ++ [Ev.act .postprocstep]) := by
  simp [collab, Ev.isCall]

theorem collab_loop_pp (t : List (Ev R)) :
    collab (t ++ [Ev.loop true, Ev.act .postprocstep] ++ [Ev.loop true]) =
      collab (t ++ [Ev.act .postprocstep]) := by
  simp [collab, Ev.isCall]

theorem collab_loop_pp_step (t : List (Ev R)) (e : Ev R) :
    collab (t ++ [Ev.loop true, Ev.act .postprocstep] ++ [Ev.loop true] ++ [e]) =
      collab (t ++ [Ev.act .postprocstep, e]) := by
  simp [collab, Ev.isCall]

theorem passTail_exact [Sub R] (o : Oracle R) (cfl dn start : R) (t : List (Ev R)) :
    TailExact o t (passTail o cfl dn start t).events (passTail o cfl dn start t).outcome := by
  unfold passTail TailExact
  cases h1 : o.loop (collab t)
  · left; exact ⟨rfl, rfl, rfl⟩
  · simp only [Bool.not_true, Bool.false_eq_true, if_false]
    cases h2 : o.loop (collab (t ++ [Ev.loop true, Ev.act Action.postprocstep]))
    · right; left
      rw [collab_loop_pp0] at h2
      exact ⟨trivial, h2, rfl, rfl⟩
    · simp only [Bool.not_true, Bool.false_eq_true, if_false, collab_loop_pp,
        collab_loop_pp_step]
      rw [collab_loop_pp0] at h2
      split
      · rename_i h3
        right; right; left
        exact ⟨trivial, h2, h3, rfl, rfl⟩
      · rename_i h3
        simp only [ne_eq, Decidable.not_not] at h3
        split
        · rename_i h4
          right; right; right; left
          exact ⟨trivial, h2, h3, h4, rfl, rfl⟩
        · rename_i h4
          simp only [ne_eq, Decidable.not_not] at h4
          right; right; right; right
          exact ⟨trivial, h2, h3, h4, rfl, _, loopCheck_form o _ _ _ _, rfl⟩

theorem pass_exact [Sub R] (o : Oracle R) (cfl dn start : R) (t : List (Ev R)) :
    ∃ body tl, BodyForm body ∧ (pass o cfl dn start t).events = body ++ tl ∧
      TailExact o (t ++ body) tl (pass o cfl dn start t).outcome := by
  refine ⟨_, _, ⟨_, _, _, _, stepSize_form o cfl dn t, operators_form o _,
    savePressure_form o _, statistics_form o _, rfl⟩, rfl, ?_⟩
  have := passTail_exact o (stepSize o cfl dn t).2.1 (stepSize o cfl dn t).2.2 start
    (t ++ (stepSize o cfl dn t).1 ++ operators o (t ++ (stepSize o cfl dn t).1) ++
      savePressure o (t ++ (stepSize o cfl dn t).1 ++ operators o (t ++ (stepSize o cfl dn t).1)) ++
      statistics o (t ++ (stepSize o cfl dn t).1 ++ operators o (t ++ (stepSize o cfl dn t).1) ++
        savePressure o (t ++ (stepSize o cfl dn t).1 ++
          operators o (t ++ (stepSize o cfl dn t).1))))
  simpa only [pass, List.append_assoc] using this

theorem timeLoop_nth [Sub R] (o : Oracle R) (fuel : Nat) (cfl dn start : R) (t : List (Ev R))
    (pre post : List (List (Ev R))) (seg : List (Ev R))
    (h : (timeLoop o fuel cfl dn start t).1 = pre ++ seg :: post) :
    ∃ cfl' dn' start', seg = (pass o cfl' dn' start' (t ++ pre.flatten)).events ∧
      Follows (pass o cfl' dn' start' (t ++ pre.flatten)).outcome post
        (timeLoop o fuel cfl dn start t).2 := by
  induction fuel generalizing cfl dn start t pre with
  | zero => simp [timeLoop] at h
  | succ n ih =>
    simp only [timeLoop] at h ⊢
    cases hoc : (pass o cfl dn start t).outcome
    · simp only [hoc] at h ⊢
      cases pre with
      | nil =>
        simp only [List.nil_append, List.cons.injEq] at h
        refine ⟨cfl, dn, start, by simpa using h.1.symm, ?_⟩
        simp only [List.flatten_nil, List.append_nil, hoc]
        left
        refine ⟨rfl, fun hp => ?_⟩
        rw [hp] at h
        have h2 := h.2
        cases n with
        | zero => rfl
        | succ m =>
          exfalso
          simp only [timeLoop] at h2
          split at h2 <;> simp at h2
      | cons p pre =>
        simp only [List.cons_append, List.cons.injEq] at h
        obtain ⟨c, d, s, h1, h2⟩ := ih _ _ _ _ pre h.2
        refine ⟨c, d, s, ?_, ?_⟩
        · rw [h1, ← h.1]; simp
        · rw [← h.1]; simpa using h2
    · simp only [hoc] at h ⊢
      cases pre with
      | nil =>
        simp only [List.nil_append, List.cons.injEq] at h
        refine ⟨cfl, dn, start, by simpa using h.1.symm, ?_⟩
        simp only [List.flatten_nil, List.append_nil, hoc]
        right; left
        exact ⟨rfl, h.2.symm, rfl⟩
      | cons p pre =>
        simp only [List.cons_append, List.cons.injEq] at h
        have := h.2
        cases pre <;> simp at this
    · simp only [hoc] at h ⊢
      cases pre with
      | nil =>
        simp only [List.nil_append, List.cons.injEq] at h
        refine ⟨cfl, dn, start, by simpa using h.1.symm, ?_⟩
        simp only [List.flatten_nil, List.append_nil, hoc]
        right; right
        exact ⟨rfl, h.2.symm, rfl⟩
      | cons p pre =>
        simp only [List.cons_append, List.cons.injEq] at h
        have := h.2
        cases pre <;> simp at this

theorem main_nth [Zero R] [Sub R] (o : Oracle R) (argv : List String) (fuel : Nat)
    (pre post : List (List (Ev R))) (seg : List (Ev R))
    (h : (main o argv fuel).passes = pre ++ seg :: post) :
    ∃ cfl dn start,
      seg = (pass o cfl dn start ((main o argv fuel).startup ++ (main o argv fuel).prologue ++
        (main o argv fuel).initial ++ pre.flatten)).events ∧
      Follows (pass o cfl dn start ((main o argv fuel).startup ++ (main o argv fuel).prologue ++
        (main o argv fuel).initial ++ pre.flatten)).outcome post (main o argv fuel).exit := by
  by_cases hok : (runSteps o (startupItems (simnameOf argv)) []).2 = true
  case neg =>
    simp only [Bool.not_eq_true] at hok
    simp only [main, hok, Bool.not_false, if_true] at h
    simp at h
  case pos =>
    cases hk : (openSummary o (simnameOf argv)
        (runSteps o (startupItems (simnameOf argv)) []).1).2
    · simp only [main, hok, hk, Bool.not_true, Bool.not_false, Bool.false_eq_true, if_false,
        if_true] at h
      simp at h
    · simp only [main, hok, hk, Bool.not_true, Bool.false_eq_true, if_false] at h ⊢
      have := timeLoop_nth o fuel _ _ _ _ pre post seg h
      simpa only [List.append_assoc] using this

/-- The events of lines 165-193 contain the operators and no loop test, no
tested call, no `postprocstep` and no `boundary.exec`. -/
theorem bodyForm_spec {body : List (Ev R)} (h : BodyForm body) :
    (∃ x y a b, body = x ++ operatorCalls a b ++ y) ∧
    (∀ e ∈ body, e.isLoopTest = false ∧ e.isStep = false ∧ e ≠ Ev.act .postprocstep ∧
      e ≠ Ev.act .boundary_exec) := by
  obtain ⟨s, ops, sv, st, hs, ⟨a, b, rfl⟩, hsv, hst, rfl⟩ := h
  refine ⟨⟨s, sv ++ st, a, b, by simp [operatorCalls]⟩, ?_⟩
  have hall : ∀ e ∈ s ++ [Ev.act .advec_exec, Ev.act .diff_exec, Ev.query .getsubdt a,
      Ev.act (.force_exec a), Ev.act .buoyancy_exec, Ev.act .buffer_exec,
      Ev.query .getsubdt b, Ev.act (.pres_exec b)] ++ sv ++ st,
      e.tag ∈ stepSizeTags ++ operatorsTags ++ saveTags ++ statsTags := by
    intro e he
    simp only [List.mem_append] at he ⊢
    rcases he with ((he | he) | he) | he
    · exact Or.inl (Or.inl (Or.inl (stepSize_tags hs e he)))
    · exact Or.inl (Or.inl (Or.inr (operators_tags ⟨a, b, rfl⟩ e he)))
    · exact Or.inl (Or.inr (save_tags hsv e he))
    · exact Or.inr (stats_tags hst e he)
  intro e he
  have ht := hall e he
  refine ⟨?_, ?_, ?_, ?_⟩
  · rw [← isLoopTest_tag]
    exact classify_of_tags Ev.isLoopTest hall (by decide) e he
  · rw [← isStep_tag]
    exact classify_of_tags Ev.isStep hall (by decide) e he
  · rintro rfl
    revert ht
    simp
  · rintro rfl
    revert ht
    simp

theorem loopCheck_spec {o : Oracle R} {lc : List (Ev R)} (h : LoopCheckForm o lc) :
    ∀ e ∈ lc, e.isOperator = false ∧ e.isLoopTest = false ∧ e.isStep = false ∧
      e ≠ Ev.act .postprocstep := by
  have hall := loopCheck_tags h
  intro e he
  have ht := hall e he
  refine ⟨?_, ?_, ?_, ?_⟩
  · rw [← isOperator_tag]
    exact classify_of_tags Ev.isOperator hall (by decide) e he
  · rw [← isLoopTest_tag]
    exact classify_of_tags Ev.isLoopTest hall (by decide) e he
  · rw [← isStep_tag]
    exact classify_of_tags Ev.isStep hall (by decide) e he
  · rintro rfl
    revert ht
    simp

theorem iteration_frame (o : Oracle R)
    (hframe : ∀ h k c, o.iteration (h ++ [Ev.step (.timeloop_load k) c]) = o.iteration h)
    (t : List (Ev R)) (k : Int) (c : Int) :
    o.iteration (collab (t ++ [Ev.act .postprocstep, Ev.step (.timeloop_load k) c])) =
      o.iteration (collab (t ++ [Ev.act .postprocstep])) := by
  have : collab (t ++ [Ev.act .postprocstep, Ev.step (.timeloop_load k) c]) =
      collab (t ++ [Ev.act .postprocstep]) ++ [Ev.step (.timeloop_load k) c] := by
    simp [collab, Ev.isCall]
  rw [this, hframe]

theorem passBody_append (body tl : List (Ev R)) (b : Bool)
    (hb : ∀ e ∈ body, e.isLoopTest = false) :
    passBody (body ++ Ev.loop b :: tl) = body ∧
      passRest (body ++ Ev.loop b :: tl) = Ev.loop b :: tl := by
  induction body with
  | nil => simp [passBody, passRest, Ev.isLoopTest]
  | cons x xs ih =>
    have hx : x.isLoopTest = false := hb x (by simp)
    have := ih fun e he => hb e (by simp [he])
    simp only [passBody, passRest] at this ⊢
    simp [List.takeWhile, List.dropWhile, hx, this.1, this.2]

/-- Claim C8.  Every pass of the loop of `main` (`stats.cxx`) is a body, its
events before the first test of `timeloop.loop`, followed by a rest that the
values of `timeloop.loop` and the statuses of the loads determine.  The body
holds the operators and the pressure step and no tested call, no
`postprocstep` and no `boundary.exec`.  When `timeloop.loop` is false after the
body, the rest is that test alone, the pass is the last and `main` returns 0.
When it is true, `postprocstep` is called, once, and `timeloop.loop` is read
again: when it is false then, the rest ends there without a load, the pass is
the last and `main` returns 0; when it is true, `timeloop.load(i)` is called,
with `i` the iteration held after `postprocstep`; when that fails it ends the
execution and `main` returns 1, otherwise `fields.load(j)` is called, with `j`
the iteration held after `timeloop.load` (so `j = i` when `timeloop.load` leaves
the iteration unchanged); when that fails it ends the execution and `main`
returns 1, otherwise `boundary.exec` and the summary check, which holds no
operator call, end the pass, and the next pass follows unless the passes
allowed are used up. -/
theorem replay_stepping [Zero R] [Sub R] (o : Oracle R) (argv : List String) (fuel : Nat)
    (pre post : List (List (Ev R))) (seg : List (Ev R))
    (hps : (main o argv fuel).passes = pre ++ seg :: post) :
    seg = passBody seg ++ passRest seg ∧
    (∃ x y a b, passBody seg = x ++ operatorCalls a b ++ y) ∧
    (∀ e ∈ passBody seg, e.isLoopTest = false ∧ e.isStep = false ∧
      e ≠ Ev.act .postprocstep ∧ e ≠ Ev.act .boundary_exec) ∧
    (let t := (main o argv fuel).startup ++ (main o argv fuel).prologue ++
        (main o argv fuel).initial ++ pre.flatten ++ passBody seg
     let l1 := o.loop (collab t)
     let l2 := o.loop (collab (t ++ [Ev.act .postprocstep]))
     let i := o.iteration (collab (t ++ [Ev.act .postprocstep]))
     let rc := o.status (collab (t ++ [Ev.act .postprocstep])) (.timeloop_load i)
     let t1 := t ++ [Ev.act .postprocstep, Ev.step (.timeloop_load i) rc]
     let j := o.iteration (collab t1)
     let rc2 := o.status (collab t1) (.fields_load j)
     ((∀ h k c, o.iteration (h ++ [Ev.step (.timeloop_load k) c]) = o.iteration h) → j = i) ∧
     (l1 = false →
       passRest seg = [Ev.loop false] ∧ post = [] ∧ (main o argv fuel).exit = some 0) ∧
     (l1 = true → l2 = false →
       passRest seg = [Ev.loop true, Ev.act .postprocstep, Ev.loop false] ∧ post = [] ∧
         (main o argv fuel).exit = some 0) ∧
     (l1 = true → l2 = true → rc ≠ 0 →
       passRest seg = [Ev.loop true, Ev.act .postprocstep, Ev.loop true,
         Ev.step (.timeloop_load i) rc] ∧ post = [] ∧ (main o argv fuel).exit = some 1) ∧
     (l1 = true → l2 = true → rc = 0 → rc2 ≠ 0 →
       passRest seg = [Ev.loop true, Ev.act .postprocstep, Ev.loop true,
         Ev.step (.timeloop_load i) rc, Ev.step (.fields_load j) rc2] ∧ post = [] ∧
         (main o argv fuel).exit = some 1) ∧
     (l1 = true → l2 = true → rc = 0 → rc2 = 0 →
       (∃ lc, passRest seg = [Ev.loop true, Ev.act .postprocstep, Ev.loop true,
           Ev.step (.timeloop_load i) rc, Ev.step (.fields_load j) rc2,
           Ev.act .boundary_exec] ++ lc ∧
         ∀ e ∈ lc, e.isOperator = false ∧ e.isLoopTest = false ∧ e.isStep = false ∧
           e ≠ Ev.act .postprocstep) ∧
       (post = [] → (main o argv fuel).exit = none))) := by
  obtain ⟨cfl, dn, start, hseg, hfol⟩ := main_nth o argv fuel pre post seg hps
  obtain ⟨body, tl, hbody, hev, htl⟩ := pass_exact o cfl dn start
    ((main o argv fuel).startup ++ (main o argv fuel).prologue ++
      (main o argv fuel).initial ++ pre.flatten)
  obtain ⟨hb1, hb2⟩ := bodyForm_spec hbody
  have hsplit : passBody seg = body ∧ passRest seg = tl := by
    rw [hseg, hev]
    simp only [TailExact] at htl
    rcases htl with ⟨_, h, _⟩ | ⟨_, _, h, _⟩ | ⟨_, _, _, _, h⟩ | ⟨_, _, _, _, _, h⟩ |
      ⟨_, _, _, _, _, _, _, h⟩
    all_goals
      rw [h]
      exact passBody_append body _ _ fun e he => (hb2 e he).1
  obtain ⟨hB, hT⟩ := hsplit
  rw [hB, hT]
  refine ⟨hseg.trans hev, hb1, hb2, ?_⟩
  simp only [TailExact] at htl
  dsimp only
  refine ⟨fun hframe => iteration_frame o hframe _ _ _, ?_⟩
  rcases htl with ⟨l1, h1, h2⟩ | ⟨l1, l2, h1, h2⟩ | ⟨l1, l2, h0, h2, h1⟩ |
    ⟨l1, l2, h0, h0', h2, h1⟩ | ⟨l1, l2, h0, h0', h2, lc, hlc, h1⟩
  · rw [h2] at hfol
    have hd : post = [] ∧ (main o argv fuel).exit = some 0 := by
      rcases hfol with ⟨hh, _⟩ | ⟨_, hp, he⟩ | ⟨hh, _⟩
      · cases hh
      · exact ⟨hp, he⟩
      · cases hh
    refine ⟨fun _ => ⟨h1, hd⟩, ?_, ?_, ?_, ?_⟩ <;> intro h <;> rw [l1] at h <;> cases h
  · rw [h2] at hfol
    have hd : post = [] ∧ (main o argv fuel).exit = some 0 := by
      rcases hfol with ⟨hh, _⟩ | ⟨_, hp, he⟩ | ⟨hh, _⟩
      · cases hh
      · exact ⟨hp, he⟩
      · cases hh
    refine ⟨?_, fun _ _ => ⟨h1, hd⟩, ?_, ?_, ?_⟩
    · intro h; rw [l1] at h; cases h
    all_goals
      intro _ h; rw [l2] at h; cases h
  · rw [h2] at hfol
    have hd : post = [] ∧ (main o argv fuel).exit = some 1 := by
      rcases hfol with ⟨hh, _⟩ | ⟨hh, _⟩ | ⟨_, hp, he⟩
      · cases hh
      · cases hh
      · exact ⟨hp, he⟩
    refine ⟨?_, ?_, fun _ _ _ => ⟨h1, hd⟩, ?_, ?_⟩
    · intro h; rw [l1] at h; cases h
    · intro _ h; rw [l2] at h; cases h
    · intro _ _ h; exact absurd h h0
    · intro _ _ h; exact absurd h h0
  · rw [h2] at hfol
    have hd : post = [] ∧ (main o argv fuel).exit = some 1 := by
      rcases hfol with ⟨hh, _⟩ | ⟨hh, _⟩ | ⟨_, hp, he⟩
      · cases hh
      · cases hh
      · exact ⟨hp, he⟩
    refine ⟨?_, ?_, ?_, fun _ _ _ _ => ⟨h1, hd⟩, ?_⟩
    · intro h; rw [l1] at h; cases h
    · intro _ h; rw [l2] at h; cases h
    · intro _ _ h; exact absurd h0 h
    · intro _ _ _ h; exact absurd h h0'
  · rw [h2] at hfol
    have hd : post = [] → (main o argv fuel).exit = none := by
      rcases hfol with ⟨_, hp⟩ | ⟨hh, _⟩ | ⟨hh, _⟩
      · exact hp
      · cases hh
      · cases hh
    refine ⟨?_, ?_, ?_, ?_, fun _ _ _ _ => ⟨⟨lc, h1, loopCheck_spec hlc⟩, hd⟩⟩
    · intro h; rw [l1] at h; cases h
    · intro _ h; rw [l2] at h; cases h
    · intro _ _ h; exact absurd h0 h
    · intro _ _ _ h; exact absurd h0' h

set_option maxRecDepth 100000 in
theorem replay_stepping_witness :
    ((main cleanOracle [] 5).passes =
        [] ++ (main cleanOracle [] 5).passes.headD [] :: (main cleanOracle [] 5).passes.tail ∧
      ∃ lc, passRest ((main cleanOracle [] 5).passes.headD []) =
        [Ev.loop true, Ev.act .postprocstep, Ev.loop true, Ev.step (.timeloop_load 90) 0,
          Ev.step (.fields_load 90) 0, Ev.act .boundary_exec] ++ lc ∧
        ∀ e ∈ lc, e.isOperator = false ∧ e.isLoopTest = false ∧ e.isStep = false ∧
          e ≠ Ev.act .postprocstep) ∧
    ((main cleanOracle [] 5).passes =
        (main cleanOracle [] 5).passes.take 2 ++ (main cleanOracle [] 5).passes.getD 2 [] :: [] ∧
      passRest ((main cleanOracle [] 5).passes.getD 2 []) =
        [Ev.loop true, Ev.act .postprocstep, Ev.loop false] ∧
      (main cleanOracle [] 5).exit = some 0) :=
  ⟨⟨by decide,
    ((replay_stepping cleanOracle [] 5 [] (main cleanOracle [] 5).passes.tail
      ((main cleanOracle [] 5).passes.headD []) (by decide)).2.2.2.2.2.2.2.2
        (by decide) (by decide) (by decide) (by decide)).1⟩,
   ⟨by decide,
    ((replay_stepping cleanOracle [] 5 ((main cleanOracle [] 5).passes.take 2) []
      ((main cleanOracle [] 5).passes.getD 2 []) (by decide)).2.2.2.2.2.1
        (by decide) (by decide)).1,
    ((replay_stepping cleanOracle [] 5 ((main cleanOracle [] 5).passes.take 2) []
      ((main cleanOracle [] 5).passes.getD 2 []) (by decide)).2.2.2.2.2.1
        (by decide) (by decide)).2.2⟩⟩

theorem isStatsCreate_tag (e : Ev R) : e.tag.isStatsCreate = e.isStatsCreate := by
  cases e with
  | step s rc => cases s <;> rfl
  | _ => rfl

theorem isStatsExec_tag (e : Ev R) : e.tag.isStatsExec = e.isStatsExec := by
  cases e with
  | act a => cases a <;> rfl
  | _ => rfl

theorem beforeLoadItems_tags (n : String) :
    ∀ it ∈ (beforeLoadItems n : List (Item R)), it.tagsIn beforeLoadTags := by
  intro it hit
  simp only [beforeLoadItems, constructItems, readItems, initItems,
    List.mem_append, List.mem_cons, List.mem_singleton, List.not_mem_nil, or_false,
    Item.const] at hit
  rcases hit with (h | h) | h
  all_goals
    repeat' rcases h with h | h
  all_goals
    simp [Item.tagsIn]

theorem setvaluesItems_tags :
    ∀ it ∈ (setvaluesItems : List (Item R)), it.tagsIn setvaluesTags := by
  intro it hit
  simp only [setvaluesItems, List.mem_cons, List.mem_singleton, List.not_mem_nil, or_false,
    Item.const] at hit
  rcases hit with h | h | h <;> simp [h, Item.tagsIn]

theorem runSteps_check (o : Oracle R) (mk : Oracle R → List (Ev R) → Step)
    (is : List (Item R)) (t : List (Ev R)) :
    (o.status (collab t) (mk o (collab t)) ≠ 0 ∧
      runSteps o (.check mk :: is) t =
        ([Ev.step (mk o (collab t)) (o.status (collab t) (mk o (collab t)))], false)) ∨
    (o.status (collab t) (mk o (collab t)) = 0 ∧
      runSteps o (.check mk :: is) t =
        (Ev.step (mk o (collab t)) 0 :: (runSteps o is (t ++ [Ev.step (mk o (collab t)) 0])).1,
          (runSteps o is (t ++ [Ev.step (mk o (collab t)) 0])).2)) := by
  by_cases h : o.status (collab t) (mk o (collab t)) = 0
  · right
    refine ⟨h, ?_⟩
    simp only [runSteps, h, ne_eq, not_true_eq_false, if_false]
  · left
    refine ⟨h, ?_⟩
    simp only [runSteps, ne_eq, h, not_false_eq_true, if_true]

theorem loadItems_form (o : Oracle R) (n : String) (a : List (Ev R)) :
    ((runSteps o (loadItems n) a).2 = false ∧
      (∀ e ∈ (runSteps o (loadItems n) a).1, e.isStatsCreate = false)) ∨
    ∃ rc, ((runSteps o (loadItems n) a).2 = true ↔ rc = 0) ∧
      (runSteps o (loadItems n) a).1 = loadEvents o n a rc := by
  unfold loadItems Item.const
  rcases runSteps_check o (fun _ _ => Step.grid_load) _ a with ⟨_, e⟩ | ⟨_, e⟩ <;> rw [e]
  · left; simp [Ev.isStatsCreate]
  rcases runSteps_check o (fun o h => Step.timeloop_load (o.iteration h)) _
    (a ++ [Ev.step Step.grid_load 0]) with ⟨_, e⟩ | ⟨_, e⟩ <;> rw [e]
  · left; simp [Ev.isStatsCreate]
  rcases runSteps_check o (fun o h => Step.fields_load (o.iteration h)) _
    (a ++ [Ev.step Step.grid_load 0] ++ [Ev.step (Step.timeloop_load
      (o.iteration (collab (a ++ [Ev.step Step.grid_load 0])))) 0]) with ⟨_, e⟩ | ⟨_, e⟩ <;> rw [e]
  · left; simp [Ev.isStatsCreate]
  rcases runSteps_check o (fun _ _ => Step.buffer_load) _
    (a ++ [Ev.step Step.grid_load 0] ++ [Ev.step (Step.timeloop_load
      (o.iteration (collab (a ++ [Ev.step Step.grid_load 0])))) 0] ++
      [Ev.step (Step.fields_load (o.iteration (collab (a ++ [Ev.step Step.grid_load 0] ++
        [Ev.step (Step.timeloop_load
          (o.iteration (collab (a ++ [Ev.step Step.grid_load 0])))) 0])))) 0])
    with ⟨_, e⟩ | ⟨_, e⟩ <;> rw [e]
  · left; simp [Ev.isStatsCreate]
  right
  rcases runSteps_check o (fun o h => Step.stats_create n (o.iteration h)) []
    (a ++ [Ev.step Step.grid_load 0] ++ [Ev.step (Step.timeloop_load
      (o.iteration (collab (a ++ [Ev.step Step.grid_load 0])))) 0] ++
      [Ev.step (Step.fields_load (o.iteration (collab (a ++ [Ev.step Step.grid_load 0] ++
        [Ev.step (Step.timeloop_load
          (o.iteration (collab (a ++ [Ev.step Step.grid_load 0])))) 0])))) 0] ++
      [Ev.step Step.buffer_load 0])
    with ⟨h, e⟩ | ⟨_, e⟩ <;> rw [e]
  · exact ⟨_, by simpa using h,
      by simp only [loadEvents, List.append_assoc, List.cons_append, List.nil_append]⟩
  · exact ⟨0, by simp [runSteps],
      by simp only [loadEvents, runSteps, List.append_assoc, List.cons_append,
        List.nil_append]⟩

theorem startupItems_split (n : String) :
    (startupItems n : List (Item R)) = beforeLoadItems n ++ (loadItems n ++ setvaluesItems) := by
  simp [startupItems, beforeLoadItems]

theorem startup_form (o : Oracle R) (n : String) :
    StartupForm o n (runSteps o (startupItems n) []).1 (runSteps o (startupItems n) []).2 := by
  rw [startupItems_split, runSteps_append]
  have ta := runSteps_tags o beforeLoadTags (beforeLoadItems n) [] (beforeLoadItems_tags n)
  by_cases h1 : (runSteps o (beforeLoadItems n) []).2 = true
  · simp only [h1, if_true, List.nil_append]
    generalize (runSteps o (beforeLoadItems n) []).1 = a at ta ⊢
    rw [runSteps_append]
    have tr := runSteps_tags o setvaluesTags setvaluesItems
      (a ++ (runSteps o (loadItems n) a).1) setvaluesItems_tags
    rcases loadItems_form o n a with ⟨h2, h3⟩ | ⟨rc, h2, h3⟩
    · left
      simp only [h2, Bool.false_eq_true, if_false, true_and]
      intro e he
      rcases List.mem_append.1 he with he | he
      · rw [← isStatsCreate_tag]
        exact classify_of_tags Ev.isStatsCreate ta (by decide) e he
      · exact h3 e he
    · right
      by_cases h4 : (runSteps o (loadItems n) a).2 = true
      · simp only [h4, if_true]
        refine ⟨a, rc, _, ta, tr, fun _ => h2.1 h4, ?_⟩
        rw [h3, List.append_assoc]
      · simp only [h4, if_false]
        refine ⟨a, rc, [], ta, by simp, fun h => absurd h (by simpa using h4), ?_⟩
        simp only [Bool.not_eq_true] at h4
        simp only [h4, Bool.false_eq_true, if_false, h3, List.append_nil]
  · left
    simp only [h1, if_false]
    simp only [Bool.not_eq_true] at h1
    refine ⟨h1, ?_⟩
    intro e he
    rw [← isStatsCreate_tag]
    exact classify_of_tags Ev.isStatsCreate ta (by decide) e he

theorem unique_split {α : Type} (P : α → Prop) {a b a' b' : List α} {x x' : α}
    (ha : ∀ e ∈ a, ¬ P e) (hb : ∀ e ∈ b, ¬ P e) (hx' : P x')
    (h : a ++ x :: b = a' ++ x' :: b') : a = a' ∧ x = x' ∧ b = b' := by
  induction a generalizing a' with
  | nil =>
    cases a' with
    | nil => simpa using h
    | cons y a' =>
      simp only [List.nil_append, List.cons_append, List.cons.injEq] at h
      exfalso
      exact hb x' (by rw [h.2]; simp) hx'
  | cons z a ih =>
    cases a' with
    | nil =>
      simp only [List.nil_append, List.cons_append, List.cons.injEq] at h
      exfalso
      exact ha z (by simp) (h.1 ▸ hx')
    | cons y a' =>
      simp only [List.cons_append, List.cons.injEq] at h
      obtain ⟨h1, h2, h3⟩ := ih (fun e he => ha e (by simp [he])) h.2
      exact ⟨by rw [h.1, h1], h2, h3⟩

theorem trace_eq_later (r : Run R) : r.trace = r.startup ++ r.later := by
  simp [Run.trace, Run.later]

theorem later_tags [Zero R] [Sub R] (o : Oracle R) (argv : List String) (fuel : Nat) :
    ∀ e ∈ (main o argv fuel).later, e.tag ∈ laterTags := by
  obtain ⟨_, h2, h3, h4, h5⟩ := main_tags o argv fuel
  intro e he
  simp only [Run.later, List.mem_append, List.mem_flatten] at he
  simp only [laterTags, List.mem_append]
  rcases he with ((he | he) | ⟨seg, hseg, he⟩) | he
  · exact Or.inl (Or.inl (Or.inl (h2 e he)))
  · exact Or.inl (Or.inl (Or.inr (h3 e he)))
  · exact Or.inl (Or.inr (h4 seg hseg e he))
  · exact Or.inr (h5 e he)

theorem split_after {α : Type} (Q : α → Prop) {l1 l2 pre post : List α} {e : α}
    (h1 : ∀ x ∈ l1, ¬ Q x) (he : Q e) (h : l1 ++ l2 = pre ++ e :: post) :
    ∃ pre', pre = l1 ++ pre' := by
  induction l1 generalizing pre with
  | nil => exact ⟨pre, rfl⟩
  | cons z l1 ih =>
    cases pre with
    | nil =>
      simp only [List.cons_append, List.nil_append, List.cons.injEq] at h
      exact absurd (h.1 ▸ he) (h1 z (by simp))
    | cons y pre =>
      simp only [List.cons_append, List.cons.injEq] at h
      obtain ⟨pre', hp⟩ := ih (fun x hx => h1 x (by simp [hx])) h.2
      exact ⟨pre', by rw [h.1, hp]; rfl⟩

/-- The position of the call of `stats.create` in an execution. -/
theorem trace_create [Zero R] [Sub R] (o : Oracle R) (argv : List String) (fuel : Nat) :
    ((∀ e ∈ (main o argv fuel).trace, e.isStatsCreate = false) ∧
      (main o argv fuel).later = [] ∧ (main o argv fuel).initial = [] ∧
      (main o argv fuel).passes = []) ∨
    ∃ a rc rest, (∀ e ∈ a, e.tag ∈ beforeLoadTags) ∧ (∀ e ∈ rest, e.tag ∈ setvaluesTags) ∧
      ((main o argv fuel).later ≠ [] → rc = 0) ∧
      (main o argv fuel).startup = a ++ loadEvents o (simnameOf argv) a rc ++ rest := by
  have hform := startup_form o (simnameOf argv)
  rcases main_form o argv fuel with hf | hf | hf
  · obtain ⟨hok, h1, h2, h3, h4, h5, _⟩ := hf
    have hl : (main o argv fuel).later = [] := by simp [Run.later, h2, h3, h4, h5]
    rcases hform with ⟨_, hc⟩ | ⟨a, rc, rest, ta, tr, _, hs⟩
    · left
      refine ⟨?_, hl, h3, h4⟩
      rw [trace_eq_later, hl, List.append_nil, h1]
      exact hc
    · right
      exact ⟨a, rc, rest, ta, tr, fun h => absurd hl h, by rw [h1, hs]⟩
  · obtain ⟨hok, h1, _⟩ := hf
    rcases hform with ⟨hno, _⟩ | ⟨a, rc, rest, ta, tr, hrc, hs⟩
    · rw [hok] at hno; cases hno
    · right
      exact ⟨a, rc, rest, ta, tr, fun _ => hrc hok, by rw [h1, hs]⟩
  · obtain ⟨hok, h1, _⟩ := hf
    rcases hform with ⟨hno, _⟩ | ⟨a, rc, rest, ta, tr, hrc, hs⟩
    · rw [hok] at hno; cases hno
    · right
      exact ⟨a, rc, rest, ta, tr, fun _ => hrc hok, by rw [h1, hs]⟩

theorem iteration_frame_load (o : Oracle R)
    (hframe : ∀ h s c, s = Step.buffer_load ∨ (∃ k, s = Step.fields_load k) →
      o.iteration (h ++ [Ev.step s c]) = o.iteration h)
    (p : List (Ev R)) (j : Int) :
    o.iteration (collab p) =
      o.iteration (collab (p ++ [Ev.step (.fields_load j) 0, Ev.step .buffer_load 0])) := by
  have : collab (p ++ [Ev.step (.fields_load j) 0, Ev.step .buffer_load 0]) =
      (collab p ++ [Ev.step (.fields_load j) 0]) ++ [Ev.step .buffer_load 0] := by
    simp [collab, Ev.isCall]
  rw [this, hframe _ _ _ (Or.inl rfl), hframe _ _ _ (Or.inr ⟨j, rfl⟩)]

theorem startup_no_statsExec [Zero R] [Sub R] (o : Oracle R) (argv : List String) (fuel : Nat) :
    ∀ e ∈ (main o argv fuel).startup, ¬ e.isStatsExec = true := by
  intro e he h
  have := classify_of_tags Ev.isStatsExec (main_tags o argv fuel).1 (by decide) e he
  rw [isStatsExec_tag, h] at this
  cases this

theorem later_no_create [Zero R] [Sub R] (o : Oracle R) (argv : List String) (fuel : Nat) :
    ∀ e ∈ (main o argv fuel).later, e.isStatsCreate = false := by
  intro e he
  rw [← isStatsCreate_tag]
  exact classify_of_tags Ev.isStatsCreate (later_tags o argv fuel) (by decide) e he

/-- Claim C9.  In every execution of `main` (`stats.cxx`): `stats.create` is
called at most once; a call of it has the simulation name and the iteration
held by `timeloop` at that moment as arguments and comes right after a
`fields.load` that returned zero and a `buffer.load` that returned zero, the
iteration passed to that `fields.load` being the same when `fields.load` and
`buffer.load` leave the iteration unchanged (both objects are constructed
without access to `timeloop`); every call of `stats.exec` or
`cross.exec` comes after a `stats.create` that returned zero; an execution
that reached the initial check or the loop has called `stats.create` exactly
once. -/
theorem stats_create_once [Zero R] [Sub R] (o : Oracle R) (argv : List String) (fuel : Nat) :
    (main o argv fuel).trace.countP Ev.isStatsCreate ≤ 1 ∧
    (∀ pre s rc post, (main o argv fuel).trace = pre ++ Ev.step s rc :: post →
      (Ev.step s rc : Ev R).isStatsCreate = true →
      s = .stats_create (simnameOf argv) (o.iteration (collab pre)) ∧
      ∃ p1, pre = p1 ++ [Ev.step (.fields_load (o.iteration (collab p1))) 0,
          Ev.step .buffer_load 0] ∧
        ((∀ h s' c, s' = Step.buffer_load ∨ (∃ k, s' = Step.fields_load k) →
            o.iteration (h ++ [Ev.step s' c]) = o.iteration h) →
          o.iteration (collab p1) = o.iteration (collab pre))) ∧
    (∀ pre e post, (main o argv fuel).trace = pre ++ e :: post → e.isStatsExec = true →
      ∃ i, Ev.step (.stats_create (simnameOf argv) i) 0 ∈ pre) ∧
    ((main o argv fuel).initial ≠ [] ∨ (main o argv fuel).passes ≠ [] →
      (main o argv fuel).trace.countP Ev.isStatsCreate = 1) := by
  have hlater := later_no_create o argv fuel
  have hstart := startup_no_statsExec o argv fuel
  rcases trace_create o argv fuel with ⟨hno, hl, hi, hp⟩ | ⟨a, rc0, rest, ta, tr, hrc, hs⟩
  · have hc : (main o argv fuel).trace.countP Ev.isStatsCreate = 0 := by
      rw [List.countP_eq_zero]
      intro e he
      simp [hno e he]
    refine ⟨by omega, ?_, ?_, ?_⟩
    · intro pre s rc post ht hcr
      have := hno (Ev.step s rc) (by rw [ht]; simp)
      rw [hcr] at this; cases this
    · intro pre e post ht he
      have hm : e ∈ (main o argv fuel).startup := by
        have : e ∈ (main o argv fuel).trace := by rw [ht]; simp
        rwa [trace_eq_later, hl, List.append_nil] at this
      exact absurd he (hstart e hm)
    · rintro (h | h)
      · exact absurd hi h
      · exact absurd hp h
  · have ha : ∀ e ∈ a, e.isStatsCreate = false := fun e he => by
      rw [← isStatsCreate_tag]
      exact classify_of_tags Ev.isStatsCreate ta (by decide) e he
    have hr : ∀ e ∈ rest, e.isStatsCreate = false := fun e he => by
      rw [← isStatsCreate_tag]
      exact classify_of_tags Ev.isStatsCreate tr (by decide) e he
    have htrace : (main o argv fuel).trace =
        a ++ loadEvents o (simnameOf argv) a rc0 ++ rest ++ (main o argv fuel).later := by
      rw [trace_eq_later, hs]
    have hc : (main o argv fuel).trace.countP Ev.isStatsCreate = 1 := by
      rw [htrace]
      have z1 : a.countP Ev.isStatsCreate = 0 :=
        List.countP_eq_zero.2 (fun e he => by simp [ha e he])
      have z2 : rest.countP Ev.isStatsCreate = 0 :=
        List.countP_eq_zero.2 (fun e he => by simp [hr e he])
      have z3 : (main o argv fuel).later.countP Ev.isStatsCreate = 0 :=
        List.countP_eq_zero.2 (fun e he => by simp [hlater e he])
      simp only [List.countP_append, z1, z2, z3]
      simp [loadEvents, List.countP_cons, Ev.isStatsCreate]
    refine ⟨by omega, ?_, ?_, fun _ => hc⟩
    · intro pre s rc post ht hcr
      have hsplit : (a ++ [Ev.step .grid_load 0,
            Ev.step (.timeloop_load (o.iteration (collab (a ++ [Ev.step .grid_load 0])))) 0,
            Ev.step (.fields_load (o.iteration (collab (a ++ [Ev.step .grid_load 0,
              Ev.step (.timeloop_load (o.iteration (collab (a ++ [Ev.step .grid_load 0])))) 0]))))
              0,
            Ev.step .buffer_load 0]) ++
          Ev.step (.stats_create (simnameOf argv) (o.iteration (collab (a ++
            [Ev.step .grid_load 0,
            Ev.step (.timeloop_load (o.iteration (collab (a ++ [Ev.step .grid_load 0])))) 0,
            Ev.step (.fields_load (o.iteration (collab (a ++ [Ev.step .grid_load 0,
              Ev.step (.timeloop_load (o.iteration (collab (a ++ [Ev.step .grid_load 0])))) 0]))))
              0,
            Ev.step .buffer_load 0])))) rc0 :: (rest ++ (main o argv fuel).later) =
          pre ++ Ev.step s rc :: post := by
        rw [← ht, htrace]
        simp [loadEvents]
      obtain ⟨e1, e2, _⟩ := unique_split (fun e : Ev R => e.isStatsCreate = true)
        (by
          intro e he
          rcases List.mem_append.1 he with he | he
          · simp [ha e he]
          · simp only [List.mem_cons, List.mem_singleton, List.not_mem_nil, or_false] at he
            rcases he with rfl | rfl | rfl | rfl <;> simp [Ev.isStatsCreate])
        (by
          intro e he
          rcases List.mem_append.1 he with he | he
          · simp [hr e he]
          · simp [hlater e he])
        hcr hsplit
      simp only [Ev.step.injEq] at e2
      refine ⟨?_, a ++ [Ev.step .grid_load 0,
        Ev.step (.timeloop_load (o.iteration (collab (a ++ [Ev.step .grid_load 0])))) 0], ?_, ?_⟩
      · rw [← e2.1, ← e1]
      · rw [← e1]; simp
      · intro hframe
        rw [← e1]
        have := iteration_frame_load o hframe (a ++ [Ev.step .grid_load 0,
          Ev.step (.timeloop_load (o.iteration (collab (a ++ [Ev.step .grid_load 0])))) 0])
          (o.iteration (collab (a ++ [Ev.step .grid_load 0,
            Ev.step (.timeloop_load (o.iteration (collab (a ++ [Ev.step .grid_load 0])))) 0])))
        simpa using this
    · intro pre e post ht he
      have ht' : (main o argv fuel).startup ++ (main o argv fuel).later = pre ++ e :: post := by
        rw [← trace_eq_later, ht]
      obtain ⟨pre', hpre⟩ := split_after (fun e : Ev R => e.isStatsExec = true) hstart he ht'
      have hl : (main o argv fuel).later ≠ [] := by
        rw [hpre, List.append_assoc] at ht'
        have := List.append_cancel_left ht'
        rw [this]; simp
      have h0 := hrc hl
      refine ⟨o.iteration (collab (a ++ [Ev.step .grid_load 0,
        Ev.step (.timeloop_load (o.iteration (collab (a ++ [Ev.step .grid_load 0])))) 0,
        Ev.step (.fields_load (o.iteration (collab (a ++ [Ev.step .grid_load 0,
          Ev.step (.timeloop_load (o.iteration (collab (a ++ [Ev.step .grid_load 0])))) 0]))))
          0,
        Ev.step .buffer_load 0])), ?_⟩
      rw [hpre, hs, h0]
      simp [loadEvents]

set_option maxRecDepth 100000 in
theorem stats_create_once_witness :
    (main cleanOracle [] 5).passes ≠ [] ∧
    (main cleanOracle [] 5).trace.countP Ev.isStatsCreate = 1 :=
  ⟨by decide, (stats_create_once cleanOracle [] 5).2.2.2 (Or.inr (by decide))⟩

theorem fileEvents_append (a b : List (Ev R)) :
    fileEvents (a ++ b) = fileEvents a ++ fileEvents b := by
  simp [fileEvents]

theorem fileEvents_eq_nil {l : List (Ev R)} (h : ∀ e ∈ l, e.isFile = false) :
    fileEvents l = [] := by
  simp only [fileEvents, List.filter_eq_nil_iff]
  intro e he
  simp [h e he]

theorem isFile_tag (e : Ev R) : e.tag.isFile = e.isFile := by
  cases e <;> rfl

theorem fileEvents_nil_of_tags {l : List (Ev R)} {tags : List (Ev Unit)}
    (h : ∀ e ∈ l, e.tag ∈ tags) (hc : ∀ τ ∈ tags, Ev.isFile τ = false) : fileEvents l = [] :=
  fileEvents_eq_nil fun e he => by
    rw [← isFile_tag]
    exact classify_of_tags Ev.isFile h hc e he

theorem lastAnswer_append (p : Query R → Bool) (a b : List (Ev R)) :
    lastAnswer p (a ++ b) = (lastAnswer p b).or (lastAnswer p a) := by
  induction a with
  | nil => simp [lastAnswer]
  | cons e a ih =>
    simp only [List.cons_append, lastAnswer, List.append_eq]
    rw [ih, Option.or_assoc]

theorem lastAnswer_eq_none {p : Query R → Bool} {l : List (Ev R)}
    (h : ∀ e ∈ l, e.answer p = none) : lastAnswer p l = none := by
  induction l with
  | nil => rfl
  | cons e l ih =>
    simp only [lastAnswer, ih (fun x hx => h x (by simp [hx])), Option.none_or]
    exact h e (by simp)

theorem lastAnswer_skip (p : Query R → Bool) (a b : List (Ev R))
    (h : ∀ e ∈ b, e.answer p = none) : lastAnswer p (a ++ b) = lastAnswer p a := by
  rw [lastAnswer_append, lastAnswer_eq_none h, Option.none_or]

theorem isLocalQuery_tag (e : Ev R) : e.tag.isLocalQuery = e.isLocalQuery := by
  cases e with
  | query q v => cases q <;> rfl
  | _ => rfl

theorem keepsLocals_of_not_query {e : Ev R} (h : e.isLocalQuery = false) : e.keepsLocals := by
  cases e with
  | query q v =>
    cases q <;>
      simp_all [Ev.isLocalQuery, Ev.keepsLocals, Ev.answer, Query.isGetcfl, Query.isGetdn,
        Query.isGettime]
  | _ => exact ⟨rfl, rfl, rfl⟩

theorem keepsLocals_of_tags {l : List (Ev R)} {tags : List (Ev Unit)}
    (h : ∀ e ∈ l, e.tag ∈ tags) (hc : ∀ τ ∈ tags, Ev.isLocalQuery τ = false) :
    ∀ e ∈ l, e.keepsLocals := fun e he =>
  keepsLocals_of_not_query (by
    rw [← isLocalQuery_tag]
    exact classify_of_tags Ev.isLocalQuery h hc e he)

theorem locals_skip {t b : List (Ev R)} {cfl dn start : R} (h : Locals t cfl dn start)
    (hb : ∀ e ∈ b, e.keepsLocals) : Locals (t ++ b) cfl dn start := by
  obtain ⟨h1, h2, h3⟩ := h
  exact ⟨by rw [lastAnswer_skip _ _ _ (fun e he => (hb e he).1), h1],
    by rw [lastAnswer_skip _ _ _ (fun e he => (hb e he).2.1), h2],
    by rw [lastAnswer_skip _ _ _ (fun e he => (hb e he).2.2), h3]⟩

theorem loopCheck_exact [Sub R] (o : Oracle R) (cfl dn start : R) (t : List (Ev R)) :
    LoopCheckExact o cfl dn start t (loopCheck o cfl dn start t).1
      (loopCheck o cfl dn start t).2 := by
  unfold loopCheck LoopCheckExact
  rcases gate_cases o .docheck t with h | h | h <;> rw [h]
  · left; exact ⟨rfl, rfl⟩
  · right; left; exact ⟨rfl, rfl⟩
  · right; right
    simp only [if_true, reductions_events]
    refine ⟨(reductions o (t ++ firedGate .docheck)).2.1,
      (reductions o (t ++ firedGate .docheck)).2.2.1,
      (reductions o (t ++ firedGate .docheck)).2.2.2.1,
      (reductions o (t ++ firedGate .docheck)).2.2.2.2, _, rfl, ?_⟩
    split
    · rename_i hm
      exact Or.inr ⟨hm, rfl⟩
    · rename_i hm
      exact Or.inl ⟨hm, by simp [firedGate, reductionCalls]⟩

theorem initialCheck_exact [Zero R] (o : Oracle R) (cfl dn : R) (t : List (Ev R)) :
    InitialCheckExact o cfl dn t (initialCheck o cfl dn t) := by
  unfold initialCheck InitialCheckExact
  rcases gate_cases o .docheck t with h | h | h <;> rw [h]
  · left; rfl
  · right; left; rfl
  · right; right
    simp only [if_true, reductions_events]
    refine ⟨(reductions o (t ++ firedGate .docheck)).2.1,
      (reductions o (t ++ firedGate .docheck)).2.2.1,
      (reductions o (t ++ firedGate .docheck)).2.2.2.1,
      (reductions o (t ++ firedGate .docheck)).2.2.2.2, ?_⟩
    split
    · rename_i hm
      exact Or.inr ⟨hm, rfl⟩
    · rename_i hm
      exact Or.inl ⟨hm, by simp [firedGate, reductionCalls]⟩

theorem passTail_split [Sub R] (o : Oracle R) (cfl dn start : R) (t : List (Ev R)) :
    ∃ front, (∀ e ∈ front, e.tag ∈ tailFrontTags) ∧
      (((passTail o cfl dn start t).events = front ∧
          (passTail o cfl dn start t).outcome ≠ .again) ∨
        ((passTail o cfl dn start t).events = front ++ (loopCheck o cfl dn start (t ++ front)).1 ∧
          (passTail o cfl dn start t).outcome = .again ∧
          (passTail o cfl dn start t).cfl = cfl ∧ (passTail o cfl dn start t).dn = dn ∧
          (passTail o cfl dn start t).start = (loopCheck o cfl dn start (t ++ front)).2)) := by
  unfold passTail
  cases h1 : o.loop (collab t)
  · exact ⟨[Ev.loop false], by simp, Or.inl ⟨rfl, by simp⟩⟩
  · simp only [Bool.not_true, Bool.false_eq_true, if_false]
    cases h2 : o.loop (collab (t ++ [Ev.loop true, Ev.act Action.postprocstep]))
    · exact ⟨[Ev.loop true, Ev.act .postprocstep, Ev.loop false], by simp,
        Or.inl ⟨rfl, by simp⟩⟩
    · simp only [Bool.not_true, Bool.false_eq_true, if_false]
      split
      · exact ⟨_, by simp, Or.inl ⟨rfl, by simp⟩⟩
      · split
        · exact ⟨_, by simp, Or.inl ⟨rfl, by simp⟩⟩
        · simp only [List.append_assoc, List.cons_append, List.nil_append]
          refine ⟨[Ev.loop true, Ev.act .postprocstep, Ev.loop true,
            Ev.step (.timeloop_load _) _, Ev.step (.fields_load _) _,
            Ev.act .boundary_exec], ?_, Or.inr ⟨rfl, trivial, trivial, trivial, rfl⟩⟩
          simp

theorem stepSize_locals (o : Oracle R) {cfl dn start : R} {t : List (Ev R)}
    (h : Locals t cfl dn start) :
    Locals (t ++ (stepSize o cfl dn t).1) (stepSize o cfl dn t).2.1 (stepSize o cfl dn t).2.2
      start := by
  unfold stepSize
  cases hs : o.flag (collab t) .insubstep
  · obtain ⟨_, _, h3⟩ := h
    simp only [Bool.not_false, if_true]
    refine ⟨?_, ?_, ?_⟩
    · simp [lastAnswer_append, lastAnswer, Ev.answer, Query.isGetcfl]
    · simp [lastAnswer_append, lastAnswer, Ev.answer, Query.isGetdn]
    · rw [lastAnswer_skip _ _ _ (by simp [Ev.answer, Query.isGettime]), h3]
  · simp only [Bool.not_true, Bool.false_eq_true, if_false]
    exact locals_skip h (by simp [Ev.keepsLocals, Ev.answer])

theorem loopCheck_locals [Sub R] (o : Oracle R) {cfl dn start : R} {t : List (Ev R)}
    (h : Locals t cfl dn start) :
    Locals (t ++ (loopCheck o cfl dn start t).1) cfl dn (loopCheck o cfl dn start t).2 := by
  obtain ⟨h1, h2, h3⟩ := h
  rcases loopCheck_exact o cfl dn start t with ⟨e1, e2⟩ | ⟨e1, e2⟩ |
    ⟨div, mom, tke, mass, e, e2, ⟨_, e1⟩ | ⟨_, e1⟩⟩ <;> rw [e1, e2]
  · exact locals_skip ⟨h1, h2, h3⟩ (by simp [Ev.keepsLocals, Ev.answer])
  · exact locals_skip ⟨h1, h2, h3⟩ (by simp [Ev.keepsLocals, Ev.answer])
  · refine ⟨?_, ?_, ?_⟩
    · rw [lastAnswer_skip _ _ _ (by
        simp [firedGate, reductionCalls, Ev.answer, Query.isGetcfl]), h1]
    · rw [lastAnswer_skip _ _ _ (by
        simp [firedGate, reductionCalls, Ev.answer, Query.isGetdn]), h2]
    · simp [lastAnswer_append, lastAnswer, Ev.answer, Query.isGettime]
  · refine ⟨?_, ?_, ?_⟩
    · rw [lastAnswer_skip _ _ _ (by
        simp [firedGate, reductionCalls, recordLine, Ev.answer, Query.isGetcfl]), h1]
    · rw [lastAnswer_skip _ _ _ (by
        simp [firedGate, reductionCalls, recordLine, Ev.answer, Query.isGetdn]), h2]
    · simp [lastAnswer_append, lastAnswer, Ev.answer, Query.isGettime, recordLine]

theorem pass_split [Sub R] (o : Oracle R) (cfl dn start : R) (t : List (Ev R))
    (hloc : Locals t cfl dn start) :
    ∃ front cfl' dn', (∀ e ∈ front, e.tag ∈ frontTags) ∧ Locals (t ++ front) cfl' dn' start ∧
      (((pass o cfl dn start t).events = front ∧ (pass o cfl dn start t).outcome ≠ .again) ∨
        ((pass o cfl dn start t).events =
            front ++ (loopCheck o cfl' dn' start (t ++ front)).1 ∧
          (pass o cfl dn start t).outcome = .again ∧
          (pass o cfl dn start t).cfl = cfl' ∧ (pass o cfl dn start t).dn = dn' ∧
          (pass o cfl dn start t).start = (loopCheck o cfl' dn' start (t ++ front)).2)) := by
  have hs := stepSize_tags (stepSize_form o cfl dn t)
  have hl1 := stepSize_locals o hloc
  have hops := operators_tags (operators_form o (t ++ (stepSize o cfl dn t).1))
  have hsv := save_tags (savePressure_form o (t ++ (stepSize o cfl dn t).1 ++
    operators o (t ++ (stepSize o cfl dn t).1)))
  have hst := stats_tags (statistics_form o (t ++ (stepSize o cfl dn t).1 ++
    operators o (t ++ (stepSize o cfl dn t).1) ++ savePressure o (t ++ (stepSize o cfl dn t).1 ++
    operators o (t ++ (stepSize o cfl dn t).1))))
  obtain ⟨tf, htf, hcase⟩ := passTail_split o (stepSize o cfl dn t).2.1 (stepSize o cfl dn t).2.2
    start (t ++ (stepSize o cfl dn t).1 ++
    operators o (t ++ (stepSize o cfl dn t).1) ++ savePressure o (t ++ (stepSize o cfl dn t).1 ++
    operators o (t ++ (stepSize o cfl dn t).1)) ++ statistics o (t ++ (stepSize o cfl dn t).1 ++
    operators o (t ++ (stepSize o cfl dn t).1) ++ savePressure o (t ++ (stepSize o cfl dn t).1 ++
    operators o (t ++ (stepSize o cfl dn t).1))))
  simp only [pass]
  generalize stepSize o cfl dn t = s at hs hl1 hops hsv hst hcase ⊢
  generalize operators o (t ++ s.1) = ops at hops hsv hst hcase ⊢
  generalize savePressure o (t ++ s.1 ++ ops) = sv at hsv hst hcase ⊢
  generalize statistics o (t ++ s.1 ++ ops ++ sv) = st at hst hcase ⊢
  have hrest : ∀ e ∈ ops ++ sv ++ st ++ tf, e.keepsLocals := by
    intro e he
    simp only [List.mem_append] at he
    rcases he with ((he | he) | he) | he
    · exact keepsLocals_of_tags hops (by decide) e he
    · exact keepsLocals_of_tags hsv (by decide) e he
    · exact keepsLocals_of_tags hst (by decide) e he
    · exact keepsLocals_of_tags htf (by decide) e he
  have hassoc : t ++ (s.1 ++ ops ++ sv ++ st ++ tf) = t ++ s.1 ++ ops ++ sv ++ st ++ tf := by
    simp only [List.append_assoc]
  refine ⟨s.1 ++ ops ++ sv ++ st ++ tf, s.2.1, s.2.2, ?_, ?_, ?_⟩
  · intro e he
    simp only [List.mem_append, frontTags] at he ⊢
    rcases he with (((he | he) | he) | he) | he
    · exact Or.inl (Or.inl (Or.inl (Or.inl (hs e he))))
    · exact Or.inl (Or.inl (Or.inl (Or.inr (hops e he))))
    · exact Or.inl (Or.inl (Or.inr (hsv e he)))
    · exact Or.inl (Or.inr (hst e he))
    · exact Or.inr (htf e he)
  · have := locals_skip hl1 hrest
    simpa only [List.append_assoc] using this
  · rw [hassoc]
    rcases hcase with ⟨h1, h2⟩ | ⟨h1, h2, h3, h4, h5⟩
    · left
      exact ⟨by rw [h1], h2⟩
    · right
      exact ⟨by rw [h1]; simp only [List.append_assoc], h2, h3, h4, h5⟩

theorem pass_locals [Sub R] (o : Oracle R) (cfl dn start : R) (t : List (Ev R))
    (hloc : Locals t cfl dn start) (hoc : (pass o cfl dn start t).outcome = .again) :
    Locals (t ++ (pass o cfl dn start t).events) (pass o cfl dn start t).cfl
      (pass o cfl dn start t).dn (pass o cfl dn start t).start := by
  obtain ⟨front, cfl', dn', _, hl, ⟨_, h2⟩ | ⟨h1, _, h3, h4, h5⟩⟩ := pass_split o cfl dn start t hloc
  · exact absurd hoc h2
  · rw [h1, h3, h4, h5, ← List.append_assoc]
    exact loopCheck_locals o hl

theorem timeLoop_nth_locals [Sub R] (o : Oracle R) (fuel : Nat) (cfl dn start : R)
    (t : List (Ev R)) (hloc : Locals t cfl dn start)
    (pre post : List (List (Ev R))) (seg : List (Ev R))
    (h : (timeLoop o fuel cfl dn start t).1 = pre ++ seg :: post) :
    ∃ cfl' dn' start', Locals (t ++ pre.flatten) cfl' dn' start' ∧
      seg = (pass o cfl' dn' start' (t ++ pre.flatten)).events := by
  induction fuel generalizing cfl dn start t pre with
  | zero => simp [timeLoop] at h
  | succ n ih =>
    simp only [timeLoop] at h
    cases hoc : (pass o cfl dn start t).outcome
    · simp only [hoc] at h
      cases pre with
      | nil =>
        simp only [List.nil_append, List.cons.injEq] at h
        exact ⟨cfl, dn, start, by simpa using hloc, by simpa using h.1.symm⟩
      | cons p pre =>
        simp only [List.cons_append, List.cons.injEq] at h
        obtain ⟨c, d, s, h1, h2⟩ := ih _ _ _ _ (pass_locals o cfl dn start t hloc hoc) pre h.2
        refine ⟨c, d, s, ?_, ?_⟩
        · rw [← h.1]; simpa using h1
        · rw [h2, ← h.1]; simp
    · simp only [hoc] at h
      cases pre with
      | nil =>
        simp only [List.nil_append, List.cons.injEq] at h
        exact ⟨cfl, dn, start, by simpa using hloc, by simpa using h.1.symm⟩
      | cons p pre =>
        simp only [List.cons_append, List.cons.injEq] at h
        have := h.2
        cases pre <;> simp at this
    · simp only [hoc] at h
      cases pre with
      | nil =>
        simp only [List.nil_append, List.cons.injEq] at h
        exact ⟨cfl, dn, start, by simpa using hloc, by simpa using h.1.symm⟩
      | cons p pre =>
        simp only [List.cons_append, List.cons.injEq] at h
        have := h.2
        cases pre <;> simp at this

theorem not_fired_of_tags {l : List (Ev R)} {tags : List (Ev Unit)} (p : Pred)
    (h : ∀ e ∈ l, e.tag ∈ tags) (hp : Ev.pred p true ∉ tags) : ¬ Fired p l := by
  intro hf
  have : Ev.pred p true ∈ l := hf.subset (by simp)
  exact hp (by simpa using h _ this)

theorem initial_numbers_locals (o : Oracle R) (t : List (Ev R)) :
    lastAnswer Query.isGetcfl (t ++ (initialNumbers o t).1) = some (initialNumbers o t).2.1 ∧
    lastAnswer Query.isGetdn (t ++ (initialNumbers o t).1) = some (initialNumbers o t).2.2 := by
  constructor
  · simp [initialNumbers, lastAnswer_append, lastAnswer, Ev.answer, Query.isGetcfl]
  · simp [initialNumbers, lastAnswer_append, lastAnswer, Ev.answer, Query.isGetdn]

theorem initial_writes [Zero R] (o : Oracle R) (h0 : ∀ h, o.mpiid h = 0) (cfl dn g : R)
    (t : List (Ev R)) (hc : lastAnswer Query.isGetcfl t = some cfl)
    (hd : lastAnswer Query.isGetdn t = some dn) :
    (¬ Fired .docheck (initialCheck o cfl dn t ++ [Ev.query .gettime g]) ∧
      fileEvents (initialCheck o cfl dn t ++ [Ev.query .gettime g]) = []) ∨
    CheckRecord o t (initialCheck o cfl dn t ++ [Ev.query .gettime g]) [] 0
      [Ev.query .gettime g] := by
  rcases initialCheck_exact o cfl dn t with e1 | e1 |
    ⟨div, mom, tke, mass, ⟨hm, _⟩ | ⟨_, e1⟩⟩
  · left; rw [e1]
    simp [Fired, fileEvents, Ev.isFile, List.infix_cons_iff, List.cons_prefix_cons]
  · left; rw [e1]
    simp [Fired, fileEvents, Ev.isFile, List.infix_cons_iff, List.cons_prefix_cons]
  · exact absurd (h0 _) hm
  · right
    refine ⟨[], div, mom, tke, mass, cfl, dn, ?_, rfl, by simpa using hc, by simpa using hd⟩
    rw [e1]
    simp [recordLine]

theorem pass_writes [Sub R] (o : Oracle R) (h0 : ∀ h, o.mpiid h = 0) (cfl dn start : R)
    (t : List (Ev R)) (hloc : Locals t cfl dn start) :
    (¬ Fired .docheck (pass o cfl dn start t).events ∧
      fileEvents (pass o cfl dn start t).events = []) ∨
    ∃ e, CheckRecord o t (pass o cfl dn start t).events [Ev.query .gettime e] (e - start) [] := by
  obtain ⟨front, cfl', dn', htags, hl, ⟨h1, _⟩ | ⟨h1, _⟩⟩ := pass_split o cfl dn start t hloc
  · left
    rw [h1]
    exact ⟨not_fired_of_tags _ htags (by decide), fileEvents_nil_of_tags htags (by decide)⟩
  · have hfront : fileEvents front = [] := fileEvents_nil_of_tags htags (by decide)
    have hnf : Ev.pred .docheck true ∉ front := not_mem_of_tags htags (by simp)
    rw [h1]
    rcases loopCheck_exact o cfl' dn' start (t ++ front) with ⟨e1, _⟩ | ⟨e1, _⟩ |
      ⟨div, mom, tke, mass, e, _, ⟨hm, _⟩ | ⟨_, e1⟩⟩
    · left
      rw [e1, fileEvents_append, hfront]
      refine ⟨?_, by simp [fileEvents, Ev.isFile]⟩
      unfold Fired
      rw [infix_pair_append_left hnf]
      simp [List.infix_cons_iff, List.cons_prefix_cons]
    · left
      rw [e1, fileEvents_append, hfront]
      refine ⟨?_, by simp [fileEvents, Ev.isFile]⟩
      unfold Fired
      rw [infix_pair_append_left hnf]
      simp [List.infix_cons_iff, List.cons_prefix_cons]
    · exact absurd (h0 _) hm
    · right
      refine ⟨e, front, div, mom, tke, mass, cfl', dn', ?_, hfront, hl.1, hl.2.1⟩
      rw [e1]
      simp [recordLine]

theorem initialCheck_keeps [Zero R] (o : Oracle R) (cfl dn : R) (t : List (Ev R)) :
    ∀ e ∈ initialCheck o cfl dn t, e.keepsLocals := by
  rcases initialCheck_exact o cfl dn t with e1 | e1 |
    ⟨div, mom, tke, mass, ⟨_, e1⟩ | ⟨_, e1⟩⟩ <;> rw [e1] <;>
    simp [Ev.keepsLocals, Ev.answer, firedGate, reductionCalls, recordLine, Query.isGetcfl,
      Query.isGetdn, Query.isGettime]

/-- The parts of an execution whose startup succeeded and that was not killed
at line 129. -/
theorem main_parts [Zero R] [Sub R] (o : Oracle R) (argv : List String) (fuel : Nat)
    (hok : startupOk o argv = true) (hkl : (main o argv fuel).killed = false) :
    ∃ cfl dn g,
      (main o argv fuel).prologue =
        (openSummary o (simnameOf argv) (main o argv fuel).startup).1 ++
          (initialNumbers o ((main o argv fuel).startup ++
            (openSummary o (simnameOf argv) (main o argv fuel).startup).1)).1 ∧
      lastAnswer Query.isGetcfl ((main o argv fuel).startup ++ (main o argv fuel).prologue) =
        some cfl ∧
      lastAnswer Query.isGetdn ((main o argv fuel).startup ++ (main o argv fuel).prologue) =
        some dn ∧
      (main o argv fuel).initial =
        initialCheck o cfl dn ((main o argv fuel).startup ++ (main o argv fuel).prologue) ++
          [Ev.query .gettime g] ∧
      Locals ((main o argv fuel).startup ++ (main o argv fuel).prologue ++
        (main o argv fuel).initial) cfl dn g ∧
      (main o argv fuel).passes = (timeLoop o fuel cfl dn g ((main o argv fuel).startup ++
        (main o argv fuel).prologue ++ (main o argv fuel).initial)).1 ∧
      (main o argv fuel).closing = (if (main o argv fuel).exit = some 0 then
        closeSummary o ((main o argv fuel).startup ++ (main o argv fuel).prologue ++
          (main o argv fuel).initial ++ (main o argv fuel).passes.flatten) else []) := by
  unfold startupOk at hok
  have k := openSummary_of_not_killed o argv fuel hkl hok
  simp only [main, hok, k, Bool.not_true, Bool.false_eq_true, if_false]
  generalize (runSteps o (startupItems (simnameOf argv)) []).1 = t0
  generalize hhd : (openSummary o (simnameOf argv) t0).1 = hd
  obtain ⟨l1, l2⟩ := initial_numbers_locals o (t0 ++ hd)
  generalize initialNumbers o (t0 ++ hd) = nn at l1 l2 ⊢
  have l1' : lastAnswer Query.isGetcfl (t0 ++ (hd ++ nn.1)) = some nn.2.1 := by
    rw [← List.append_assoc]; exact l1
  have l2' : lastAnswer Query.isGetdn (t0 ++ (hd ++ nn.1)) = some nn.2.2 := by
    rw [← List.append_assoc]; exact l2
  refine ⟨nn.2.1, nn.2.2, (catchStart o (t0 ++ hd ++ nn.1 ++
    initialCheck o nn.2.1 nn.2.2 (t0 ++ hd ++ nn.1))).2, trivial, l1', l2', ?_, ?_, ?_, ?_⟩
  · simp only [List.append_assoc, catchStart]
  · have hk := initialCheck_keeps o nn.2.1 nn.2.2 (t0 ++ hd ++ nn.1)
    simp only [List.append_assoc] at hk ⊢
    generalize initialCheck o nn.2.1 nn.2.2 (t0 ++ (hd ++ nn.1)) = ic at hk ⊢
    have e1 : t0 ++ (hd ++ (nn.1 ++ (ic ++ (catchStart o (t0 ++ (hd ++ (nn.1 ++ ic)))).1))) =
        (t0 ++ (hd ++ nn.1)) ++ ic ++ (catchStart o (t0 ++ (hd ++ (nn.1 ++ ic)))).1 := by
      simp only [List.append_assoc]
    rw [e1]
    refine ⟨?_, ?_, ?_⟩
    · rw [lastAnswer_skip _ _ _ (by simp [catchStart, Ev.answer, Query.isGetcfl]),
        lastAnswer_skip _ _ _ (fun e he => (hk e he).1), l1']
    · rw [lastAnswer_skip _ _ _ (by simp [catchStart, Ev.answer, Query.isGetdn]),
        lastAnswer_skip _ _ _ (fun e he => (hk e he).2.1), l2']
    · simp [catchStart, lastAnswer_append, lastAnswer, Ev.answer, Query.isGettime]
  · simp only [List.append_assoc]
  · simp only [List.append_assoc]

theorem isFprintf_tag (e : Ev R) : e.tag.isFprintf = e.isFprintf := by
  cases e with
  | file f => cases f <;> rfl
  | _ => rfl

theorem fileEvents_nil_of_no_fprintf {l : List (Ev R)} {tags : List (Ev Unit)}
    (h : ∀ e ∈ l, e.tag ∈ tags)
    (hc : ∀ τ ∈ tags, (Ev.isFile τ && !Ev.isFprintf τ) = false)
    (hn : ¬ ∃ e ∈ l, e.isFprintf = true) : fileEvents l = [] := by
  apply fileEvents_eq_nil
  intro e he
  have h1 := classify_of_tags (fun τ => Ev.isFile τ && !Ev.isFprintf τ) h hc e he
  simp only [isFile_tag, isFprintf_tag] at h1
  have h2 : e.isFprintf = false := by
    rw [Bool.eq_false_iff]
    exact fun hh => hn ⟨e, he, hh⟩
  rw [h2] at h1
  simpa using h1

theorem fileEvents_flatten (ps : List (List (Ev R))) :
    fileEvents ps.flatten = (ps.map fileEvents).flatten := by
  induction ps with
  | nil => rfl
  | cons p ps ih => simp only [List.flatten_cons, fileEvents_append, ih, List.map_cons]

theorem fileEvents_startup [Zero R] [Sub R] (o : Oracle R) (argv : List String) (fuel : Nat) :
    fileEvents (main o argv fuel).startup = [] :=
  fileEvents_nil_of_tags (main_tags o argv fuel).1 (by decide)

theorem fileEvents_trace [Zero R] [Sub R] (o : Oracle R) (argv : List String) (fuel : Nat) :
    fileEvents (main o argv fuel).trace =
      fileEvents (main o argv fuel).prologue ++ fileEvents (main o argv fuel).initial ++
        ((main o argv fuel).passes.map fileEvents).flatten ++
        fileEvents (main o argv fuel).closing := by
  simp only [Run.trace, fileEvents_append, fileEvents_startup, fileEvents_flatten,
    List.nil_append]

theorem fileEvents_initialNumbers (o : Oracle R) (t : List (Ev R)) :
    fileEvents (initialNumbers o t).1 = [] := by
  simp [initialNumbers, fileEvents, Ev.isFile]

theorem fileEvents_rank_nonzero [Zero R] [Sub R] (o : Oracle R) (argv : List String)
    (fuel : Nat) (h0 : ∀ h, o.mpiid h ≠ 0) : fileEvents (main o argv fuel).trace = [] := by
  rw [fileEvents_trace]
  obtain ⟨_, _, t3, t4, _⟩ := main_tags o argv fuel
  have hini : fileEvents (main o argv fuel).initial = [] := by
    refine fileEvents_nil_of_no_fprintf t3 (by decide) ?_
    rintro ⟨e, he, hf⟩
    obtain ⟨⟨_, _, _, _, _, _, _, _, _, c7⟩, _⟩ :=
      segment_gates o argv fuel _ (Or.inl rfl)
    exact c7 h0 ((exists_isFprintf_iff _).1 ⟨e, he, hf⟩)
  have hpass : ∀ seg ∈ (main o argv fuel).passes, fileEvents seg = [] := by
    intro seg hseg
    refine fileEvents_nil_of_no_fprintf (t4 seg hseg) (by decide) ?_
    rintro ⟨e, he, hf⟩
    obtain ⟨⟨_, _, _, _, _, _, _, _, _, c7⟩, _⟩ :=
      segment_gates o argv fuel seg (Or.inr hseg)
    exact c7 h0 ((exists_isFprintf_iff _).1 ⟨e, he, hf⟩)
  have hpasses : ((main o argv fuel).passes.map fileEvents).flatten = [] := by
    rw [List.flatten_eq_nil_iff]
    intro l hl
    obtain ⟨seg, hseg, rfl⟩ := List.mem_map.1 hl
    exact hpass seg hseg
  have hpro : fileEvents (main o argv fuel).prologue = [] := by
    rcases main_form o argv fuel with hf | hf | hf
    · rw [hf.2.2.1]; rfl
    · rw [hf.2.2.1]
      simp [openSummary, h0, fileEvents]
    · rw [hf.2.2.1, fileEvents_append, fileEvents_initialNumbers]
      simp [openSummary, h0, fileEvents]
  have hclo : fileEvents (main o argv fuel).closing = [] := by
    rcases main_form o argv fuel with hf | hf | hf
    · rw [hf.2.2.2.2.2.1]; rfl
    · rw [hf.2.2.2.2.2.1]; rfl
    · rw [hf.2.2.2.2.2.1]
      split
      · simp [closeSummary, h0, fileEvents]
      · rfl
  rw [hini, hpasses, hpro, hclo]
  rfl

/-- An execution in which `std::fopen` returns a stream is not killed at line
129. -/
theorem not_killed_of_opened [Zero R] [Sub R] (o : Oracle R) (argv : List String)
    (fuel : Nat)
    (hop : o.fopen (collab (main o argv fuel).startup) (simnameOf argv ++ ".out") "a" = true) :
    (main o argv fuel).killed = false := by
  rcases main_form o argv fuel with hf | hf | hf
  · exact hf.2.2.2.2.2.2.2
  · have := hf.2.2.2.2.2.2.2.1
    simp only [openSummary, hop, if_true] at this
    split at this <;> cases this
  · exact hf.2.2.2.2.2.2.2

/-- Claim C6, amended.  A process whose `mpiid` is not 0 performs no operation on
the summary file.  No process performs one when a startup call fails.  The
operations are those of lines 123-132, of the initial check, of the passes in
order, and of lines 256-258.  On a process whose `mpiid` is 0, whose startup
succeeded and for which `std::fopen` returned a stream: lines 123-132 open
`<simname>.out` for appending, set the buffering and write the header with the
columns `ITER, TIME, CPUDT, DT, CFL, DNUM, DIV, MOM, TKE, MASS`, once; the file
is closed exactly when `main` returns 0;
the initial check and every pass write nothing when the check does not fire
and otherwise exactly one record, which holds in this order the iteration,
time, time used, step, the last answers of `getcfl` and `getdn`, and the
answers of `pres.check`, `checkmom`, `checktke`, `checkmass` of that check; the
time used is 0 in the initial check and in a pass the answer of `gettime` in
the check minus the previous answer of `gettime`. -/
theorem summary_output [Zero R] [Sub R] (o : Oracle R) (argv : List String) (fuel : Nat) :
    ((∀ h, o.mpiid h ≠ 0) → fileEvents (main o argv fuel).trace = []) ∧
    (startupOk o argv = false → fileEvents (main o argv fuel).trace = []) ∧
    fileEvents (main o argv fuel).trace =
      fileEvents (main o argv fuel).prologue ++ fileEvents (main o argv fuel).initial ++
        ((main o argv fuel).passes.map fileEvents).flatten ++
        fileEvents (main o argv fuel).closing ∧
    ((∀ h, o.mpiid h = 0) → startupOk o argv = true →
      o.fopen (collab (main o argv fuel).startup) (simnameOf argv ++ ".out") "a" = true →
      fileEvents (main o argv fuel).prologue =
        [Ev.file (.fopen (simnameOf argv ++ ".out") "a" true), Ev.file .setvbuf,
         Ev.file (.fprintf headerFormat
          [.str "ITER", .str "TIME", .str "CPUDT", .str "DT", .str "CFL", .str "DNUM",
           .str "DIV", .str "MOM", .str "TKE", .str "MASS"])] ∧
      fileEvents (main o argv fuel).closing =
        (if (main o argv fuel).exit = some 0 then [Ev.file .fclose] else []) ∧
      ((¬ Fired .docheck (main o argv fuel).initial ∧
          fileEvents (main o argv fuel).initial = []) ∨
        ∃ g, CheckRecord o ((main o argv fuel).startup ++ (main o argv fuel).prologue)
          (main o argv fuel).initial [] 0 [Ev.query .gettime g]) ∧
      (∀ pre seg post, (main o argv fuel).passes = pre ++ seg :: post →
        (¬ Fired .docheck seg ∧ fileEvents seg = []) ∨
        ∃ e start,
          lastAnswer Query.isGettime ((main o argv fuel).startup ++
            (main o argv fuel).prologue ++ (main o argv fuel).initial ++ pre.flatten) =
              some start ∧
          CheckRecord o ((main o argv fuel).startup ++ (main o argv fuel).prologue ++
            (main o argv fuel).initial ++ pre.flatten) seg [Ev.query .gettime e]
            (e - start) [])) := by
  refine ⟨fileEvents_rank_nonzero o argv fuel, ?_, fileEvents_trace o argv fuel, ?_⟩
  · intro hbad
    rcases main_form o argv fuel with hf | hf | hf
    · obtain ⟨_, _, h2, h3, h4, h5, _⟩ := hf
      rw [fileEvents_trace, h2, h3, h4, h5]
      rfl
    · unfold startupOk at hbad
      rw [hf.1] at hbad
      cases hbad
    · unfold startupOk at hbad
      rw [hf.1] at hbad
      cases hbad
  · intro h0 hok hop
    obtain ⟨cfl, dn, g, p1, p2, p3, p4, p5, p6, p7⟩ :=
      main_parts o argv fuel hok (not_killed_of_opened o argv fuel hop)
    refine ⟨?_, ?_, ?_, ?_⟩
    · rw [p1, fileEvents_append, fileEvents_initialNumbers]
      simp [openSummary, h0, hop, fileEvents, headerLine, columns, Ev.isFile]
    · rw [p7]
      split
      · simp [closeSummary, h0, fileEvents, Ev.isFile]
      · rfl
    · rw [p4]
      rcases initial_writes o h0 cfl dn g _ p2 p3 with h | h
      · exact Or.inl h
      · exact Or.inr ⟨g, h⟩
    · intro pre seg post hps
      rw [p6] at hps
      obtain ⟨c', d', s', hloc, hseg⟩ := timeLoop_nth_locals o fuel cfl dn g _ p5 pre post seg hps
      rw [hseg]
      rcases pass_writes o h0 c' d' s' _ hloc with h | ⟨e, h⟩
      · exact Or.inl h
      · exact Or.inr ⟨e, s', hloc.2.2, h⟩

set_option maxRecDepth 100000 in
theorem summary_output_witness :
    startupOk cleanOracle [] = true ∧
    fileEvents (main cleanOracle [] 5).prologue =
      [Ev.file (.fopen (simnameOf [] ++ ".out") "a" true), Ev.file .setvbuf,
       Ev.file (.fprintf headerFormat
        [.str "ITER", .str "TIME", .str "CPUDT", .str "DT", .str "CFL", .str "DNUM",
         .str "DIV", .str "MOM", .str "TKE", .str "MASS"])] :=
  ⟨by decide, ((summary_output cleanOracle [] 5).2.2.2 (fun _ => rfl) (by decide) rfl).1⟩

set_option maxRecDepth 100000 in
/-- Claim C6 does not hold as stated: the process with `mpiid == 0` whose call
of `input.readinifile` fails writes no header line; it performs no operation
on the summary file at all. -/
theorem summary_header_counterexample :
    (∀ h, failedStartOracle.mpiid h = 0) ∧
    ∀ e ∈ (main failedStartOracle [] 1).trace, e.isFile = false :=
  ⟨fun _ => rfl, by decide⟩

set_option maxRecDepth 100000 in
/-- Claim C5 at an input where the code breaks it.  Every collaborator call
succeeds and `std::fopen` returns `NULL`.  The process with `mpiid == 0` hands
the null stream to `std::setvbuf` (lines 128-129) and is killed there: it
makes no call after the startup, neither `boundary.exec` nor any operator,
and `main` does not return.  The process with `mpiid == 1`, given the same
answers, goes on to `boundary.exec`, runs three passes and returns 0.  The two
sequences of collaborator calls differ. -/
theorem rank_dependent_unopened :
    (main unopenedOracle [] 5).killed = true ∧
    (main unopenedOracle [] 5).exit = none ∧
    (main unopenedOracle [] 5).trace =
      (main unopenedOracle [] 5).startup ++
        [Ev.file (.fopen "microhh.out" "a" false), Ev.file .setvbuf] ∧
    (main (unopenedOracle.withMpiid fun _ => 1) [] 5).killed = false ∧
    (main (unopenedOracle.withMpiid fun _ => 1) [] 5).exit = some 0 ∧
    (main (unopenedOracle.withMpiid fun _ => 1) [] 5).passes.length = 3 ∧
    Ev.act .boundary_exec ∈ (main (unopenedOracle.withMpiid fun _ => 1) [] 5).trace ∧
    Ev.act .boundary_exec ∉ (main unopenedOracle [] 5).trace ∧
    collab (main (unopenedOracle.withMpiid fun _ => 1) [] 5).trace ≠
      collab (main unopenedOracle [] 5).trace := by
  decide

end Stats

namespace TestMpi

/-- The possible executions of `main`. -/
theorem main_cases (o : Oracle) :
    ((main o).2 = 0 ∧ ∃ npx npy, (main o).1 = cleanTrace npx npy) ∨
    ((main o).2 = 1 ∧ ∃ pre s rc, (main o).1 = pre ++ [Ev.step s rc] ∧ rc ≠ 0 ∧
      (∀ e ∈ pre, e.failed = false) ∧
      (∀ e ∈ pre, e ≠ Ev.act .create ∧ e ≠ Ev.act .checkBoundary ∧
        e ≠ Ev.act .checkTranspose)) := by
  unfold main
  simp only
  split
  · rename_i h
    right
    exact ⟨rfl, _, _, _, rfl, h, by simp [Ev.failed], by simp⟩
  rename_i h1
  simp only [ne_eq, Decidable.not_not] at h1
  simp only [h1]
  split
  · rename_i h
    right
    exact ⟨rfl, _, _, _, rfl, h, by simp [Ev.failed], by simp⟩
  rename_i h2
  simp only [ne_eq, Decidable.not_not] at h2
  simp only [h2]
  split
  · rename_i h
    right
    exact ⟨rfl, _, _, _, rfl, h, by simp [Ev.failed], by simp⟩
  rename_i h3
  simp only [ne_eq, Decidable.not_not] at h3
  simp only [h3]
  split
  · rename_i h
    right
    exact ⟨rfl, _, _, _, rfl, h, by simp [Ev.failed], by simp⟩
  rename_i h4
  simp only [ne_eq, Decidable.not_not] at h4
  simp only [h4]
  split
  · rename_i h
    right
    exact ⟨rfl, _, _, _, rfl, h, by simp [Ev.failed], by simp⟩
  rename_i h5
  simp only [ne_eq, Decidable.not_not] at h5
  simp only [h5]
  split
  · rename_i h
    right
    exact ⟨rfl, _, _, _, rfl, h, by simp [Ev.failed], by simp⟩
  rename_i h7
  simp only [ne_eq, Decidable.not_not] at h7
  simp only [h7]
  left
  exact ⟨trivial, _, _, rfl⟩

/-- Claim C10.  `main` of `testmpi.cxx` returns 0 exactly when every setup call
it made returned zero; then it has made all six setup calls and run
`checkLayout`, `mpicheck.create`, `checkBoundary`, `checkTranspose` once each
in this order.  Otherwise it returns 1 and the failing setup call is its last
event, every earlier one having returned zero.  `checkBoundary` and
`checkTranspose` are run only in an execution that returns 0. -/
theorem testmpi_main (o : Oracle) :
    ((main o).2 = 0 ↔ ∀ s rc, Ev.step s rc ∈ (main o).1 → rc = 0) ∧
    ((main o).2 = 0 →
      (∃ npx npy, (main o).1 = cleanTrace npx npy) ∧
      (main o).1.filter Ev.isCheck =
        [Ev.act .checkLayout, Ev.act .create, Ev.act .checkBoundary, Ev.act .checkTranspose]) ∧
    ((main o).2 ≠ 0 →
      (main o).2 = 1 ∧ ∃ pre s rc, (main o).1 = pre ++ [Ev.step s rc] ∧ rc ≠ 0 ∧
        (∀ e ∈ pre, e.failed = false)) ∧
    (Ev.act .checkBoundary ∈ (main o).1 ∨ Ev.act .checkTranspose ∈ (main o).1 →
      (main o).2 = 0) := by
  rcases main_cases o with ⟨h0, npx, npy, ht⟩ | ⟨h1, pre, s, rc, ht, hrc, hpre, hchk⟩
  · refine ⟨⟨fun _ => ?_, fun _ => h0⟩, fun _ => ⟨⟨npx, npy, ht⟩, ?_⟩,
      fun h => absurd h0 h, fun _ => h0⟩
    · intro s rc hm
      rw [ht] at hm
      simp [cleanTrace] at hm
      rcases hm with h | h | h | h | h | h <;> exact h.2
    · rw [ht]; rfl
  · refine ⟨⟨fun h => ?_, fun h => ?_⟩, fun h => ?_, fun _ => ⟨h1, pre, s, rc, ht, hrc, hpre⟩,
      fun h => ?_⟩
    · rw [h1] at h; cases h
    · exact absurd (h s rc (by rw [ht]; simp)) hrc
    · rw [h1] at h; cases h
    · exfalso
      rw [ht] at h
      simp only [List.mem_append, List.mem_singleton, reduceCtorEq, or_false] at h
      rcases h with h | h
      · exact (hchk _ h).2.1 rfl
      · exact (hchk _ h).2.2 rfl

theorem testmpi_main_witness :
    ((main allSucceed).2 = 0 ∧ ∃ npx npy, (main allSucceed).1 = cleanTrace npx npy) ∧
    ((main createFails).2 ≠ 0 ∧ (main createFails).2 = 1) :=
  ⟨⟨by decide, ((testmpi_main allSucceed).2.1 (by decide)).1⟩,
   ⟨by decide, ((testmpi_main createFails).2.2.1 (by decide)).1⟩⟩

end TestMpi
